import Mathlib

/-!
# xfce4-appfinder custom actions (`src/appfinder-actions.c`)

A shallow embedding of the rule store and dispatcher of `appfinder-actions.c`:
the rule list, its loading from the xfconf channel, the canonical sort, the
command expander and `xfce_appfinder_actions_execute`.

Conventions of the embedding.

* A C string is the list of its bytes (`CStr`); a nullable `gchar *` is an
  `Option CStr`.
* The enum field `type` is kept as an integer, because the change handler
  stores whatever integer the channel delivers; only equality with the two
  enumerators is ever observed.
* GLib, xfconf and libxfce4util are libraries outside the repository.  The
  pure helpers the code relies on (`strcmp`, `g_strcmp0`, `g_str_has_prefix`,
  `g_strchug`, `g_slist_sort`, `g_snprintf`) are written out after their
  documented behaviour; the regular expression engine, the variable expander
  and the process spawner are parameters (`Collaborators`).
* A call that breaks a documented precondition of a GLib function (a `NULL`
  string where a string is required, a `GError **` whose target is not `NULL`
  on entry) has no defined behaviour; the dispatcher model returns `none`
  there.
-/

namespace Appfinder

/-! ## C strings -/

/-- A C string: the bytes before the terminating NUL. -/
abbrev CStr := List Nat

/-- The bytes of an ASCII literal. -/
def cstr (s : String) : CStr := s.toList.map Char.toNat

/-- C `strcmp`: bytes are compared as unsigned values, the first difference
decides, a proper prefix is smaller.  Only the sign of the result is specified
by C; the model returns -1, 0 or 1. -/
def strcmp : CStr → CStr → Int
  | [], [] => 0
  | [], _ :: _ => -1
  | _ :: _, [] => 1
  | a :: as, b :: bs => if a < b then -1 else if b < a then 1 else strcmp as bs

/-- GLib `g_strcmp0`: `strcmp` that accepts `NULL`, which sorts before every
string. -/
def g_strcmp0 : Option CStr → Option CStr → Int
  | none, none => 0
  | none, some _ => -1
  | some _, none => 1
  | some a, some b => strcmp a b

/-- GLib `g_str_has_prefix (str, pfx)` for non-NULL arguments: byte-exact. -/
def g_str_has_prefix : CStr → CStr → Bool
  | _, [] => true
  | [], _ :: _ => false
  | c :: str, p :: pfx => if c = p then g_str_has_prefix str pfx else false

/-- GLib `g_ascii_isspace`: space, `\t`, `\n`, `\f`, `\r`. -/
def g_ascii_isspace (c : Nat) : Bool :=
  c = 32 || c = 9 || c = 10 || c = 12 || c = 13

/-- GLib `g_strchug`: removes the leading white space of a string. -/
def g_strchug : CStr → CStr
  | [] => []
  | c :: s => if g_ascii_isspace c then g_strchug s else c :: s

/-! ## GLib singly linked list sort -/

/-- Inner loop of `g_slist_sort_merge` once the head `a` of the first list is
fixed: `rest` continues the merge after `a` has been emitted. -/
def g_slist_sort_merge_aux {α : Type} (compare_func : α → α → Int) (a : α) (l1 : List α)
    (rest : List α → List α) : List α → List α
  | [] => a :: l1
  | b :: l2 =>
    if compare_func a b ≤ 0 then a :: rest (b :: l2)
    else b :: g_slist_sort_merge_aux compare_func a l1 rest l2

/-- GLib `g_slist_sort_merge`: while both lists are non-empty the head of the
first list is taken when `compare_func (l1->data, l2->data) <= 0`, else the
head of the second; the remaining list is appended. -/
def g_slist_sort_merge {α : Type} (compare_func : α → α → Int) : List α → List α → List α
  | [], l2 => l2
  | a :: l1, l2 =>
    g_slist_sort_merge_aux compare_func a l1 (g_slist_sort_merge compare_func l1) l2

/-- GLib `g_slist_sort_real`: a list of at least two elements is cut after its
first `n / 2` elements, both halves are sorted recursively and merged.  The
first argument bounds the recursion depth. -/
def g_slist_sort_real {α : Type} (compare_func : α → α → Int) : Nat → List α → List α
  | 0, list => list
  | _ + 1, [] => []
  | _ + 1, [a] => [a]
  | depth + 1, a :: b :: l =>
    let list := a :: b :: l
    let half := list.length / 2
    g_slist_sort_merge compare_func
      (g_slist_sort_real compare_func depth (list.take half))
      (g_slist_sort_real compare_func depth (list.drop half))

/-- GLib `g_slist_sort`: stable merge sort of a list. -/
def g_slist_sort {α : Type} (list : List α) (compare_func : α → α → Int) : List α :=
  g_slist_sort_real compare_func list.length list

/-! ## The xfconf channel -/

/-- A property value of the configuration channel, as far as the rule store
reads it: an integer, a string, an array of integers (the id list), or a value
of any other type.  Arrays with elements that are not integers are left out:
the code reads every element with `g_value_get_int`. -/
inductive XfconfValue where
  | int (n : Int)
  | string (s : CStr)
  | array (ids : List Int)
  | other
deriving DecidableEq

/-- The channel as a key-value store: property name to value. -/
abbrev XfconfChannel := CStr → Option XfconfValue

/-- A channel with no property. -/
def xfconf_channel_empty : XfconfChannel := fun _ => none

/-- Library `xfconf_channel_has_property`. -/
def xfconf_channel_has_property (channel : XfconfChannel) (property : CStr) : Bool :=
  (channel property).isSome

/-- Library `xfconf_channel_get_arrayv`: the array stored under the property,
`NULL` when the property is missing or not an array. -/
def xfconf_channel_get_arrayv (channel : XfconfChannel) (property : CStr) : Option (List Int) :=
  match channel property with
  | some (XfconfValue.array ids) => some ids
  | _ => none

/-- Library `xfconf_channel_get_int`: the stored integer, or the default when
the property is missing or not an integer. -/
def xfconf_channel_get_int (channel : XfconfChannel) (property : CStr) (default_value : Int) : Int :=
  match channel property with
  | some (XfconfValue.int n) => n
  | _ => default_value

/-- Library `xfconf_channel_get_string`: a copy of the stored string, or the
default when the property is missing or not a string. -/
def xfconf_channel_get_string (channel : XfconfChannel) (property : CStr)
    (default_value : Option CStr) : Option CStr :=
  match channel property with
  | some (XfconfValue.string s) => some s
  | _ => default_value

/-- Store one value under a property name. -/
def xfconf_channel_set (channel : XfconfChannel) (property : CStr) (v : XfconfValue) :
    XfconfChannel :=
  fun k => if k = property then some v else channel k

/-- Library `xfconf_channel_set_int`. -/
def xfconf_channel_set_int (channel : XfconfChannel) (property : CStr) (n : Int) : XfconfChannel :=
  xfconf_channel_set channel property (XfconfValue.int n)

/-- Library `xfconf_channel_set_string`; xfconf refuses a `NULL` value and
stores nothing. -/
def xfconf_channel_set_string (channel : XfconfChannel) (property : CStr) (s : Option CStr) :
    XfconfChannel :=
  match s with
  | some v => xfconf_channel_set channel property (XfconfValue.string v)
  | none => channel

/-- Library `xfconf_channel_set_arrayv` for an array of integers. -/
def xfconf_channel_set_arrayv (channel : XfconfChannel) (property : CStr) (ids : List Int) :
    XfconfChannel :=
  xfconf_channel_set channel property (XfconfValue.array ids)

/-- The text `printf` writes for `%d`. -/
def format_d (n : Int) : CStr :=
  if n < 0 then 45 :: (Nat.toDigits 10 n.natAbs).map Char.toNat
  else (Nat.toDigits 10 n.natAbs).map Char.toNat

/-- The property name built by
`g_snprintf (prop, sizeof (prop), "/actions/action-%d/<field>", unique_id)`
with `gchar prop[32]`: the formatted text cut to 31 bytes. -/
def action_prop (unique_id : Int) (field : CStr) : CStr :=
  (cstr "/actions/action-" ++ format_d unique_id ++ cstr "/" ++ field).take 31

/-! ## Rules and the rule store -/

/-- Enumerator `XFCE_APPFINDER_ACTION_TYPE_PREFIX` of `AppfinderActionType`. -/
def XFCE_APPFINDER_ACTION_TYPE_PREFIX : Int := 0

/-- Enumerator `XFCE_APPFINDER_ACTION_TYPE_REGEX` of `AppfinderActionType`. -/
def XFCE_APPFINDER_ACTION_TYPE_REGEX : Int := 1

/-- The struct `_XfceAppfinderAction`; `R` is the type of a compiled `GRegex`. -/
structure XfceAppfinderAction (R : Type) where
  type : Int
  unique_id : Int
  pattern : Option CStr
  command : Option CStr
  regex : Option R
deriving DecidableEq

/-- The struct `_XfceAppfinderActions`. -/
structure XfceAppfinderActions (R : Type) where
  channel : XfconfChannel
  property_watch_id : Nat
  actions : List (XfceAppfinderAction R)

/-- The table `defaults[]` of `xfce_appfinder_actions_load_defaults`:
type, pattern, command. -/
def defaults : List (Int × CStr × CStr) :=
  [ (XFCE_APPFINDER_ACTION_TYPE_REGEX,
      cstr "^(file|http|https):\\/\\/(.*)$",
      cstr "exo-open \\0"),
    (XFCE_APPFINDER_ACTION_TYPE_PREFIX,
      cstr "!",
      cstr "exo-open --launch TerminalEmulator %s"),
    (XFCE_APPFINDER_ACTION_TYPE_PREFIX,
      cstr "!w",
      cstr "exo-open --launch WebBrowser http://en.wikipedia.org/wiki/%s"),
    (XFCE_APPFINDER_ACTION_TYPE_PREFIX,
      cstr "#",
      cstr "exo-open --launch TerminalEmulator man %s") ]

/-- The loop of `xfce_appfinder_actions_load_defaults` from index `i` on: each
table row becomes a rule with id `i + 1`, prepended to the list. -/
def load_defaults_loop {R : Type} :
    List (Int × CStr × CStr) → Nat → List (XfceAppfinderAction R) → List (XfceAppfinderAction R)
  | [], _, actions => actions
  | d :: rest, i, actions =>
    load_defaults_loop rest (i + 1)
      ({ type := d.1, unique_id := (i : Int) + 1, pattern := some d.2.1,
         command := some d.2.2, regex := none } :: actions)

/-- Source `xfce_appfinder_actions_load_defaults`. -/
def xfce_appfinder_actions_load_defaults {R : Type} (actions : XfceAppfinderActions R) :
    XfceAppfinderActions R :=
  { actions with actions := load_defaults_loop defaults 0 actions.actions }

/-- Source `xfce_appfinder_actions_sort`, the comparison handed to
`g_slist_sort`. -/
def xfce_appfinder_actions_sort {R : Type} (action_a action_b : XfceAppfinderAction R) : Int :=
  if action_a.type ≠ action_b.type then
    (if action_a.type = XFCE_APPFINDER_ACTION_TYPE_PREFIX then -1 else 1)
  else
    - g_strcmp0 action_a.pattern action_b.pattern

/-- The `for` loop of `xfce_appfinder_actions_save` over the rule list: with
`save_actions` the three sub-keys of every rule are written. -/
def save_loop {R : Type} (save_actions : Bool) :
    List (XfceAppfinderAction R) → XfconfChannel → XfconfChannel
  | [], channel => channel
  | action :: li, channel =>
    if save_actions then
      let c1 := xfconf_channel_set_int channel (action_prop action.unique_id (cstr "type"))
        action.type
      let c2 := xfconf_channel_set_string c1 (action_prop action.unique_id (cstr "pattern"))
        action.pattern
      let c3 := xfconf_channel_set_string c2 (action_prop action.unique_id (cstr "command"))
        action.command
      save_loop save_actions li c3
    else save_loop save_actions li channel

/-- Source `xfce_appfinder_actions_save`: the ids of the rules, in list order,
are written as the array `/actions`; the store's own change handler is blocked
meanwhile, so no notification reaches the rule list. -/
def xfce_appfinder_actions_save {R : Type} (actions : XfceAppfinderActions R)
    (save_actions : Bool) : XfceAppfinderActions R :=
  let channel := save_loop save_actions actions.actions actions.channel
  { actions with
    channel := xfconf_channel_set_arrayv channel (cstr "/actions")
      (actions.actions.map (fun a => a.unique_id)) }

/-- The `for` loop of `xfce_appfinder_actions_load` over the id array. -/
def load_loop {R : Type} (channel : XfconfChannel) :
    List Int → List (XfceAppfinderAction R) → List (XfceAppfinderAction R)
  | [], actions => actions
  | unique_id :: array, actions =>
    let type := xfconf_channel_get_int channel (action_prop unique_id (cstr "type")) (-1)
    if type < XFCE_APPFINDER_ACTION_TYPE_PREFIX ∨ type > XFCE_APPFINDER_ACTION_TYPE_REGEX then
      load_loop channel array actions
    else
      let pattern :=
        xfconf_channel_get_string channel (action_prop unique_id (cstr "pattern")) none
      let command :=
        xfconf_channel_get_string channel (action_prop unique_id (cstr "command")) none
      if pattern ≠ none ∧ command ≠ none then
        load_loop channel array
          ({ type := type, unique_id := unique_id, pattern := pattern, command := command,
             regex := none } :: actions)
      else load_loop channel array actions

/-- Source `xfce_appfinder_actions_load`. -/
def xfce_appfinder_actions_load {R : Type} (actions : XfceAppfinderActions R) :
    XfceAppfinderActions R :=
  let loaded :=
    if xfconf_channel_has_property actions.channel (cstr "/actions") then
      match xfconf_channel_get_arrayv actions.channel (cstr "/actions") with
      | some array => { actions with actions := load_loop actions.channel array actions.actions }
      | none => actions
    else
      xfce_appfinder_actions_save (xfce_appfinder_actions_load_defaults actions) true
  { loaded with actions := g_slist_sort loaded.actions xfce_appfinder_actions_sort }

/-- Source `xfce_appfinder_actions_init`: the fresh object has an empty rule
list and no signal handler when `load` runs; afterwards the change handler is
connected (`g_signal_connect` returns a positive handler id, of which only
`> 0` is ever tested). -/
def xfce_appfinder_actions_init (R : Type) (channel : XfconfChannel) : XfceAppfinderActions R :=
  let actions : XfceAppfinderActions R :=
    xfce_appfinder_actions_load { channel := channel, property_watch_id := 0, actions := [] }
  { actions with property_watch_id := 1 }

/-! ## Command expansion for prefix rules -/

/-- The `switch (*++p)` of `xfce_appfinder_actions_expand_command`: what is
appended for the character after a `%`. -/
def expand_switch (text : CStr) (len : Nat) (c : Nat) : CStr :=
  if c = 115 then g_strchug (text.drop len)
  else if c = 83 then text
  else if c = 37 then [37]
  else []

/-- The `for (p = action->command; *p != '\0'; ++p)` loop of
`xfce_appfinder_actions_expand_command`: the bytes appended to `string` for the
rest of the command starting at `p`. -/
def expand_command_loop (text : CStr) (len : Nat) : CStr → CStr
  | [] => []
  | [p0] => [p0]
  | p0 :: p1 :: p =>
    if p0 = 37 then expand_switch text len p1 ++ expand_command_loop text len p
    else p0 :: expand_command_loop text len (p1 :: p)

/-- Source `xfce_appfinder_actions_expand_command`.  `strlen (action->pattern)`
needs a pattern; the only caller runs it after `g_str_has_prefix` succeeded, so
the pattern is a string no longer than `text` there (the length 0 given for a
`NULL` pattern is never used by the dispatcher). -/
def xfce_appfinder_actions_expand_command {R : Type} (action : XfceAppfinderAction R)
    (text : CStr) : Option CStr :=
  match action.command with
  | none => none
  | some command =>
    let len := (action.pattern.getD []).length
    some (expand_command_loop text len command)

/-- One piece of a prefix-rule command template, as the specification lists
them. -/
inductive Token where
  | literal (c : Nat)
  | remainder
  | whole
  | percent
  | dropped
deriving DecidableEq

/-- Reference tokenizer, from the words of the specification: a single pass
from left to right in which `%s`, `%S`, `%%` and `%` followed by any other
character are two-character tokens, and everything else, a final `%` included,
is a literal. -/
def tokenize : CStr → List Token
  | [] => []
  | [c] => [Token.literal c]
  | c :: d :: rest =>
    if c ≠ 37 then Token.literal c :: tokenize (d :: rest)
    else if d = 115 then Token.remainder :: tokenize rest
    else if d = 83 then Token.whole :: tokenize rest
    else if d = 37 then Token.percent :: tokenize rest
    else Token.dropped :: tokenize rest

/-- Reference meaning of a token: a literal is copied, `%s` is the text after
the first `length pattern` bytes with leading ASCII white space removed, `%S`
is the text, `%%` is one `%`, an unknown token is nothing. -/
def Token.emit (pattern text : CStr) : Token → CStr
  | Token.literal c => [c]
  | Token.remainder => (text.drop pattern.length).dropWhile g_ascii_isspace
  | Token.whole => text
  | Token.percent => [37]
  | Token.dropped => []

/-- Reference expansion of a prefix-rule command: the concatenation of what its
tokens emit; substituted text is output, never scanned. -/
def expand_command_reference (pattern command text : CStr) : CStr :=
  ((tokenize command).map (Token.emit pattern text)).flatten

/-! ## The dispatcher -/

/-- Modelled from the spec: the result enum `XfceAppfinderActionsResult` of
`appfinder-actions.h`, which is not among the sources; its three values are the
outcomes NoRuleMatched, Succeeded and Failed. -/
inductive XfceAppfinderActionsResult where
  | XFCE_APPFINDER_ACTIONS_NOTHING_FOUND
  | XFCE_APPFINDER_ACTIONS_SUCCEED
  | XFCE_APPFINDER_ACTIONS_ERROR
deriving DecidableEq

export XfceAppfinderActionsResult (XFCE_APPFINDER_ACTIONS_NOTHING_FOUND
  XFCE_APPFINDER_ACTIONS_SUCCEED XFCE_APPFINDER_ACTIONS_ERROR)

/-- The library collaborators of the dispatcher.  `R` is a compiled `GRegex`,
`M` a `GMatchInfo` of a successful match, `E` a `GError`.

* `g_regex_new pattern`: the compiled expression or the error;
* `g_regex_match regex text`: the match information when the text matches;
* `g_match_info_expand_references match_info command`: the expanded string or
  the error;
* `xfce_expand_variables cmd`: the command with variables expanded;
* `xfce_spawn_command_line_on_screen cmd`: success, or the error of a failed
  spawn. -/
structure Collaborators (R M E : Type) where
  g_regex_new : CStr → Except E R
  g_regex_match : R → CStr → Option M
  g_match_info_expand_references : M → CStr → Except E CStr
  xfce_expand_variables : CStr → CStr
  xfce_spawn_command_line_on_screen : CStr → Except E Unit

/-- The local `GError *err` of `xfce_appfinder_actions_execute`: `NULL`, a live
error, or a pointer left behind by `g_error_free`. -/
inductive GErrorPtr (E : Type) where
  | null
  | live (e : E)
  | freed
deriving DecidableEq

/-- The variables of `xfce_appfinder_actions_execute` that the loop changes:
`result`, `err`, `cmd`, the caller's `*error`, and the lines written by
`g_message` (the pattern that failed to compile and the error). -/
structure ExecuteLocals (E : Type) where
  result : XfceAppfinderActionsResult
  err : GErrorPtr E
  cmd : Option CStr
  error : Option E
  messages : List (CStr × E)
deriving DecidableEq

/-- The locals at entry of `xfce_appfinder_actions_execute`; the function
requires `*error == NULL`. -/
def execute_entry (E : Type) : ExecuteLocals E :=
  { result := XFCE_APPFINDER_ACTIONS_NOTHING_FOUND, err := GErrorPtr.null, cmd := none,
    error := none, messages := [] }

/-- First half of `case XFCE_APPFINDER_ACTION_TYPE_REGEX`: the compiled
expression of the rule, cached or freshly compiled.  The value is `none` where
`g_regex_new` is called against its contract (no pattern, or `err` not `NULL`);
otherwise the rule with its cache, the locals, and the expression if one is
available (none after the message and the `break`). -/
def execute_regex_compile {R M E : Type} (C : Collaborators R M E)
    (action : XfceAppfinderAction R) (st : ExecuteLocals E) :
    Option (XfceAppfinderAction R × ExecuteLocals E × Option R) :=
  match action.regex with
  | some regex => some (action, st, some regex)
  | none =>
    match st.err, action.pattern with
    | GErrorPtr.null, some pattern =>
      match C.g_regex_new pattern with
      | Except.ok regex => some ({ action with regex := some regex }, st, some regex)
      | Except.error e =>
        some (action,
          { st with err := GErrorPtr.freed, messages := st.messages ++ [(pattern, e)] }, none)
    | _, _ => none

/-- Second half of `case XFCE_APPFINDER_ACTION_TYPE_REGEX`: on a match the
command is expanded with `g_match_info_expand_references`, and an expansion
error is stored in `*error`.  `result` is left as it is.  The value is `none`
where the expansion is called against its contract (no command, or `err` not
`NULL`). -/
def execute_regex_match {R M E : Type} (C : Collaborators R M E) (text : CStr)
    (action : XfceAppfinderAction R) (regex : R) (st : ExecuteLocals E) :
    Option (ExecuteLocals E) :=
  match C.g_regex_match regex text with
  | none => some st
  | some match_info =>
    match st.err, action.command with
    | GErrorPtr.null, some command =>
      match C.g_match_info_expand_references match_info command with
      | Except.ok cmd => some { st with cmd := some cmd }
      | Except.error e => some { st with cmd := none, err := GErrorPtr.live e, error := some e }
    | _, _ => none

/-- The `switch (action->type)` of `xfce_appfinder_actions_execute` for one
rule.  A type that is neither enumerator selects no case. -/
def execute_switch {R M E : Type} (C : Collaborators R M E) (text : CStr)
    (action : XfceAppfinderAction R) (st : ExecuteLocals E) :
    Option (XfceAppfinderAction R × ExecuteLocals E) :=
  if action.type = XFCE_APPFINDER_ACTION_TYPE_PREFIX then
    match action.pattern with
    | none => none
    | some pattern =>
      if g_str_has_prefix text pattern then
        some (action,
          { st with cmd := xfce_appfinder_actions_expand_command action text,
                    result := XFCE_APPFINDER_ACTIONS_SUCCEED })
      else some (action, st)
  else if action.type = XFCE_APPFINDER_ACTION_TYPE_REGEX then
    match execute_regex_compile C action st with
    | none => none
    | some (action1, st1, none) => some (action1, st1)
    | some (action1, st1, some regex) =>
      match execute_regex_match C text action1 regex st1 with
      | none => none
      | some st2 => some (action1, st2)
  else some (action, st)

/-- The `for` loop of `xfce_appfinder_actions_execute`: it runs while `result`
is `NOTHING_FOUND` and rules remain.  Returned are the rules with their regex
caches and the locals after the loop. -/
def execute_loop {R M E : Type} (C : Collaborators R M E) (text : CStr) :
    List (XfceAppfinderAction R) → ExecuteLocals E →
    Option (List (XfceAppfinderAction R) × ExecuteLocals E)
  | [], st => some ([], st)
  | action :: li, st =>
    if st.result = XFCE_APPFINDER_ACTIONS_NOTHING_FOUND then
      match execute_switch C text action st with
      | none => none
      | some (action1, st1) =>
        match execute_loop C text li st1 with
        | none => none
        | some (li1, st2) => some (action1 :: li1, st2)
    else some (action :: li, st)

/-- What a call of `xfce_appfinder_actions_execute` leaves behind: the rule
list (regex caches updated), the return value, the caller's `*error`, the
command lines handed to `xfce_spawn_command_line_on_screen` in order, and the
`g_message` lines. -/
structure ExecuteOutcome (R E : Type) where
  actions : List (XfceAppfinderAction R)
  result : XfceAppfinderActionsResult
  error : Option E
  spawned : List CStr
  messages : List (CStr × E)
deriving DecidableEq

/-- The part of `xfce_appfinder_actions_execute` after the loop: the command is
spawned when `result` is `SUCCEED`, `cmd` is not `NULL` and `*error` is `NULL`. -/
def execute_spawn {R M E : Type} (C : Collaborators R M E)
    (li : List (XfceAppfinderAction R)) (st : ExecuteLocals E) : ExecuteOutcome R E :=
  match st.result, st.cmd, st.error with
  | XFCE_APPFINDER_ACTIONS_SUCCEED, some cmd, none =>
    let expanded := C.xfce_expand_variables cmd
    match C.xfce_spawn_command_line_on_screen expanded with
    | Except.ok _ =>
      { actions := li, result := XFCE_APPFINDER_ACTIONS_SUCCEED, error := none,
        spawned := [expanded], messages := st.messages }
    | Except.error e =>
      { actions := li, result := XFCE_APPFINDER_ACTIONS_ERROR, error := some e,
        spawned := [expanded], messages := st.messages }
  | _, _, _ =>
    { actions := li, result := st.result, error := st.error, spawned := [],
      messages := st.messages }

/-- Source `xfce_appfinder_actions_execute` on the rule list `actions->actions`
with a non-NULL `text` and `*error == NULL` at entry; `none` where the C code
leaves defined behaviour (see `execute_regex_compile`, `execute_regex_match`
and the `NULL` pattern of a prefix rule). -/
def xfce_appfinder_actions_execute {R M E : Type} (C : Collaborators R M E)
    (actions : List (XfceAppfinderAction R)) (text : CStr) : Option (ExecuteOutcome R E) :=
  match execute_loop C text actions (execute_entry E) with
  | none => none
  | some (li, st) => some (execute_spawn C li st)

/-! ## A small regular expression engine for concrete runs

The collaborators are parameters of every general statement.  Concrete runs
need one instance; this one is deliberately tiny.  A pattern compiles unless it
is `(`; the URL pattern of the default table matches a text that starts with
`file://`, `http://` or `https://`, every other pattern matches the texts that
contain it as a prefix; the match information is the matched text; reference
expansion replaces `\0` by the match and fails on a backslash that ends the
template. -/

/-- Reference expansion of the small engine. -/
def ref_expand_references (m : CStr) : CStr → Except CStr CStr
  | [] => Except.ok []
  | [c] => if c = 92 then Except.error (cstr "stray final \\") else Except.ok [c]
  | c :: d :: rest =>
    if c = 92 ∧ d = 48 then
      match ref_expand_references m rest with
      | Except.ok out => Except.ok (m ++ out)
      | Except.error e => Except.error e
    else
      match ref_expand_references m (d :: rest) with
      | Except.ok out => Except.ok (c :: out)
      | Except.error e => Except.error e

/-- The small engine together with an identity variable expander and a spawner
that fails exactly on the command line `false`. -/
def ref_collaborators : Collaborators CStr CStr CStr where
  g_regex_new := fun pattern =>
    if pattern = cstr "(" then Except.error (cstr "missing )") else Except.ok pattern
  g_regex_match := fun regex text =>
    if regex = cstr "^(file|http|https):\\/\\/(.*)$" then
      (if g_str_has_prefix text (cstr "file://") || g_str_has_prefix text (cstr "http://")
          || g_str_has_prefix text (cstr "https://") then some text else none)
    else if g_str_has_prefix text regex then some regex else none
  g_match_info_expand_references := ref_expand_references
  xfce_expand_variables := fun cmd => cmd
  xfce_spawn_command_line_on_screen := fun cmd =>
    if cmd = cstr "false" then Except.error (cstr "spawn failed") else Except.ok ()

/-! ## Auxiliary views of the load loop -/

/-- The rule that one pass of the loop of `xfce_appfinder_actions_load` adds
for a listed id, or `none` when the pass adds nothing. -/
def load_entry (R : Type) (channel : XfconfChannel) (unique_id : Int) :
    Option (XfceAppfinderAction R) :=
  let type := xfconf_channel_get_int channel (action_prop unique_id (cstr "type")) (-1)
  if type < XFCE_APPFINDER_ACTION_TYPE_PREFIX ∨ type > XFCE_APPFINDER_ACTION_TYPE_REGEX then none
  else
    match xfconf_channel_get_string channel (action_prop unique_id (cstr "pattern")) none,
      xfconf_channel_get_string channel (action_prop unique_id (cstr "command")) none with
    | some pattern, some command =>
      some { type := type, unique_id := unique_id, pattern := some pattern,
             command := some command, regex := none }
    | _, _ => none

/-- The rule list right after `xfce_appfinder_actions_load_defaults` on an
empty list: the table rows in reverse, with ids 4, 3, 2, 1. -/
def default_actions (R : Type) : List (XfceAppfinderAction R) :=
  load_defaults_loop defaults 0 []

/-- The rule list that `xfce_appfinder_actions_load` hands to the sort, for a
store that starts with an empty list. -/
def loaded_unsorted (R : Type) (channel : XfconfChannel) : List (XfceAppfinderAction R) :=
  if xfconf_channel_has_property channel (cstr "/actions") then
    match xfconf_channel_get_arrayv channel (cstr "/actions") with
    | some array => (array.filterMap (load_entry R channel)).reverse
    | none => []
  else default_actions R

/-! ## The ordering invariant -/

/-- The ordering invariant of the rule list: no Regex rule stands before a
Prefix rule, and of two rules of the same kind the earlier one has the pattern
that is byte-wise lexically greater or equal. -/
def ordering_invariant {R : Type} (l : List (XfceAppfinderAction R)) : Prop :=
  l.Pairwise (fun a b =>
    ¬ (a.type = XFCE_APPFINDER_ACTION_TYPE_REGEX ∧ b.type = XFCE_APPFINDER_ACTION_TYPE_PREFIX) ∧
    (a.type = b.type → 0 ≤ g_strcmp0 a.pattern b.pattern))

/-- The kind of a rule is one of the two enumerators. -/
def valid_type {R : Type} (a : XfceAppfinderAction R) : Prop :=
  a.type = XFCE_APPFINDER_ACTION_TYPE_PREFIX ∨ a.type = XFCE_APPFINDER_ACTION_TYPE_REGEX

/-! ## Vocabulary of the dispatcher statements -/

/-- A rule matches `text` as a Prefix rule: its kind is Prefix and its pattern
is a string that `text` starts with. -/
def prefix_matches {R : Type} (text : CStr) (a : XfceAppfinderAction R) : Prop :=
  a.type = XFCE_APPFINDER_ACTION_TYPE_PREFIX ∧
    ∃ p, a.pattern = some p ∧ g_str_has_prefix text p = true

/-- The length of the pattern of a rule, `strlen (action->pattern)`. -/
def pattern_length {R : Type} (a : XfceAppfinderAction R) : Nat :=
  (a.pattern.getD []).length

/-- The default rule set: the rule list of a store initialised on a channel
with no property. -/
def default_rule_set (R : Type) : List (XfceAppfinderAction R) :=
  (xfce_appfinder_actions_init R xfconf_channel_empty).actions

/-- A Prefix rule that carries a pattern which is not a prefix of `text`
(nothing is asked of rules of another kind). -/
def prefix_misses {R : Type} (text : CStr) (a : XfceAppfinderAction R) : Prop :=
  a.type = XFCE_APPFINDER_ACTION_TYPE_PREFIX →
    ∃ p, a.pattern = some p ∧ g_str_has_prefix text p = false

/-- A Regex rule whose expression is available, cached or by compiling its
pattern, and does not match `text` (nothing is asked of rules of another
kind). -/
def regex_misses {R M E : Type} (C : Collaborators R M E) (text : CStr)
    (a : XfceAppfinderAction R) : Prop :=
  a.type = XFCE_APPFINDER_ACTION_TYPE_REGEX →
    ∃ regex, (a.regex = some regex ∨
        (a.regex = none ∧ ∃ p, a.pattern = some p ∧ C.g_regex_new p = Except.ok regex)) ∧
      C.g_regex_match regex text = none

/-- The name of a sub-key as the specification writes the key layout,
`/actions/action-<id>/<field>`, in full.  The name the code looks up is
`action_prop`, built with `g_snprintf` into `prop[32]`; the two are the same
for ids printed with at most seven characters (`action_prop_full`). -/
def spec_sub_key (unique_id : Int) (field : CStr) : CStr :=
  cstr "/actions/action-" ++ format_d unique_id ++ cstr "/" ++ field

/-- The persisted entry of a listed id is well formed, in the key layout of
the specification: its type sub-key holds one of the two enumerators and its
pattern and command sub-keys hold strings. -/
def entry_well_formed (channel : XfconfChannel) (unique_id : Int) : Prop :=
  (channel (spec_sub_key unique_id (cstr "type")) =
      some (XfconfValue.int XFCE_APPFINDER_ACTION_TYPE_PREFIX) ∨
    channel (spec_sub_key unique_id (cstr "type")) =
      some (XfconfValue.int XFCE_APPFINDER_ACTION_TYPE_REGEX)) ∧
  (∃ p, channel (spec_sub_key unique_id (cstr "pattern")) = some (XfconfValue.string p)) ∧
  (∃ c, channel (spec_sub_key unique_id (cstr "command")) = some (XfconfValue.string c))

/-- The persisted entry of a listed id as `xfce_appfinder_actions_load` reads
it: under the property names of `action_prop` the type is one of the two
enumerators and the pattern and the command are strings. -/
def entry_readable (channel : XfconfChannel) (unique_id : Int) : Prop :=
  (channel (action_prop unique_id (cstr "type")) =
      some (XfconfValue.int XFCE_APPFINDER_ACTION_TYPE_PREFIX) ∨
    channel (action_prop unique_id (cstr "type")) =
      some (XfconfValue.int XFCE_APPFINDER_ACTION_TYPE_REGEX)) ∧
  (∃ p, channel (action_prop unique_id (cstr "pattern")) = some (XfconfValue.string p)) ∧
  (∃ c, channel (action_prop unique_id (cstr "command")) = some (XfconfValue.string c))

/-- A persisted configuration in the key layout of the specification, for one
id: the array lists the id, and its three sub-keys hold the kind Prefix, the
pattern `!` and the command `xterm -e %s`. -/
def one_entry_channel (unique_id : Int) : XfconfChannel :=
  xfconf_channel_set_arrayv
    (xfconf_channel_set_string
      (xfconf_channel_set_string
        (xfconf_channel_set_int xfconf_channel_empty (spec_sub_key unique_id (cstr "type")) 0)
        (spec_sub_key unique_id (cstr "pattern")) (some (cstr "!")))
      (spec_sub_key unique_id (cstr "command")) (some (cstr "xterm -e %s")))
    (cstr "/actions") [unique_id]

/-- A small persisted configuration: the array lists the ids 1 and 2, the entry
of id 1 is complete, the entry of id 2 has no sub-key at all. -/
def sample_channel : XfconfChannel :=
  xfconf_channel_set_arrayv
    (xfconf_channel_set_string
      (xfconf_channel_set_string
        (xfconf_channel_set_int xfconf_channel_empty (action_prop 1 (cstr "type")) 0)
        (action_prop 1 (cstr "pattern")) (some (cstr "!")))
      (action_prop 1 (cstr "command")) (some (cstr "xterm -e %s")))
    (cstr "/actions") [1, 2]

/-- The persisted fields of a rule: id, kind, pattern and command (everything
but the regex cache). -/
def rule_fields {R : Type} (a : XfceAppfinderAction R) : Int × Int × Option CStr × Option CStr :=
  (a.unique_id, a.type, a.pattern, a.command)

/-- A persisted configuration whose only entry, id 1, is a Prefix rule with the
empty string as pattern and as command. -/
def empty_strings_channel : XfconfChannel :=
  xfconf_channel_set_arrayv
    (xfconf_channel_set_string
      (xfconf_channel_set_string
        (xfconf_channel_set_int xfconf_channel_empty (action_prop 1 (cstr "type")) 0)
        (action_prop 1 (cstr "pattern")) (some (cstr "")))
      (action_prop 1 (cstr "command")) (some (cstr "")))
    (cstr "/actions") [1]

/-- A persisted configuration that lists two Regex rules, ids 1 and 2, both
with the pattern `(`. -/
def two_bad_regex_channel : XfconfChannel :=
  xfconf_channel_set_arrayv
    (xfconf_channel_set_string
      (xfconf_channel_set_string
        (xfconf_channel_set_int
          (xfconf_channel_set_string
            (xfconf_channel_set_string
              (xfconf_channel_set_int xfconf_channel_empty (action_prop 1 (cstr "type")) 1)
              (action_prop 1 (cstr "pattern")) (some (cstr "(")))
            (action_prop 1 (cstr "command")) (some (cstr "true")))
          (action_prop 2 (cstr "type")) 1)
        (action_prop 2 (cstr "pattern")) (some (cstr "(")))
      (action_prop 2 (cstr "command")) (some (cstr "true")))
    (cstr "/actions") [1, 2]

/-! ## The change handler -/

/-- C `isspace` in the C locale: space and the bytes 9 to 13. -/
def isspace (c : Nat) : Bool := c = 32 || (9 ≤ c && c ≤ 13)

/-- C `isdigit`. -/
def isdigit (c : Nat) : Bool := 48 ≤ c && c ≤ 57

/-- Literal characters of a `sscanf` format: each must be the next byte of the
input; the rest of the input is returned. -/
def scan_literal : CStr → CStr → Option CStr
  | [], s => some s
  | _ :: _, [] => none
  | f :: fmt, c :: s => if f = c then scan_literal fmt s else none

/-- The value of a run of decimal digits. -/
def scan_digits_value (ds : CStr) : Nat :=
  ds.foldl (fun acc c => acc * 10 + (c - 48)) 0

/-- The value C `strtol` returns for a decimal number: the number itself, or
the nearest bound of `long` (64 bits) when the number is out of range. -/
def strtol_clamp (n : Int) : Int :=
  if n < -9223372036854775808 then -9223372036854775808
  else if 9223372036854775807 < n then 9223372036854775807
  else n

/-- Storing a `long` in an `int` (`gint`, 32 bits): the low 32 bits, read in
two's complement. -/
def long_to_gint (n : Int) : Int :=
  (n + 2147483648) % 4294967296 - 2147483648

/-- Conversion `%d` of `sscanf` into a `gint`: leading white space is skipped,
a sign is optional, at least one digit is required.  The stored number and the
rest of the input are returned.  C leaves the conversion of a number outside
the range of `int` undefined; the C library (glibc, 64-bit `long`) converts
with `strtol` and stores the low 32 bits of the result, and so does the model:
`4294967298` is stored as `2`. -/
def scan_d (s : CStr) : Option (Int × CStr) :=
  let s1 := s.dropWhile isspace
  let negative := s1.head? = some 45
  let s2 := if s1.head? = some 45 ∨ s1.head? = some 43 then s1.tail else s1
  let ds := s2.takeWhile isdigit
  if ds = [] then none
  else
    some (long_to_gint (strtol_clamp
        (if negative then - (scan_digits_value ds : Int) else (scan_digits_value ds : Int))),
      s2.dropWhile isdigit)

/-- Conversion `%<width>s` of `sscanf`: leading white space is skipped, then up
to `width` bytes that are not white space are read; at least one is required. -/
def scan_s (width : Nat) (s : CStr) : Option CStr :=
  let w := ((s.dropWhile isspace).takeWhile (fun c => !isspace c)).take width
  if w = [] then none else some w

/-- The call `sscanf (prop_name, "/actions/action-%d/%30s", &unique_id, field)`:
the two converted values when the call returns 2, `none` otherwise. -/
def sscanf_action (prop_name : CStr) : Option (Int × CStr) :=
  match scan_literal (cstr "/actions/action-") prop_name with
  | none => none
  | some s1 =>
    match scan_d s1 with
    | none => none
    | some (unique_id, s2) =>
      match scan_literal (cstr "/") s2 with
      | none => none
      | some s3 =>
        match scan_s 30 s3 with
        | none => none
        | some field => some (unique_id, field)

/-- GObject `G_VALUE_HOLDS_INT` on a value delivered by the channel. -/
def G_VALUE_HOLDS_INT : XfconfValue → Bool
  | XfconfValue.int _ => true
  | _ => false

/-- GObject `G_VALUE_HOLDS_STRING` on a value delivered by the channel. -/
def G_VALUE_HOLDS_STRING : XfconfValue → Bool
  | XfconfValue.string _ => true
  | _ => false

/-- GObject `g_value_get_int` (0 for a value that holds no integer). -/
def g_value_get_int : XfconfValue → Int
  | XfconfValue.int n => n
  | _ => 0

/-- GObject `g_value_dup_string`; the string values of `XfconfValue` carry a
string, so the copy is not `NULL` for them. -/
def g_value_dup_string : XfconfValue → Option CStr
  | XfconfValue.string s => some s
  | _ => none

/-- The body of `if (action->unique_id == unique_id)` in
`xfce_appfinder_actions_changed`: the update of the rule that was found. -/
def changed_action {R : Type} (field : CStr) (value : XfconfValue)
    (action : XfceAppfinderAction R) : XfceAppfinderAction R :=
  if field = cstr "type" ∧ G_VALUE_HOLDS_INT value = true then
    { action with type := g_value_get_int value }
  else if field = cstr "pattern" ∧ G_VALUE_HOLDS_STRING value = true then
    { action with pattern := g_value_dup_string value, regex := none }
  else if field = cstr "command" ∧ G_VALUE_HOLDS_STRING value = true then
    { action with command := g_value_dup_string value }
  else action

/-- The `for` loop of `xfce_appfinder_actions_changed`: the first rule with the
id is updated, then the loop is left. -/
def changed_loop {R : Type} (unique_id : Int) (field : CStr) (value : XfconfValue) :
    List (XfceAppfinderAction R) → List (XfceAppfinderAction R)
  | [] => []
  | action :: li =>
    if action.unique_id = unique_id then changed_action field value action :: li
    else action :: changed_loop unique_id field value li

/-- Source `xfce_appfinder_actions_changed`.  The handler reads nothing from
the channel: the new value comes with the notification. -/
def xfce_appfinder_actions_changed {R : Type} (prop_name : Option CStr) (value : XfconfValue)
    (actions : XfceAppfinderActions R) : XfceAppfinderActions R :=
  match prop_name with
  | none => actions
  | some prop_name =>
    if prop_name = cstr "/actions" then actions
    else
      match sscanf_action prop_name with
      | some (unique_id, field) =>
        { actions with actions := changed_loop unique_id field value actions.actions }
      | none => actions

/-! ## Runs of the rule store -/

/-- A sequence of change notifications on the store. -/
def changes_run {R : Type} :
    List (CStr × XfconfValue) → XfceAppfinderActions R → XfceAppfinderActions R
  | [], actions => actions
  | (prop_name, value) :: evs, actions =>
    changes_run evs (xfce_appfinder_actions_changed (some prop_name) value actions)

/-- A persisted configuration whose id array lists the id 1 twice, with a
complete entry. -/
def duplicate_id_channel : XfconfChannel :=
  xfconf_channel_set_arrayv
    (xfconf_channel_set_string
      (xfconf_channel_set_string
        (xfconf_channel_set_int xfconf_channel_empty (action_prop 1 (cstr "type")) 0)
        (action_prop 1 (cstr "pattern")) (some (cstr "!")))
      (action_prop 1 (cstr "command")) (some (cstr "xterm -e %s")))
    (cstr "/actions") [1, 1]

/-- Consecutive calls of `xfce_appfinder_actions_execute`, one per text, on the
rule list as each call leaves it; returned are the final rule list and all
`g_message` lines in order. -/
def execute_calls {R M E : Type} (C : Collaborators R M E) :
    List CStr → List (XfceAppfinderAction R) →
    Option (List (XfceAppfinderAction R) × List (CStr × E))
  | [], actions => some (actions, [])
  | text :: texts, actions =>
    match xfce_appfinder_actions_execute C actions text with
    | none => none
    | some o =>
      match execute_calls C texts o.actions with
      | none => none
      | some (l, messages) => some (l, o.messages ++ messages)

/-- A persisted configuration built from entries `(id, type, pattern, command)`
and an id array. -/
def channel_of_entries : List (Int × Int × CStr × CStr) → List Int → XfconfChannel
  | [], ids => xfconf_channel_set_arrayv xfconf_channel_empty (cstr "/actions") ids
  | (unique_id, type, pattern, command) :: entries, ids =>
    xfconf_channel_set_string
      (xfconf_channel_set_string
        (xfconf_channel_set_int (channel_of_entries entries ids)
          (action_prop unique_id (cstr "type")) type)
        (action_prop unique_id (cstr "pattern")) (some pattern))
      (action_prop unique_id (cstr "command")) (some command)


/-- Two persisted Prefix rules with the same pattern `a` and different
commands. -/
def tied_entries : List (Int × Int × CStr × CStr) :=
  [ (1, 0, cstr "a", cstr "xterm"), (2, 0, cstr "a", cstr "gedit") ]

/-- Two persisted Prefix rules with different patterns. -/
def untied_entries : List (Int × Int × CStr × CStr) :=
  [ (1, 0, cstr "!", cstr "xterm -e %s"), (2, 0, cstr "#", cstr "man %s") ]


/-- One persisted Regex rule whose command ends in a lone backslash. -/
def bad_expansion_entries : List (Int × Int × CStr × CStr) :=
  [ (1, 1, cstr "a", cstr "\\") ]

/-- Two persisted Prefix rules with the pattern `a`; the command of rule 2 is a
lone backslash. -/
def two_prefix_entries : List (Int × Int × CStr × CStr) :=
  [ (1, 0, cstr "a", cstr "echo %s"), (2, 0, cstr "a", cstr "\\") ]

/-- The loop of `xfce_appfinder_actions_execute` reaches the rule that stands
behind the rules `pre` with `err` still `NULL`: over `pre` the loop stays
within defined behaviour, `result` is still `NOTHING_FOUND` and no compilation
or expansion has failed. -/
def reached_with_null_err {R M E : Type} (C : Collaborators R M E) (text : CStr)
    (pre : List (XfceAppfinderAction R)) : Bool :=
  match execute_loop C text pre (execute_entry E) with
  | some (_, st) =>
    (match st.result with
      | XFCE_APPFINDER_ACTIONS_NOTHING_FOUND => true
      | _ => false) &&
    (match st.err with
      | GErrorPtr.null => true
      | _ => false)
  | none => false

/-- Consecutive `execute` calls, one per text, each of which stays within
defined behaviour and reaches the rule at position `k` of the rule list with
`err` still `NULL`. -/
def calls_reach {R M E : Type} (C : Collaborators R M E) (k : Nat) :
    List CStr → List (XfceAppfinderAction R) → Bool
  | [], _ => true
  | text :: texts, actions =>
    reached_with_null_err C text (actions.take k) &&
    (match xfce_appfinder_actions_execute C actions text with
      | none => false
      | some o => calls_reach C k texts o.actions)

/-! # Theorems -/

/-! ## Facts about `strcmp` -/

theorem strcmp_self (a : CStr) : strcmp a a = 0 := by
  induction a with
  | nil => rfl
  | cons x xs ih => simp [strcmp, ih]

theorem strcmp_swap (a b : CStr) : strcmp b a = - strcmp a b := by
  induction a generalizing b with
  | nil => cases b <;> simp [strcmp]
  | cons x xs ih =>
    cases b with
    | nil => simp [strcmp]
    | cons y ys =>
      simp only [strcmp]
      rcases Nat.lt_trichotomy x y with h | h | h
      · have h2 : ¬ y < x := by omega
        simp [h, h2]
      · subst h
        simp [ih ys]
      · have h2 : ¬ x < y := by omega
        simp [h, h2]

theorem strcmp_range (a b : CStr) : strcmp a b = -1 ∨ strcmp a b = 0 ∨ strcmp a b = 1 := by
  induction a generalizing b with
  | nil => cases b <;> simp [strcmp]
  | cons x xs ih =>
    cases b with
    | nil => simp [strcmp]
    | cons y ys =>
      simp only [strcmp]
      split
      · simp
      · split
        · simp
        · exact ih ys

theorem strcmp_trans (a b c : CStr) (h1 : 0 ≤ strcmp a b) (h2 : 0 ≤ strcmp b c) :
    0 ≤ strcmp a c := by
  induction a generalizing b c with
  | nil =>
    cases b with
    | nil => exact h2
    | cons y ys => simp [strcmp] at h1
  | cons x xs ih =>
    cases c with
    | nil => simp [strcmp]
    | cons z zs =>
      cases b with
      | nil => simp [strcmp] at h2
      | cons y ys =>
        simp only [strcmp] at h1 h2 ⊢
        by_cases hxy : x < y
        · simp [hxy] at h1
        · by_cases hyz : y < z
          · simp [hyz] at h2
          · have hxz : ¬ x < z := by omega
            simp only [hxz, if_false]
            by_cases hzx : z < x
            · simp [hzx]
            · have e1 : x = y := by omega
              have e2 : y = z := by omega
              subst e1; subst e2
              simp only [Nat.lt_irrefl, if_false] at h1 h2 ⊢
              exact ih ys zs h1 h2

/-- The model of `strcmp` is the byte-wise lexicographic order of lists. -/
theorem strcmp_neg_iff_lex (a b : CStr) : strcmp a b < 0 ↔ List.Lex (fun x y : Nat => x < y) a b := by
  induction a generalizing b with
  | nil =>
    cases b with
    | nil => simp [strcmp]
    | cons y ys => simp [strcmp, List.Lex.nil]
  | cons x xs ih =>
    cases b with
    | nil => simp [strcmp]
    | cons y ys =>
      simp only [strcmp]
      rcases Nat.lt_trichotomy x y with h | h | h
      · simp only [h, if_true]
        exact ⟨fun _ => List.Lex.rel h, fun _ => by omega⟩
      · subst h
        simp only [Nat.lt_irrefl, if_false, ih ys]
        constructor
        · intro hl
          exact List.Lex.cons hl
        · intro hl
          cases hl with
          | cons h => exact h
          | rel h => exact absurd h (Nat.lt_irrefl _)
      · have h2 : ¬ x < y := by omega
        simp only [h2, h, if_false, if_true]
        constructor
        · intro hl
          omega
        · intro hl
          cases hl with
          | cons h' => exact absurd h (Nat.lt_irrefl _)
          | rel h' => omega

theorem g_strcmp0_swap (a b : Option CStr) : g_strcmp0 b a = - g_strcmp0 a b := by
  cases a with
  | none => cases b <;> simp [g_strcmp0]
  | some x =>
    cases b with
    | none => simp [g_strcmp0]
    | some y => exact strcmp_swap x y

theorem g_strcmp0_trans (a b c : Option CStr) (h1 : 0 ≤ g_strcmp0 a b)
    (h2 : 0 ≤ g_strcmp0 b c) : 0 ≤ g_strcmp0 a c := by
  cases a <;> cases b <;> cases c <;> simp_all [g_strcmp0]
  exact strcmp_trans _ _ _ h1 h2

/-! ## Correctness of the list sort -/

theorem g_slist_sort_merge_nil_right {α : Type} (cmp : α → α → Int) (l1 : List α) :
    g_slist_sort_merge cmp l1 [] = l1 := by
  cases l1 <;> rfl

theorem g_slist_sort_merge_cons_cons {α : Type} (cmp : α → α → Int) (a b : α) (l1 l2 : List α) :
    g_slist_sort_merge cmp (a :: l1) (b :: l2) =
      if cmp a b ≤ 0 then a :: g_slist_sort_merge cmp l1 (b :: l2)
      else b :: g_slist_sort_merge cmp (a :: l1) l2 := rfl

theorem g_slist_sort_merge_perm {α : Type} (cmp : α → α → Int) (l1 l2 : List α) :
    (g_slist_sort_merge cmp l1 l2).Perm (l1 ++ l2) := by
  induction l1 generalizing l2 with
  | nil => simp [g_slist_sort_merge]
  | cons a l1 ih1 =>
    induction l2 with
    | nil => rw [g_slist_sort_merge_nil_right]; simp
    | cons b l2 ih2 =>
      rw [g_slist_sort_merge_cons_cons]
      split
      · exact (ih1 (b :: l2)).cons a
      · exact (ih2.cons b).trans List.perm_middle.symm

theorem mem_g_slist_sort_merge {α : Type} (cmp : α → α → Int) (l1 l2 : List α) (x : α) :
    x ∈ g_slist_sort_merge cmp l1 l2 ↔ x ∈ l1 ∨ x ∈ l2 := by
  rw [(g_slist_sort_merge_perm cmp l1 l2).mem_iff, List.mem_append]

/-- Merging two sorted lists gives a sorted list, when the comparison is total
and transitive on the elements that occur (those satisfying `P`). -/
theorem g_slist_sort_merge_sorted {α : Type} (cmp : α → α → Int) (P : α → Prop)
    (total : ∀ a b, P a → P b → ¬ cmp a b ≤ 0 → cmp b a ≤ 0)
    (trans : ∀ a b c, P a → P b → P c → cmp a b ≤ 0 → cmp b c ≤ 0 → cmp a c ≤ 0)
    (l1 l2 : List α) (h1 : ∀ x ∈ l1, P x) (h2 : ∀ x ∈ l2, P x)
    (s1 : l1.Pairwise (fun a b => cmp a b ≤ 0)) (s2 : l2.Pairwise (fun a b => cmp a b ≤ 0)) :
    (g_slist_sort_merge cmp l1 l2).Pairwise (fun a b => cmp a b ≤ 0) := by
  induction l1 generalizing l2 with
  | nil => simpa [g_slist_sort_merge] using s2
  | cons a l1 ih1 =>
    induction l2 with
    | nil => rw [g_slist_sort_merge_nil_right]; exact s1
    | cons b l2 ih2 =>
      have Pa : P a := h1 a (List.mem_cons_self _ _)
      have Pb : P b := h2 b (List.mem_cons_self _ _)
      have t1 := List.pairwise_cons.mp s1
      have t2 := List.pairwise_cons.mp s2
      rw [g_slist_sort_merge_cons_cons]
      split
      · rename_i hab
        refine List.pairwise_cons.mpr ⟨?_, ?_⟩
        · intro z hz
          rcases (mem_g_slist_sort_merge cmp _ _ z).mp hz with hz | hz
          · exact t1.1 z hz
          · rcases List.mem_cons.mp hz with rfl | hz
            · exact hab
            · exact trans a b z Pa Pb (h2 z (List.mem_cons_of_mem _ hz)) hab (t2.1 z hz)
        · exact ih1 (b :: l2) (fun x hx => h1 x (List.mem_cons_of_mem _ hx)) h2 t1.2 s2
      · rename_i hab
        have hba : cmp b a ≤ 0 := total a b Pa Pb hab
        refine List.pairwise_cons.mpr ⟨?_, ?_⟩
        · intro z hz
          rcases (mem_g_slist_sort_merge cmp _ _ z).mp hz with hz | hz
          · rcases List.mem_cons.mp hz with rfl | hz
            · exact hba
            · exact trans b a z Pb Pa (h1 z (List.mem_cons_of_mem _ hz)) hba (t1.1 z hz)
          · exact t2.1 z hz
        · exact ih2 (fun x hx => h2 x (List.mem_cons_of_mem _ hx)) t2.2

theorem g_slist_sort_real_perm {α : Type} (cmp : α → α → Int) (depth : Nat) (l : List α) :
    (g_slist_sort_real cmp depth l).Perm l := by
  induction depth generalizing l with
  | zero => exact List.Perm.refl _
  | succ n ih =>
    match l with
    | [] => exact List.Perm.refl _
    | [a] => exact List.Perm.refl _
    | a :: b :: l =>
      simp only [g_slist_sort_real]
      refine (g_slist_sort_merge_perm cmp _ _).trans ?_
      refine ((ih _).append (ih _)).trans ?_
      rw [List.take_append_drop]

theorem g_slist_sort_real_sorted {α : Type} (cmp : α → α → Int) (P : α → Prop)
    (total : ∀ a b, P a → P b → ¬ cmp a b ≤ 0 → cmp b a ≤ 0)
    (trans : ∀ a b c, P a → P b → P c → cmp a b ≤ 0 → cmp b c ≤ 0 → cmp a c ≤ 0)
    (depth : Nat) (l : List α) (hd : l.length ≤ depth) (hP : ∀ x ∈ l, P x) :
    (g_slist_sort_real cmp depth l).Pairwise (fun a b => cmp a b ≤ 0) := by
  induction depth generalizing l with
  | zero =>
    have : l = [] := List.length_eq_zero.mp (Nat.le_zero.mp hd)
    subst this
    exact List.Pairwise.nil
  | succ n ih =>
    match l, hd, hP with
    | [], _, _ => exact List.Pairwise.nil
    | [a], _, _ => exact List.pairwise_singleton _ _
    | a :: b :: l, hd, hP =>
      simp only [g_slist_sort_real]
      have hlen : (a :: b :: l).length = l.length + 2 := rfl
      rw [hlen] at hd
      apply g_slist_sort_merge_sorted cmp P total trans
      · intro x hx
        exact hP x (List.mem_of_mem_take (((g_slist_sort_real_perm cmp n _).mem_iff).mp hx))
      · intro x hx
        exact hP x (List.mem_of_mem_drop (((g_slist_sort_real_perm cmp n _).mem_iff).mp hx))
      · apply ih
        · rw [List.length_take, hlen]; omega
        · intro x hx
          exact hP x (List.mem_of_mem_take hx)
      · apply ih
        · rw [List.length_drop, hlen]; omega
        · intro x hx
          exact hP x (List.mem_of_mem_drop hx)

/-- The depth bound of `g_slist_sort_real` is immaterial once it reaches the
length of the list: the recursion of the C function is reproduced in full. -/
theorem g_slist_sort_real_depth {α : Type} (cmp : α → α → Int) (d1 d2 : Nat) (l : List α)
    (h1 : l.length ≤ d1) (h2 : l.length ≤ d2) :
    g_slist_sort_real cmp d1 l = g_slist_sort_real cmp d2 l := by
  induction d1 generalizing d2 l with
  | zero =>
    have : l = [] := List.length_eq_zero.mp (Nat.le_zero.mp h1)
    subst this
    cases d2 <;> rfl
  | succ n ih =>
    match l, h1, h2 with
    | [], _, _ => cases d2 <;> rfl
    | [a], _, h2 =>
      cases d2 with
      | zero => simp at h2
      | succ m => rfl
    | a :: b :: l, h1, h2 =>
      cases d2 with
      | zero => simp at h2
      | succ m =>
        have hlen : (a :: b :: l).length = l.length + 2 := rfl
        rw [hlen] at h1 h2
        simp only [g_slist_sort_real]
        rw [ih m ((a :: b :: l).take ((a :: b :: l).length / 2))
            (by rw [List.length_take, hlen]; omega) (by rw [List.length_take, hlen]; omega),
          ih m ((a :: b :: l).drop ((a :: b :: l).length / 2))
            (by rw [List.length_drop, hlen]; omega) (by rw [List.length_drop, hlen]; omega)]

theorem g_slist_sort_perm {α : Type} (cmp : α → α → Int) (l : List α) :
    (g_slist_sort l cmp).Perm l :=
  g_slist_sort_real_perm cmp l.length l

theorem mem_g_slist_sort {α : Type} (cmp : α → α → Int) (l : List α) (x : α) :
    x ∈ g_slist_sort l cmp ↔ x ∈ l :=
  (g_slist_sort_perm cmp l).mem_iff

theorem g_slist_sort_sorted {α : Type} (cmp : α → α → Int) (P : α → Prop)
    (total : ∀ a b, P a → P b → ¬ cmp a b ≤ 0 → cmp b a ≤ 0)
    (trans : ∀ a b c, P a → P b → P c → cmp a b ≤ 0 → cmp b c ≤ 0 → cmp a c ≤ 0)
    (l : List α) (hP : ∀ x ∈ l, P x) :
    (g_slist_sort l cmp).Pairwise (fun a b => cmp a b ≤ 0) :=
  g_slist_sort_real_sorted cmp P total trans l.length l (Nat.le_refl _) hP

/-! ## The comparison of rules -/

theorem xfce_appfinder_actions_sort_total {R : Type} (a b : XfceAppfinderAction R)
    (ha : valid_type a) (hb : valid_type b)
    (h : ¬ xfce_appfinder_actions_sort a b ≤ 0) : xfce_appfinder_actions_sort b a ≤ 0 := by
  unfold xfce_appfinder_actions_sort at *
  unfold valid_type XFCE_APPFINDER_ACTION_TYPE_PREFIX XFCE_APPFINDER_ACTION_TYPE_REGEX at *
  by_cases hab : a.type = b.type
  · rw [if_neg (not_not.mpr hab)] at h
    rw [if_neg (not_not.mpr hab.symm), g_strcmp0_swap a.pattern b.pattern]
    omega
  · have hba : b.type ≠ a.type := fun e => hab e.symm
    rw [if_pos hab] at h
    rw [if_pos hba]
    rcases ha with ha | ha <;> rcases hb with hb | hb <;> simp_all

theorem xfce_appfinder_actions_sort_trans {R : Type} (a b c : XfceAppfinderAction R)
    (ha : valid_type a) (hb : valid_type b) (hc : valid_type c)
    (h1 : xfce_appfinder_actions_sort a b ≤ 0) (h2 : xfce_appfinder_actions_sort b c ≤ 0) :
    xfce_appfinder_actions_sort a c ≤ 0 := by
  unfold xfce_appfinder_actions_sort at *
  unfold valid_type XFCE_APPFINDER_ACTION_TYPE_PREFIX XFCE_APPFINDER_ACTION_TYPE_REGEX at *
  have key := g_strcmp0_trans a.pattern b.pattern c.pattern
  rcases ha with ha | ha <;> rcases hb with hb | hb <;> rcases hc with hc | hc <;>
    simp_all

/-- A list of rules with valid kinds that is sorted by the comparison satisfies
the ordering invariant. -/
theorem ordering_invariant_of_sorted {R : Type} (l : List (XfceAppfinderAction R))
    (hv : ∀ x ∈ l, valid_type x)
    (hs : l.Pairwise (fun a b => xfce_appfinder_actions_sort a b ≤ 0)) :
    ordering_invariant l := by
  unfold ordering_invariant
  refine List.Pairwise.imp_of_mem ?_ hs
  intro a b ha hb hab
  have va := hv a ha
  have vb := hv b hb
  unfold xfce_appfinder_actions_sort at hab
  unfold valid_type XFCE_APPFINDER_ACTION_TYPE_PREFIX XFCE_APPFINDER_ACTION_TYPE_REGEX at *
  rcases va with va | va <;> rcases vb with vb | vb <;> simp_all

/-! ## Loading -/

theorem load_loop_eq {R : Type} (channel : XfconfChannel) (array : List Int)
    (actions : List (XfceAppfinderAction R)) :
    load_loop channel array actions =
      (array.filterMap (load_entry R channel)).reverse ++ actions := by
  induction array generalizing actions with
  | nil => simp [load_loop]
  | cons unique_id array ih =>
    simp only [load_loop, List.filterMap_cons, load_entry]
    split
    · rw [ih]
    · cases hp : xfconf_channel_get_string channel (action_prop unique_id (cstr "pattern")) none <;>
        cases hc : xfconf_channel_get_string channel (action_prop unique_id (cstr "command")) none <;>
        simp [ih]

theorem load_entry_valid {R : Type} (channel : XfconfChannel) (unique_id : Int)
    (a : XfceAppfinderAction R) (h : load_entry R channel unique_id = some a) : valid_type a := by
  unfold load_entry at h
  simp only at h
  split at h
  · exact absurd h (by simp)
  · rename_i hr
    split at h
    · injection h with h
      subst h
      unfold valid_type
      unfold XFCE_APPFINDER_ACTION_TYPE_PREFIX XFCE_APPFINDER_ACTION_TYPE_REGEX at *
      simp only
      omega
    · exact absurd h (by simp)

theorem load_actions_eq (R : Type) (channel : XfconfChannel) (w : Nat) :
    (xfce_appfinder_actions_load
      ({ channel := channel, property_watch_id := w, actions := [] } :
        XfceAppfinderActions R)).actions =
      g_slist_sort (loaded_unsorted R channel) xfce_appfinder_actions_sort := by
  unfold xfce_appfinder_actions_load loaded_unsorted
  simp only
  split
  · cases h : xfconf_channel_get_arrayv channel (cstr "/actions") with
    | none => simp
    | some array => simp [load_loop_eq]
  · rfl

theorem default_actions_eq (R : Type) :
    default_actions R =
      [ { type := 0, unique_id := 4, pattern := some (cstr "#"),
          command := some (cstr "exo-open --launch TerminalEmulator man %s"), regex := none },
        { type := 0, unique_id := 3, pattern := some (cstr "!w"),
          command := some (cstr "exo-open --launch WebBrowser http://en.wikipedia.org/wiki/%s"),
          regex := none },
        { type := 0, unique_id := 2, pattern := some (cstr "!"),
          command := some (cstr "exo-open --launch TerminalEmulator %s"), regex := none },
        { type := 1, unique_id := 1, pattern := some (cstr "^(file|http|https):\\/\\/(.*)$"),
          command := some (cstr "exo-open \\0"), regex := none } ] := rfl

theorem loaded_unsorted_valid (R : Type) (channel : XfconfChannel) :
    ∀ x ∈ loaded_unsorted R channel, valid_type x := by
  intro x hx
  unfold loaded_unsorted at hx
  split at hx
  · split at hx
    · rw [List.mem_reverse, List.mem_filterMap] at hx
      obtain ⟨unique_id, _, h⟩ := hx
      exact load_entry_valid channel unique_id x h
    · exact absurd hx (List.not_mem_nil _)
  · rw [default_actions_eq] at hx
    simp only [List.mem_cons, List.mem_singleton, List.not_mem_nil, or_false] at hx
    unfold valid_type XFCE_APPFINDER_ACTION_TYPE_PREFIX XFCE_APPFINDER_ACTION_TYPE_REGEX
    rcases hx with rfl | rfl | rfl | rfl <;> simp

theorem load_actions_sorted (R : Type) (channel : XfconfChannel) (w : Nat) :
    (xfce_appfinder_actions_load
      ({ channel := channel, property_watch_id := w, actions := [] } :
        XfceAppfinderActions R)).actions.Pairwise
      (fun a b => xfce_appfinder_actions_sort a b ≤ 0) := by
  rw [load_actions_eq]
  exact g_slist_sort_sorted _ valid_type xfce_appfinder_actions_sort_total
    xfce_appfinder_actions_sort_trans _ (loaded_unsorted_valid R channel)

theorem load_actions_valid (R : Type) (channel : XfconfChannel) (w : Nat) :
    ∀ x ∈ (xfce_appfinder_actions_load
      ({ channel := channel, property_watch_id := w, actions := [] } :
        XfceAppfinderActions R)).actions, valid_type x := by
  intro x hx
  rw [load_actions_eq, mem_g_slist_sort] at hx
  exact loaded_unsorted_valid R channel x hx

theorem load_actions_invariant (R : Type) (channel : XfconfChannel) (w : Nat) :
    ordering_invariant (xfce_appfinder_actions_load
      ({ channel := channel, property_watch_id := w, actions := [] } :
        XfceAppfinderActions R)).actions :=
  ordering_invariant_of_sorted _ (load_actions_valid R channel w)
    (load_actions_sorted R channel w)

/-- C1: for every persisted configuration the rule list produced by `load`
(run, as in `init`, on a store whose list is empty) satisfies the ordering
invariant: no Regex rule stands before a Prefix rule, any two rules of the same
kind have the earlier pattern byte-wise greater or equal, and in particular
this holds for any two adjacent rules of the same kind. -/
theorem load_ordering_invariant (R : Type) (channel : XfconfChannel) (w : Nat) :
    ordering_invariant (xfce_appfinder_actions_load
      ({ channel := channel, property_watch_id := w, actions := [] } :
        XfceAppfinderActions R)).actions ∧
    List.Chain' (fun a b =>
        ¬ (a.type = XFCE_APPFINDER_ACTION_TYPE_REGEX ∧
            b.type = XFCE_APPFINDER_ACTION_TYPE_PREFIX) ∧
        (a.type = b.type → 0 ≤ g_strcmp0 a.pattern b.pattern))
      (xfce_appfinder_actions_load
        ({ channel := channel, property_watch_id := w, actions := [] } :
          XfceAppfinderActions R)).actions := by
  have h := load_actions_invariant R channel w
  exact ⟨h, List.Pairwise.chain' h⟩

/-! ## The dispatcher loop -/

theorem sorted_default_actions (R : Type) :
    g_slist_sort (default_actions R) xfce_appfinder_actions_sort =
      [ { type := 0, unique_id := 4, pattern := some (cstr "#"),
          command := some (cstr "exo-open --launch TerminalEmulator man %s"), regex := none },
        { type := 0, unique_id := 3, pattern := some (cstr "!w"),
          command := some (cstr "exo-open --launch WebBrowser http://en.wikipedia.org/wiki/%s"),
          regex := none },
        { type := 0, unique_id := 2, pattern := some (cstr "!"),
          command := some (cstr "exo-open --launch TerminalEmulator %s"), regex := none },
        { type := 1, unique_id := 1, pattern := some (cstr "^(file|http|https):\\/\\/(.*)$"),
          command := some (cstr "exo-open \\0"), regex := none } ] := by
  have h1 : (0 : Int) ≤ g_strcmp0 (some (cstr "#")) (some (cstr "!")) := by decide
  have h2 : (0 : Int) ≤ g_strcmp0 (some (cstr "!w")) (some (cstr "!")) := by decide
  rw [default_actions_eq]
  simp [g_slist_sort, g_slist_sort_real, g_slist_sort_merge, g_slist_sort_merge_aux,
    xfce_appfinder_actions_sort, XFCE_APPFINDER_ACTION_TYPE_PREFIX, h1, h2]

/-- Every store loaded from a channel without the property `/actions` holds
the four default rules in the order `#`, `!w`, `!`, URL expression. -/
theorem load_without_actions (R : Type) (channel : XfconfChannel) (w : Nat)
    (h : xfconf_channel_has_property channel (cstr "/actions") = false) :
    (xfce_appfinder_actions_load
      ({ channel := channel, property_watch_id := w, actions := [] } :
        XfceAppfinderActions R)).actions =
      [ { type := 0, unique_id := 4, pattern := some (cstr "#"),
          command := some (cstr "exo-open --launch TerminalEmulator man %s"), regex := none },
        { type := 0, unique_id := 3, pattern := some (cstr "!w"),
          command := some (cstr "exo-open --launch WebBrowser http://en.wikipedia.org/wiki/%s"),
          regex := none },
        { type := 0, unique_id := 2, pattern := some (cstr "!"),
          command := some (cstr "exo-open --launch TerminalEmulator %s"), regex := none },
        { type := 1, unique_id := 1, pattern := some (cstr "^(file|http|https):\\/\\/(.*)$"),
          command := some (cstr "exo-open \\0"), regex := none } ] := by
  rw [load_actions_eq, ← sorted_default_actions R]
  unfold loaded_unsorted
  rw [h]
  rfl

theorem default_rule_set_eq (R : Type) :
    default_rule_set R =
      [ { type := 0, unique_id := 4, pattern := some (cstr "#"),
          command := some (cstr "exo-open --launch TerminalEmulator man %s"), regex := none },
        { type := 0, unique_id := 3, pattern := some (cstr "!w"),
          command := some (cstr "exo-open --launch WebBrowser http://en.wikipedia.org/wiki/%s"),
          regex := none },
        { type := 0, unique_id := 2, pattern := some (cstr "!"),
          command := some (cstr "exo-open --launch TerminalEmulator %s"), regex := none },
        { type := 1, unique_id := 1, pattern := some (cstr "^(file|http|https):\\/\\/(.*)$"),
          command := some (cstr "exo-open \\0"), regex := none } ] :=
  load_without_actions R xfconf_channel_empty 0 rfl

theorem execute_loop_done {R M E : Type} (C : Collaborators R M E) (text : CStr)
    (l : List (XfceAppfinderAction R)) (st : ExecuteLocals E)
    (h : st.result ≠ XFCE_APPFINDER_ACTIONS_NOTHING_FOUND) :
    execute_loop C text l st = some (l, st) := by
  cases l with
  | nil => rfl
  | cons a l => simp [execute_loop, h]

theorem execute_switch_prefix_hit {R M E : Type} (C : Collaborators R M E) (text : CStr)
    (a : XfceAppfinderAction R) (st : ExecuteLocals E) (h : prefix_matches text a) :
    execute_switch C text a st =
      some (a, { st with cmd := xfce_appfinder_actions_expand_command a text,
                         result := XFCE_APPFINDER_ACTIONS_SUCCEED }) := by
  obtain ⟨ht, p, hp, hm⟩ := h
  simp [execute_switch, ht, hp, hm]

theorem execute_switch_prefix_miss {R M E : Type} (C : Collaborators R M E) (text : CStr)
    (a : XfceAppfinderAction R) (st : ExecuteLocals E)
    (ht : a.type = XFCE_APPFINDER_ACTION_TYPE_PREFIX) (p : CStr) (hp : a.pattern = some p)
    (hm : g_str_has_prefix text p = false) :
    execute_switch C text a st = some (a, st) := by
  simp [execute_switch, ht, hp, hm]

theorem execute_switch_other {R M E : Type} (C : Collaborators R M E) (text : CStr)
    (a : XfceAppfinderAction R) (st : ExecuteLocals E)
    (h0 : a.type ≠ XFCE_APPFINDER_ACTION_TYPE_PREFIX)
    (h1 : a.type ≠ XFCE_APPFINDER_ACTION_TYPE_REGEX) :
    execute_switch C text a st = some (a, st) := by
  simp [execute_switch, h0, h1]

theorem execute_loop_cons_same {R M E : Type} (C : Collaborators R M E) (text : CStr)
    (a : XfceAppfinderAction R) (l : List (XfceAppfinderAction R)) (st : ExecuteLocals E)
    (hr : st.result = XFCE_APPFINDER_ACTIONS_NOTHING_FOUND)
    (hs : execute_switch C text a st = some (a, st)) :
    execute_loop C text (a :: l) st =
      (execute_loop C text l st).map (fun r => (a :: r.1, r.2)) := by
  simp only [execute_loop, hr, if_true, hs]
  cases execute_loop C text l st <;> rfl

/-- The loop stops at the first rule that matches as a Prefix rule, when the
rules before it are not Regex rules and, if Prefix rules, carry a pattern. -/
theorem execute_loop_first_prefix_match {R M E : Type} (C : Collaborators R M E) (text : CStr)
    (pre post : List (XfceAppfinderAction R)) (a : XfceAppfinderAction R)
    (st : ExecuteLocals E) (hr : st.result = XFCE_APPFINDER_ACTIONS_NOTHING_FOUND)
    (hpre : ∀ b ∈ pre, b.type ≠ XFCE_APPFINDER_ACTION_TYPE_REGEX ∧
      (b.type = XFCE_APPFINDER_ACTION_TYPE_PREFIX →
        ∃ q, b.pattern = some q ∧ g_str_has_prefix text q = false))
    (ha : prefix_matches text a) :
    execute_loop C text (pre ++ a :: post) st =
      some (pre ++ a :: post,
        { st with cmd := xfce_appfinder_actions_expand_command a text,
                  result := XFCE_APPFINDER_ACTIONS_SUCCEED }) := by
  induction pre with
  | nil =>
    simp only [List.nil_append, execute_loop, hr, if_true, execute_switch_prefix_hit C text a st ha]
    rw [execute_loop_done C text post _ (by simp)]
  | cons b pre ih =>
    have hb := hpre b (List.mem_cons_self _ _)
    have hs : execute_switch C text b st = some (b, st) := by
      by_cases h0 : b.type = XFCE_APPFINDER_ACTION_TYPE_PREFIX
      · obtain ⟨q, hq, hm⟩ := hb.2 h0
        exact execute_switch_prefix_miss C text b st h0 q hq hm
      · exact execute_switch_other C text b st h0 hb.1
    rw [List.cons_append, execute_loop_cons_same C text b _ st hr hs,
      ih (fun x hx => hpre x (List.mem_cons_of_mem _ hx))]
    rfl

/-! ## The most specific prefix wins -/

theorem g_str_has_prefix_nil_left (p : CStr) (h : g_str_has_prefix [] p = true) : p = [] := by
  cases p with
  | nil => rfl
  | cons x p => simp [ g_str_has_prefix] at h

theorem g_str_has_prefix_cons_cons (c x : Nat) (t p : CStr) :
    g_str_has_prefix (c :: t) (x :: p) = true ↔ c = x ∧ g_str_has_prefix t p = true := by
  simp [ g_str_has_prefix]

/-- The model of `g_str_has_prefix` is the list prefix relation. -/
theorem g_str_has_prefix_iff (t p : CStr) : g_str_has_prefix t p = true ↔ p <+: t := by
  induction t generalizing p with
  | nil =>
    cases p with
    | nil => simp [ g_str_has_prefix]
    | cons x p => simp [ g_str_has_prefix]
  | cons c t ih =>
    cases p with
    | nil => simp [ g_str_has_prefix]
    | cons x p =>
      rw [g_str_has_prefix_cons_cons, ih, List.cons_prefix_cons]
      constructor
      · rintro ⟨h1, h2⟩
        exact ⟨h1.symm, h2⟩
      · rintro ⟨h1, h2⟩
        exact ⟨h1.symm, h2⟩

/-- Of two prefixes of one text, the lexically greater or equal one is at least
as long. -/
theorem prefix_length_le_of_strcmp (t p q : CStr) (hp : g_str_has_prefix t p = true)
    (hq : g_str_has_prefix t q = true) (h : 0 ≤ strcmp p q) : q.length ≤ p.length := by
  induction t generalizing p q with
  | nil =>
    rw [g_str_has_prefix_nil_left q hq]
    exact Nat.zero_le _
  | cons c t ih =>
    cases q with
    | nil => exact Nat.zero_le _
    | cons y q =>
      cases p with
      | nil => simp [strcmp] at h
      | cons x p =>
        obtain ⟨e1, h1⟩ := (g_str_has_prefix_cons_cons c x t p).mp hp
        obtain ⟨e2, h2⟩ := (g_str_has_prefix_cons_cons c y t q).mp hq
        subst e1
        subst e2
        simp only [strcmp, Nat.lt_irrefl, if_false] at h
        have := ih p q h1 h2 h
        simp only [List.length_cons]
        omega

theorem pattern_length_le_of_invariant {R : Type} (text : CStr) (a b : XfceAppfinderAction R)
    (ha : prefix_matches text a) (hb : prefix_matches text b)
    (h : a.type = b.type → 0 ≤ g_strcmp0 a.pattern b.pattern) :
    pattern_length b ≤ pattern_length a := by
  obtain ⟨ta, p, hp, mp⟩ := ha
  obtain ⟨tb, q, hq, mq⟩ := hb
  have h' := h (ta.trans tb.symm)
  rw [hp, hq] at h'
  simp only [pattern_length, hp, hq, Option.getD_some]
  exact prefix_length_le_of_strcmp text p q mp mq h'

/-- Under the ordering invariant the loop stops at a matching Prefix rule whose
pattern is the longest among the matching Prefix rules. -/
theorem execute_loop_most_specific {R M E : Type} (C : Collaborators R M E) (text : CStr)
    (actions : List (XfceAppfinderAction R)) (st : ExecuteLocals E)
    (hr : st.result = XFCE_APPFINDER_ACTIONS_NOTHING_FOUND)
    (hinv : ordering_invariant actions)
    (hex : ∃ a ∈ actions, prefix_matches text a) :
    ∃ a ∈ actions, prefix_matches text a ∧
      (∀ b ∈ actions, prefix_matches text b → pattern_length b ≤ pattern_length a) ∧
      execute_loop C text actions st =
        some (actions, { st with cmd := xfce_appfinder_actions_expand_command a text,
                                 result := XFCE_APPFINDER_ACTIONS_SUCCEED }) := by
  induction actions with
  | nil =>
    obtain ⟨a, ha, _⟩ := hex
    exact absurd ha (List.not_mem_nil _)
  | cons x xs ih =>
    have hx := List.pairwise_cons.mp hinv
    by_cases hm : prefix_matches text x
    · refine ⟨x, List.mem_cons_self _ _, hm, ?_, ?_⟩
      · intro b hb hbm
        rcases List.mem_cons.mp hb with rfl | hb
        · exact Nat.le_refl _
        · exact pattern_length_le_of_invariant text x b hm hbm (hx.1 b hb).2
      · exact execute_loop_first_prefix_match C text [] xs x st hr (fun b hb => absurd hb (List.not_mem_nil _)) hm
    · have hex' : ∃ a ∈ xs, prefix_matches text a := by
        obtain ⟨a, ha, ham⟩ := hex
        rcases List.mem_cons.mp ha with rfl | ha
        · exact absurd ham hm
        · exact ⟨a, ha, ham⟩
      obtain ⟨a, ha, ham, hmax, hloop⟩ := ih hx.2 hex'
      have hxa := hx.1 a ha
      have hs : execute_switch C text x st = some (x, st) := by
        by_cases h0 : x.type = XFCE_APPFINDER_ACTION_TYPE_PREFIX
        · obtain ⟨ta, p, hp, mp⟩ := ham
          have hcmp := hxa.2 (h0.trans ta.symm)
          rw [hp] at hcmp
          cases hq : x.pattern with
          | none => rw [hq] at hcmp; simp [g_strcmp0] at hcmp
          | some q =>
            refine execute_switch_prefix_miss C text x st h0 q hq ?_
            cases hb : g_str_has_prefix text q with
            | false => rfl
            | true => exact absurd ⟨h0, q, hq, hb⟩ hm
        · refine execute_switch_other C text x st h0 ?_
          intro h1
          exact hxa.1 ⟨h1, ham.1⟩
      refine ⟨a, List.mem_cons_of_mem _ ha, ham, ?_, ?_⟩
      · intro b hb hbm
        rcases List.mem_cons.mp hb with rfl | hb
        · exact absurd hbm hm
        · exact hmax b hb hbm
      · rw [execute_loop_cons_same C text x xs st hr hs, hloop]
        rfl

/-- What `execute` returns once the loop has produced its locals. -/
theorem execute_of_loop {R M E : Type} (C : Collaborators R M E) (text : CStr)
    (actions li : List (XfceAppfinderAction R)) (st : ExecuteLocals E)
    (h : execute_loop C text actions (execute_entry E) = some (li, st)) :
    xfce_appfinder_actions_execute C actions text = some (execute_spawn C li st) := by
  simp [xfce_appfinder_actions_execute, h]

/-- The outcome after the loop stopped with `SUCCEED`, a command and no error:
the command is spawned once, after variable expansion. -/
theorem execute_spawn_succeed {R M E : Type} (C : Collaborators R M E)
    (li : List (XfceAppfinderAction R)) (st : ExecuteLocals E) (cmd : CStr)
    (hr : st.result = XFCE_APPFINDER_ACTIONS_SUCCEED) (hc : st.cmd = some cmd)
    (he : st.error = none) :
    (execute_spawn C li st).spawned = [C.xfce_expand_variables cmd] ∧
    (execute_spawn C li st).actions = li ∧
    (execute_spawn C li st).messages = st.messages ∧
    (∀ u, C.xfce_spawn_command_line_on_screen (C.xfce_expand_variables cmd) = Except.ok u →
      (execute_spawn C li st).result = XFCE_APPFINDER_ACTIONS_SUCCEED ∧
      (execute_spawn C li st).error = none) ∧
    (∀ e, C.xfce_spawn_command_line_on_screen (C.xfce_expand_variables cmd) = Except.error e →
      (execute_spawn C li st).result = XFCE_APPFINDER_ACTIONS_ERROR ∧
      (execute_spawn C li st).error = some e) := by
  unfold execute_spawn
  rw [hr, hc, he]
  simp only
  cases hs : C.xfce_spawn_command_line_on_screen (C.xfce_expand_variables cmd) <;> simp

theorem expand_command_some {R : Type} (a : XfceAppfinderAction R) (text p c : CStr)
    (hp : a.pattern = some p) (hc : a.command = some c) :
    xfce_appfinder_actions_expand_command a text = some (expand_command_loop text p.length c) := by
  simp [xfce_appfinder_actions_expand_command, hp, hc]

/-- C2: for every rule list that satisfies the ordering invariant and every
text matched by at least one Prefix rule, the dispatcher loop stops at a
matching Prefix rule whose pattern is the longest among all matching Prefix
rules and expands that rule's command, which is then what `execute` hands to
the spawner (after variable expansion).  Instance: on the default rule set and
`!w foo` the command is that of the rule `!w`, not that of `!`, and the command
line spawned is the variable expansion of
`exo-open --launch WebBrowser http://en.wikipedia.org/wiki/foo`. -/
theorem execute_longest_prefix_wins {R M E : Type} (C : Collaborators R M E) :
    (∀ (actions : List (XfceAppfinderAction R)) (text : CStr),
      ordering_invariant actions → (∃ a ∈ actions, prefix_matches text a) →
      ∃ a ∈ actions, prefix_matches text a ∧
        (∀ b ∈ actions, prefix_matches text b → pattern_length b ≤ pattern_length a) ∧
        ∃ st o, execute_loop C text actions (execute_entry E) = some (actions, st) ∧
          st.cmd = xfce_appfinder_actions_expand_command a text ∧
          st.result = XFCE_APPFINDER_ACTIONS_SUCCEED ∧ st.error = none ∧
          xfce_appfinder_actions_execute C actions text = some o ∧
          o.spawned =
            (xfce_appfinder_actions_expand_command a text).toList.map C.xfce_expand_variables) ∧
    (∃ st o, execute_loop C (cstr "!w foo") (default_rule_set R) (execute_entry E) =
        some (default_rule_set R, st) ∧
      st.cmd = some (cstr "exo-open --launch WebBrowser http://en.wikipedia.org/wiki/foo") ∧
      st.cmd ≠ some (cstr "exo-open --launch TerminalEmulator w foo") ∧
      xfce_appfinder_actions_execute C (default_rule_set R) (cstr "!w foo") = some o ∧
      o.spawned = [C.xfce_expand_variables
        (cstr "exo-open --launch WebBrowser http://en.wikipedia.org/wiki/foo")] ∧
      (C.xfce_expand_variables
          (cstr "exo-open --launch WebBrowser http://en.wikipedia.org/wiki/foo") =
          cstr "exo-open --launch WebBrowser http://en.wikipedia.org/wiki/foo" →
        o.spawned = [cstr "exo-open --launch WebBrowser http://en.wikipedia.org/wiki/foo"])) := by
  constructor
  · intro actions text hinv hex
    obtain ⟨a, ha, ham, hmax, hloop⟩ :=
      execute_loop_most_specific C text actions (execute_entry E) rfl hinv hex
    refine ⟨a, ha, ham, hmax, _, _, hloop, rfl, rfl, rfl, execute_of_loop C text _ _ _ hloop, ?_⟩
    cases hc : xfce_appfinder_actions_expand_command a text with
    | none => simp [execute_spawn, hc]
    | some cmd =>
      rw [(execute_spawn_succeed C actions _ cmd rfl rfl rfl).1]
      rfl
  · have hloop := execute_loop_first_prefix_match C (cstr "!w foo")
      [ { type := 0, unique_id := 4, pattern := some (cstr "#"),
          command := some (cstr "exo-open --launch TerminalEmulator man %s"), regex := none } ]
      [ { type := 0, unique_id := 2, pattern := some (cstr "!"),
          command := some (cstr "exo-open --launch TerminalEmulator %s"), regex := none },
        { type := 1, unique_id := 1, pattern := some (cstr "^(file|http|https):\\/\\/(.*)$"),
          command := some (cstr "exo-open \\0"), regex := none } ]
      { type := 0, unique_id := 3, pattern := some (cstr "!w"),
        command := some (cstr "exo-open --launch WebBrowser http://en.wikipedia.org/wiki/%s"),
        regex := none }
      (execute_entry E) rfl
      (by
        intro b hb
        rw [List.mem_singleton] at hb
        subst hb
        exact ⟨fun h => absurd (show (0 : Int) = 1 from h) (by decide),
          fun _ => ⟨cstr "#", rfl, by decide⟩⟩)
      ⟨rfl, cstr "!w", rfl, by decide⟩
    have hcmd : xfce_appfinder_actions_expand_command
        ({ type := 0, unique_id := 3, pattern := some (cstr "!w"),
           command := some (cstr "exo-open --launch WebBrowser http://en.wikipedia.org/wiki/%s"),
           regex := none } : XfceAppfinderAction R) (cstr "!w foo") =
        some (cstr "exo-open --launch WebBrowser http://en.wikipedia.org/wiki/foo") := by
      rw [expand_command_some _ _ (cstr "!w")
        (cstr "exo-open --launch WebBrowser http://en.wikipedia.org/wiki/%s") rfl rfl]
      exact congrArg some (by decide)
    rw [hcmd] at hloop
    rw [default_rule_set_eq]
    refine ⟨_, _, hloop, rfl, ?_, execute_of_loop C _ _ _ _ hloop, ?_, ?_⟩
    · intro h
      exact absurd (Option.some.inj h) (by decide)
    · exact (execute_spawn_succeed C _ _ _ rfl rfl rfl).1
    · intro hid
      rw [(execute_spawn_succeed C _ _ _ rfl rfl rfl).1, hid]

/-- C2, at a concrete input: the default rule set satisfies the ordering
invariant, `!w foo` is matched by a Prefix rule, and the general statement
applies to it. -/
theorem execute_longest_prefix_wins_witness :
    ordering_invariant (default_rule_set CStr) ∧
    (∃ a ∈ default_rule_set CStr, prefix_matches (cstr "!w foo") a) ∧
    ∃ a ∈ default_rule_set CStr, prefix_matches (cstr "!w foo") a ∧
      (∀ b ∈ default_rule_set CStr, prefix_matches (cstr "!w foo") b →
        pattern_length b ≤ pattern_length a) ∧
      ∃ st o, execute_loop ref_collaborators (cstr "!w foo") (default_rule_set CStr)
          (execute_entry CStr) = some (default_rule_set CStr, st) ∧
        st.cmd = xfce_appfinder_actions_expand_command a (cstr "!w foo") ∧
        st.result = XFCE_APPFINDER_ACTIONS_SUCCEED ∧ st.error = none ∧
        xfce_appfinder_actions_execute ref_collaborators (default_rule_set CStr)
          (cstr "!w foo") = some o ∧
        o.spawned = (xfce_appfinder_actions_expand_command a (cstr "!w foo")).toList.map
          ref_collaborators.xfce_expand_variables :=
  have hinv : ordering_invariant (default_rule_set CStr) :=
    load_actions_invariant CStr xfconf_channel_empty 0
  have hex : ∃ a ∈ default_rule_set CStr, prefix_matches (cstr "!w foo") a :=
    ⟨{ type := 0, unique_id := 2, pattern := some (cstr "!"),
       command := some (cstr "exo-open --launch TerminalEmulator %s"), regex := none },
      by rw [default_rule_set_eq]; simp, rfl, cstr "!", rfl, by decide⟩
  ⟨hinv, hex,
    (execute_longest_prefix_wins ref_collaborators).1 (default_rule_set CStr) (cstr "!w foo")
      hinv hex⟩

/-- C3: on the default rule set and the text `!ls` the loop stops at the Prefix
rule `!`, whose `%s` stands for `ls`; when variable expansion leaves
`exo-open --launch TerminalEmulator ls` unchanged and the spawner succeeds on
it, `execute` spawns exactly that command line, once, and returns `SUCCEED`
with no error. -/
theorem execute_default_terminal {R M E : Type} (C : Collaborators R M E)
    (hid : C.xfce_expand_variables (cstr "exo-open --launch TerminalEmulator ls") =
      cstr "exo-open --launch TerminalEmulator ls")
    (hsp : C.xfce_spawn_command_line_on_screen (cstr "exo-open --launch TerminalEmulator ls") =
      Except.ok ()) :
    g_strchug ((cstr "!ls").drop (cstr "!").length) = cstr "ls" ∧
    ∃ st o, execute_loop C (cstr "!ls") (default_rule_set R) (execute_entry E) =
        some (default_rule_set R, st) ∧
      st.cmd = xfce_appfinder_actions_expand_command
        ({ type := XFCE_APPFINDER_ACTION_TYPE_PREFIX, unique_id := 2, pattern := some (cstr "!"),
           command := some (cstr "exo-open --launch TerminalEmulator %s"), regex := none } :
          XfceAppfinderAction R) (cstr "!ls") ∧
      st.cmd = some (cstr "exo-open --launch TerminalEmulator ls") ∧
      xfce_appfinder_actions_execute C (default_rule_set R) (cstr "!ls") = some o ∧
      o.spawned = [cstr "exo-open --launch TerminalEmulator ls"] ∧
      o.result = XFCE_APPFINDER_ACTIONS_SUCCEED ∧
      o.error = none := by
  refine ⟨by decide, ?_⟩
  have hloop := execute_loop_first_prefix_match C (cstr "!ls")
    [ { type := 0, unique_id := 4, pattern := some (cstr "#"),
        command := some (cstr "exo-open --launch TerminalEmulator man %s"), regex := none },
      { type := 0, unique_id := 3, pattern := some (cstr "!w"),
        command := some (cstr "exo-open --launch WebBrowser http://en.wikipedia.org/wiki/%s"),
        regex := none } ]
    [ { type := 1, unique_id := 1, pattern := some (cstr "^(file|http|https):\\/\\/(.*)$"),
        command := some (cstr "exo-open \\0"), regex := none } ]
    { type := 0, unique_id := 2, pattern := some (cstr "!"),
      command := some (cstr "exo-open --launch TerminalEmulator %s"), regex := none }
    (execute_entry E) rfl
    (by
      intro b hb
      simp only [List.mem_cons, List.mem_singleton, List.not_mem_nil, or_false] at hb
      rcases hb with rfl | rfl
      · exact ⟨fun h => absurd (show (0 : Int) = 1 from h) (by decide),
          fun _ => ⟨cstr "#", rfl, by decide⟩⟩
      · exact ⟨fun h => absurd (show (0 : Int) = 1 from h) (by decide),
          fun _ => ⟨cstr "!w", rfl, by decide⟩⟩)
    ⟨rfl, cstr "!", rfl, by decide⟩
  have hcmd : xfce_appfinder_actions_expand_command
      ({ type := 0, unique_id := 2, pattern := some (cstr "!"),
         command := some (cstr "exo-open --launch TerminalEmulator %s"), regex := none } :
        XfceAppfinderAction R) (cstr "!ls") =
      some (cstr "exo-open --launch TerminalEmulator ls") := by
    rw [expand_command_some _ _ (cstr "!") (cstr "exo-open --launch TerminalEmulator %s") rfl rfl]
    exact congrArg some (by decide)
  have hsp' : C.xfce_spawn_command_line_on_screen
      (C.xfce_expand_variables (cstr "exo-open --launch TerminalEmulator ls")) = Except.ok () := by
    rw [hid]; exact hsp
  rw [default_rule_set_eq]
  rw [hcmd] at hloop
  refine ⟨_, _, hloop, hcmd.symm, rfl, execute_of_loop C _ _ _ _ hloop, ?_, ?_, ?_⟩
  · rw [(execute_spawn_succeed C _ _ _ rfl rfl rfl).1, hid]
  · refine ((execute_spawn_succeed C _ _ _ ?_ ?_ ?_).2.2.2.1 () hsp').1 <;> rfl
  · refine ((execute_spawn_succeed C _ _ _ ?_ ?_ ?_).2.2.2.1 () hsp').2 <;> rfl

/-- C3 with the reference collaborators, whose variable expansion is the
identity and whose spawner accepts the command line. -/
theorem execute_default_terminal_witness :
    g_strchug ((cstr "!ls").drop (cstr "!").length) = cstr "ls" ∧
    ∃ st o, execute_loop ref_collaborators (cstr "!ls") (default_rule_set CStr)
        (execute_entry CStr) = some (default_rule_set CStr, st) ∧
      st.cmd = xfce_appfinder_actions_expand_command
        ({ type := XFCE_APPFINDER_ACTION_TYPE_PREFIX, unique_id := 2, pattern := some (cstr "!"),
           command := some (cstr "exo-open --launch TerminalEmulator %s"), regex := none } :
          XfceAppfinderAction CStr) (cstr "!ls") ∧
      st.cmd = some (cstr "exo-open --launch TerminalEmulator ls") ∧
      xfce_appfinder_actions_execute ref_collaborators (default_rule_set CStr) (cstr "!ls") =
        some o ∧
      o.spawned = [cstr "exo-open --launch TerminalEmulator ls"] ∧
      o.result = XFCE_APPFINDER_ACTIONS_SUCCEED ∧
      o.error = none :=
  execute_default_terminal ref_collaborators rfl
    (show (if cstr "exo-open --launch TerminalEmulator ls" = cstr "false" then
        Except.error (cstr "spawn failed") else Except.ok ()) = Except.ok () from
      if_neg (by decide))

/-! ## Regex rules and the return value -/

/-- A Regex match never changes `result`. -/
theorem execute_regex_match_result {R M E : Type} (C : Collaborators R M E) (text : CStr)
    (a : XfceAppfinderAction R) (regex : R) (st st1 : ExecuteLocals E)
    (h : execute_regex_match C text a regex st = some st1) :
    st1.result = st.result ∧ st1.messages = st.messages := by
  unfold execute_regex_match at h
  cases hm : C.g_regex_match regex text with
  | none =>
    simp only [hm, Option.some.injEq] at h
    subst h
    exact ⟨rfl, rfl⟩
  | some m =>
    cases he : st.err <;> cases hc : a.command <;> simp only [hm, he, hc] at h <;>
      try exact absurd h (by simp)
    rename_i command
    cases hx : C.g_match_info_expand_references m command <;>
      simp only [hx, Option.some.injEq] at h <;> subst h <;> exact ⟨rfl, rfl⟩

/-- Compiling the expression of a rule never changes `result`. -/
theorem execute_regex_compile_result {R M E : Type} (C : Collaborators R M E)
    (a a1 : XfceAppfinderAction R) (st st1 : ExecuteLocals E) (r : Option R)
    (h : execute_regex_compile C a st = some (a1, st1, r)) :
    st1.result = st.result := by
  unfold execute_regex_compile at h
  cases hr : a.regex with
  | some regex =>
    simp only [hr, Option.some.injEq, Prod.mk.injEq] at h
    rw [← h.2.1]
  | none =>
    cases he : st.err <;> cases hp : a.pattern <;> simp only [hr, he, hp] at h <;>
      try exact absurd h (by simp)
    rename_i pattern
    cases hx : C.g_regex_new pattern <;>
      simp only [hx, Option.some.injEq, Prod.mk.injEq] at h
    · rw [← h.2.1]
    · rw [← h.2.1]

/-- One rule leaves `result` as it is unless it matches as a Prefix rule. -/
theorem execute_switch_result {R M E : Type} (C : Collaborators R M E) (text : CStr)
    (a a1 : XfceAppfinderAction R) (st st1 : ExecuteLocals E)
    (h : execute_switch C text a st = some (a1, st1)) (hn : ¬ prefix_matches text a) :
    st1.result = st.result := by
  unfold execute_switch at h
  by_cases ht : a.type = XFCE_APPFINDER_ACTION_TYPE_PREFIX
  · rw [if_pos ht] at h
    cases hp : a.pattern with
    | none => simp [hp] at h
    | some p =>
      cases hm : g_str_has_prefix text p with
      | true => exact absurd ⟨ht, p, hp, hm⟩ hn
      | false =>
        simp only [hp, hm, Bool.false_eq_true, if_false, Option.some.injEq, Prod.mk.injEq] at h
        rw [← h.2]
  · rw [if_neg ht] at h
    by_cases hr : a.type = XFCE_APPFINDER_ACTION_TYPE_REGEX
    · rw [if_pos hr] at h
      cases hc : execute_regex_compile C a st with
      | none => simp [hc] at h
      | some res =>
        obtain ⟨a2, st2, r⟩ := res
        have h2 := execute_regex_compile_result C a a2 st st2 r hc
        cases r with
        | none =>
          simp only [hc, Option.some.injEq, Prod.mk.injEq] at h
          rw [← h.2, h2]
        | some regex =>
          simp only [hc] at h
          cases hm : execute_regex_match C text a2 regex st2 with
          | none => simp [hm] at h
          | some st3 =>
            simp only [hm, Option.some.injEq, Prod.mk.injEq] at h
            rw [← h.2, (execute_regex_match_result C text a2 regex st2 st3 hm).1, h2]
    · rw [if_neg hr] at h
      simp only [Option.some.injEq, Prod.mk.injEq] at h
      rw [← h.2]

/-- The loop ends with `NOTHING_FOUND` when no rule matches as a Prefix rule,
whatever the Regex rules do. -/
theorem execute_loop_result {R M E : Type} (C : Collaborators R M E) (text : CStr)
    (l l1 : List (XfceAppfinderAction R)) (st st1 : ExecuteLocals E)
    (h : execute_loop C text l st = some (l1, st1))
    (hn : ∀ a ∈ l, ¬ prefix_matches text a) :
    st1.result = st.result := by
  induction l generalizing l1 st st1 with
  | nil =>
    simp only [execute_loop, Option.some.injEq, Prod.mk.injEq] at h
    rw [← h.2]
  | cons a l ih =>
    unfold execute_loop at h
    by_cases hr : st.result = XFCE_APPFINDER_ACTIONS_NOTHING_FOUND
    · rw [if_pos hr] at h
      cases hs : execute_switch C text a st with
      | none => simp [hs] at h
      | some res =>
        obtain ⟨a2, st2⟩ := res
        simp only [hs] at h
        cases hl : execute_loop C text l st2 with
        | none => simp [hl] at h
        | some res2 =>
          obtain ⟨l2, st3⟩ := res2
          simp only [hl, Option.some.injEq, Prod.mk.injEq] at h
          rw [← h.2, ih l2 st2 st3 hl (fun x hx => hn x (List.mem_cons_of_mem _ hx)),
            execute_switch_result C text a a2 st st2 hs (hn a (List.mem_cons_self _ _))]
    · rw [if_neg hr] at h
      simp only [Option.some.injEq, Prod.mk.injEq] at h
      rw [← h.2]

/-- Without a rule that matches as a Prefix rule, `execute` spawns nothing and
returns `NOTHING_FOUND`, also when a Regex rule matched and was expanded. -/
theorem execute_without_prefix_match {R M E : Type} (C : Collaborators R M E) (text : CStr)
    (actions : List (XfceAppfinderAction R)) (o : ExecuteOutcome R E)
    (h : xfce_appfinder_actions_execute C actions text = some o)
    (hn : ∀ a ∈ actions, ¬ prefix_matches text a) :
    o.result = XFCE_APPFINDER_ACTIONS_NOTHING_FOUND ∧ o.spawned = [] := by
  unfold xfce_appfinder_actions_execute at h
  cases hl : execute_loop C text actions (execute_entry E) with
  | none => simp [hl] at h
  | some res =>
    obtain ⟨li, st⟩ := res
    simp only [hl, Option.some.injEq] at h
    have hr : st.result = XFCE_APPFINDER_ACTIONS_NOTHING_FOUND :=
      execute_loop_result C text actions li (execute_entry E) st hl hn
    subst h
    simp [execute_spawn, hr]

/-- C4, evaluation at the failing input: on the default rule set and the text
`http://example.com`, with any engine in which the URL expression compiles,
matches the text and expands `exo-open \0` to `exo-open http://example.com`,
`execute` caches the compiled expression and then returns `NOTHING_FOUND`
without spawning anything: the Regex case never assigns `result`. -/
theorem execute_default_url_not_spawned {R M E : Type} (C : Collaborators R M E)
    (regex : R) (match_info : M)
    (h1 : C.g_regex_new (cstr "^(file|http|https):\\/\\/(.*)$") = Except.ok regex)
    (h2 : C.g_regex_match regex (cstr "http://example.com") = some match_info)
    (h3 : C.g_match_info_expand_references match_info (cstr "exo-open \\0") =
      Except.ok (cstr "exo-open http://example.com")) :
    (∀ a ∈ default_rule_set R, ¬ prefix_matches (cstr "http://example.com") a) ∧
    xfce_appfinder_actions_execute C (default_rule_set R) (cstr "http://example.com") =
      some
        { actions :=
            [ { type := 0, unique_id := 4, pattern := some (cstr "#"),
                command := some (cstr "exo-open --launch TerminalEmulator man %s"),
                regex := none },
              { type := 0, unique_id := 3, pattern := some (cstr "!w"),
                command :=
                  some (cstr "exo-open --launch WebBrowser http://en.wikipedia.org/wiki/%s"),
                regex := none },
              { type := 0, unique_id := 2, pattern := some (cstr "!"),
                command := some (cstr "exo-open --launch TerminalEmulator %s"), regex := none },
              { type := 1, unique_id := 1,
                pattern := some (cstr "^(file|http|https):\\/\\/(.*)$"),
                command := some (cstr "exo-open \\0"), regex := some regex } ],
          result := XFCE_APPFINDER_ACTIONS_NOTHING_FOUND,
          error := none,
          spawned := [],
          messages := [] } := by
  have p1 : g_str_has_prefix (cstr "http://example.com") (cstr "#") = false := by decide
  have p2 : g_str_has_prefix (cstr "http://example.com") (cstr "!w") = false := by decide
  have p3 : g_str_has_prefix (cstr "http://example.com") (cstr "!") = false := by decide
  rw [default_rule_set_eq]
  constructor
  · intro a ha hm
    obtain ⟨ht, p, hp, hpm⟩ := hm
    simp only [List.mem_cons, List.mem_singleton, List.not_mem_nil, or_false] at ha
    rcases ha with rfl | rfl | rfl | rfl
    · simp only [Option.some.injEq] at hp
      subst hp
      rw [p1] at hpm
      exact absurd hpm (by decide)
    · simp only [Option.some.injEq] at hp
      subst hp
      rw [p2] at hpm
      exact absurd hpm (by decide)
    · simp only [Option.some.injEq] at hp
      subst hp
      rw [p3] at hpm
      exact absurd hpm (by decide)
    · exact absurd (show (1 : Int) = 0 from ht) (by decide)
  · simp [xfce_appfinder_actions_execute, execute_loop, execute_switch, execute_entry,
      execute_regex_compile, execute_regex_match, execute_spawn,
      XFCE_APPFINDER_ACTION_TYPE_PREFIX, XFCE_APPFINDER_ACTION_TYPE_REGEX, p1, p2, p3, h1, h2, h3]

/-- C4 failing input with the reference collaborators: their engine compiles
the URL expression, matches `http://example.com` and expands `exo-open \0` to
`exo-open http://example.com`. -/
theorem execute_default_url_not_spawned_witness :
    (∀ a ∈ default_rule_set CStr, ¬ prefix_matches (cstr "http://example.com") a) ∧
    xfce_appfinder_actions_execute ref_collaborators (default_rule_set CStr)
        (cstr "http://example.com") =
      some
        { actions :=
            [ { type := 0, unique_id := 4, pattern := some (cstr "#"),
                command := some (cstr "exo-open --launch TerminalEmulator man %s"),
                regex := none },
              { type := 0, unique_id := 3, pattern := some (cstr "!w"),
                command :=
                  some (cstr "exo-open --launch WebBrowser http://en.wikipedia.org/wiki/%s"),
                regex := none },
              { type := 0, unique_id := 2, pattern := some (cstr "!"),
                command := some (cstr "exo-open --launch TerminalEmulator %s"), regex := none },
              { type := 1, unique_id := 1,
                pattern := some (cstr "^(file|http|https):\\/\\/(.*)$"),
                command := some (cstr "exo-open \\0"),
                regex := some (cstr "^(file|http|https):\\/\\/(.*)$") } ],
          result := XFCE_APPFINDER_ACTIONS_NOTHING_FOUND,
          error := none,
          spawned := [],
          messages := [] } :=
  execute_default_url_not_spawned ref_collaborators (cstr "^(file|http|https):\\/\\/(.*)$")
    (cstr "http://example.com")
    rfl (by decide) rfl

theorem execute_loop_cons {R M E : Type} (C : Collaborators R M E) (text : CStr)
    (a a1 : XfceAppfinderAction R) (l : List (XfceAppfinderAction R)) (st st1 : ExecuteLocals E)
    (hr : st.result = XFCE_APPFINDER_ACTIONS_NOTHING_FOUND)
    (hs : execute_switch C text a st = some (a1, st1)) :
    execute_loop C text (a :: l) st =
      (execute_loop C text l st1).map (fun r => (a1 :: r.1, r.2)) := by
  simp only [execute_loop, hr, if_true, hs]
  cases execute_loop C text l st1 <;> rfl

/-- C5, evaluation at the failing input: let the first rule be a Regex rule
whose expression compiles and matches the text and whose command fails to
expand with error `e`.  The rule stores `e` in `*error` but leaves `result` at
`NOTHING_FOUND`, so the loop goes on with the later rules (first statement),
and with no later rule `execute` returns `NOTHING_FOUND`, not `ERROR`, with `e`
in `*error` and nothing spawned (second statement). -/
theorem execute_regex_expansion_error {R M E : Type} (C : Collaborators R M E) (text : CStr)
    (a : XfceAppfinderAction R) (pattern command : CStr) (regex : R) (match_info : M) (e : E)
    (ht : a.type = XFCE_APPFINDER_ACTION_TYPE_REGEX) (hc : a.regex = none)
    (hp : a.pattern = some pattern) (hcmd : a.command = some command)
    (h1 : C.g_regex_new pattern = Except.ok regex)
    (h2 : C.g_regex_match regex text = some match_info)
    (h3 : C.g_match_info_expand_references match_info command = Except.error e) :
    (∀ rest : List (XfceAppfinderAction R),
      execute_loop C text (a :: rest) (execute_entry E) =
        (execute_loop C text rest
          { execute_entry E with cmd := none, err := GErrorPtr.live e, error := some e }).map
          (fun r => ({ a with regex := some regex } :: r.1, r.2))) ∧
    xfce_appfinder_actions_execute C [a] text =
      some { actions := [{ a with regex := some regex }],
             result := XFCE_APPFINDER_ACTIONS_NOTHING_FOUND,
             error := some e, spawned := [], messages := [] } := by
  have ht0 : a.type ≠ XFCE_APPFINDER_ACTION_TYPE_PREFIX := by
    rw [ht]
    exact fun h => absurd (show (1 : Int) = 0 from h) (by decide)
  have hcomp : execute_regex_compile C a (execute_entry E) =
      some ({ a with regex := some regex }, execute_entry E, some regex) := by
    simp [execute_regex_compile, hc, hp, h1, execute_entry]
  have hmatch : execute_regex_match C text { a with regex := some regex } regex
      (execute_entry E) =
      some { execute_entry E with cmd := none, err := GErrorPtr.live e, error := some e } := by
    simp [execute_regex_match, h2, hcmd, h3, execute_entry]
  have hs : execute_switch C text a (execute_entry E) =
      some ({ a with regex := some regex },
        { execute_entry E with cmd := none, err := GErrorPtr.live e, error := some e }) := by
    unfold execute_switch
    rw [if_neg ht0, if_pos ht, hcomp]
    simp only
    rw [hmatch]
  have hall : ∀ rest : List (XfceAppfinderAction R),
      execute_loop C text (a :: rest) (execute_entry E) =
        (execute_loop C text rest
          { execute_entry E with cmd := none, err := GErrorPtr.live e, error := some e }).map
          (fun r => ({ a with regex := some regex } :: r.1, r.2)) := by
    intro rest
    exact execute_loop_cons C text a _ rest (execute_entry E) _ rfl hs
  refine ⟨hall, ?_⟩
  have hl : execute_loop C text [a] (execute_entry E) =
      some ([{ a with regex := some regex }],
        { execute_entry E with cmd := none, err := GErrorPtr.live e, error := some e }) := by
    rw [hall []]
    rfl
  rw [execute_of_loop C text _ _ _ hl]
  rfl

/-- C5 failing input with the reference collaborators: the single Regex rule
with pattern `a` and command `\` on the text `abc`. -/
theorem execute_regex_expansion_error_witness :
    (∀ rest : List (XfceAppfinderAction CStr),
      execute_loop ref_collaborators (cstr "abc")
          ({ type := 1, unique_id := 1, pattern := some (cstr "a"),
             command := some (cstr "\\"), regex := none } :: rest) (execute_entry CStr) =
        (execute_loop ref_collaborators (cstr "abc") rest
          { execute_entry CStr with
            cmd := none, err := GErrorPtr.live (cstr "stray final \\"),
            error := some (cstr "stray final \\") }).map
          (fun r =>
            ({ type := 1, unique_id := 1, pattern := some (cstr "a"),
               command := some (cstr "\\"), regex := some (cstr "a") } :: r.1, r.2))) ∧
    xfce_appfinder_actions_execute ref_collaborators
        [{ type := 1, unique_id := 1, pattern := some (cstr "a"),
           command := some (cstr "\\"), regex := none }] (cstr "abc") =
      some { actions :=
               [{ type := 1, unique_id := 1, pattern := some (cstr "a"),
                  command := some (cstr "\\"), regex := some (cstr "a") }],
             result := XFCE_APPFINDER_ACTIONS_NOTHING_FOUND,
             error := some (cstr "stray final \\"), spawned := [], messages := [] } :=
  execute_regex_expansion_error ref_collaborators (cstr "abc")
    { type := 1, unique_id := 1, pattern := some (cstr "a"), command := some (cstr "\\"),
      regex := none }
    (cstr "a") (cstr "\\") (cstr "a") (cstr "a") (cstr "stray final \\")
    rfl rfl rfl rfl rfl (by decide) rfl

/-! ## No rule matches -/

/-- A Regex rule whose pattern fails to compile is skipped, with one message,
and leaves the local `err` pointing to the freed error. -/
theorem execute_switch_compile_failure {R M E : Type} (C : Collaborators R M E) (text : CStr)
    (a : XfceAppfinderAction R) (st : ExecuteLocals E) (p : CStr) (e : E)
    (ht : a.type = XFCE_APPFINDER_ACTION_TYPE_REGEX) (hc : a.regex = none)
    (hp : a.pattern = some p) (herr : st.err = GErrorPtr.null)
    (h1 : C.g_regex_new p = Except.error e) :
    execute_switch C text a st =
      some (a, { st with err := GErrorPtr.freed, messages := st.messages ++ [(p, e)] }) := by
  have ht0 : a.type ≠ XFCE_APPFINDER_ACTION_TYPE_PREFIX := by
    rw [ht]
    exact fun h => absurd (show (1 : Int) = 0 from h) (by decide)
  have hcomp : execute_regex_compile C a st =
      some (a, { st with err := GErrorPtr.freed, messages := st.messages ++ [(p, e)] }, none) := by
    simp [execute_regex_compile, hc, hp, h1, herr]
  unfold execute_switch
  rw [if_neg ht0, if_pos ht, hcomp]

/-- An uncached Regex rule met while `err` is not `NULL` makes the model
undefined: `g_regex_new` is called with `&err` against the `GError` rules. -/
theorem execute_switch_stale_err {R M E : Type} (C : Collaborators R M E) (text : CStr)
    (a : XfceAppfinderAction R) (st : ExecuteLocals E)
    (ht : a.type = XFCE_APPFINDER_ACTION_TYPE_REGEX) (hc : a.regex = none)
    (herr : st.err ≠ GErrorPtr.null) :
    execute_switch C text a st = none := by
  have ht0 : a.type ≠ XFCE_APPFINDER_ACTION_TYPE_PREFIX := by
    rw [ht]
    exact fun h => absurd (show (1 : Int) = 0 from h) (by decide)
  have hcomp : execute_regex_compile C a st = none := by
    unfold execute_regex_compile
    rw [hc]
    cases he : st.err with
    | null => exact absurd he herr
    | live e => rfl
    | freed => rfl
  unfold execute_switch
  rw [if_neg ht0, if_pos ht, hcomp]

/-- C6, evaluation at the failing input: a rule list that starts with a Regex
rule whose pattern does not compile, followed by another Regex rule that has
no cached expression.  No rule matches as a Prefix rule, the first rule is
skipped with a message and frees `err` without resetting it, and the second
rule calls `g_regex_new (..., &err)` with the stale pointer: the run leaves
defined behaviour (`none`) instead of returning `NOTHING_FOUND`. -/
theorem execute_two_regex_compile_stale {R M E : Type} (C : Collaborators R M E) (text : CStr)
    (a b : XfceAppfinderAction R) (rest : List (XfceAppfinderAction R)) (p : CStr) (e : E)
    (hta : a.type = XFCE_APPFINDER_ACTION_TYPE_REGEX) (hca : a.regex = none)
    (hpa : a.pattern = some p) (h1 : C.g_regex_new p = Except.error e)
    (htb : b.type = XFCE_APPFINDER_ACTION_TYPE_REGEX) (hcb : b.regex = none) :
    (∀ x ∈ [a, b], ¬ prefix_matches text x) ∧
    xfce_appfinder_actions_execute C [a] text =
      some { actions := [a], result := XFCE_APPFINDER_ACTIONS_NOTHING_FOUND, error := none,
             spawned := [], messages := [(p, e)] } ∧
    xfce_appfinder_actions_execute C (a :: b :: rest) text = none := by
  have hne : (1 : Int) ≠ 0 := by decide
  have hsa := execute_switch_compile_failure C text a (execute_entry E) p e hta hca hpa rfl h1
  refine ⟨?_, ?_, ?_⟩
  · intro x hx hm
    simp only [List.mem_cons, List.mem_singleton, List.not_mem_nil, or_false] at hx
    rcases hx with rfl | rfl
    · exact hne (hta.symm.trans hm.1)
    · exact hne (htb.symm.trans hm.1)
  · have hl : execute_loop C text [a] (execute_entry E) =
        some ([a], { execute_entry E with
          err := GErrorPtr.freed, messages := (execute_entry E).messages ++ [(p, e)] }) := by
      rw [execute_loop_cons C text a a [] (execute_entry E) _ rfl hsa]
      rfl
    rw [execute_of_loop C text _ _ _ hl]
    rfl
  · have hsb := execute_switch_stale_err C text b
      { execute_entry E with
        err := GErrorPtr.freed, messages := (execute_entry E).messages ++ [(p, e)] }
      htb hcb (by simp)
    have hl : execute_loop C text (a :: b :: rest) (execute_entry E) = none := by
      rw [execute_loop_cons C text a a (b :: rest) (execute_entry E) _ rfl hsa]
      simp only [execute_loop, if_true, hsb]
      rfl
    simp [xfce_appfinder_actions_execute, hl]

/-- C6 failing input with the reference collaborators: the two Regex rules
with the pattern `(`, which does not compile, as `load` produces them from
`two_bad_regex_channel`, and the text `nomatch-xyz`. -/
theorem execute_two_regex_compile_stale_witness :
    (xfce_appfinder_actions_init CStr two_bad_regex_channel).actions =
      [{ type := 1, unique_id := 2, pattern := some (cstr "("),
         command := some (cstr "true"), regex := none },
       { type := 1, unique_id := 1, pattern := some (cstr "("),
         command := some (cstr "true"), regex := none }] ∧
    (∀ x ∈ ([{ type := 1, unique_id := 2, pattern := some (cstr "("),
               command := some (cstr "true"), regex := none },
             { type := 1, unique_id := 1, pattern := some (cstr "("),
               command := some (cstr "true"), regex := none }] :
            List (XfceAppfinderAction CStr)),
      ¬ prefix_matches (cstr "nomatch-xyz") x) ∧
    xfce_appfinder_actions_execute ref_collaborators
        [{ type := 1, unique_id := 2, pattern := some (cstr "("),
           command := some (cstr "true"), regex := none }] (cstr "nomatch-xyz") =
      some { actions := [{ type := 1, unique_id := 2, pattern := some (cstr "("),
                           command := some (cstr "true"), regex := none }],
             result := XFCE_APPFINDER_ACTIONS_NOTHING_FOUND, error := none,
             spawned := [], messages := [(cstr "(", cstr "missing )")] } ∧
    xfce_appfinder_actions_execute ref_collaborators
        [{ type := 1, unique_id := 2, pattern := some (cstr "("),
           command := some (cstr "true"), regex := none },
         { type := 1, unique_id := 1, pattern := some (cstr "("),
           command := some (cstr "true"), regex := none }] (cstr "nomatch-xyz") = none :=
  And.intro (by decide) <|
  execute_two_regex_compile_stale ref_collaborators (cstr "nomatch-xyz")
    { type := 1, unique_id := 2, pattern := some (cstr "("), command := some (cstr "true"),
      regex := none }
    { type := 1, unique_id := 1, pattern := some (cstr "("), command := some (cstr "true"),
      regex := none }
    [] (cstr "(") (cstr "missing )") rfl rfl rfl rfl rfl rfl

/-- A rule that misses the text and has its expression available leaves the
locals untouched (only the regex cache of the rule may be filled). -/
theorem execute_switch_miss {R M E : Type} (C : Collaborators R M E) (text : CStr)
    (a : XfceAppfinderAction R) (st : ExecuteLocals E) (herr : st.err = GErrorPtr.null)
    (hp : prefix_misses text a) (hr : regex_misses C text a) :
    ∃ a1, execute_switch C text a st = some (a1, st) := by
  by_cases ht0 : a.type = XFCE_APPFINDER_ACTION_TYPE_PREFIX
  · obtain ⟨p, hpat, hm⟩ := hp ht0
    exact ⟨a, execute_switch_prefix_miss C text a st ht0 p hpat hm⟩
  · by_cases ht1 : a.type = XFCE_APPFINDER_ACTION_TYPE_REGEX
    · obtain ⟨regex, hav, hm⟩ := hr ht1
      unfold execute_switch
      rw [if_neg ht0, if_pos ht1]
      rcases hav with hc | ⟨hc, p, hpat, hnew⟩
      · refine ⟨a, ?_⟩
        have hcomp : execute_regex_compile C a st = some (a, st, some regex) := by
          simp [execute_regex_compile, hc]
        have hmatch : execute_regex_match C text a regex st = some st := by
          simp [execute_regex_match, hm]
        rw [hcomp]
        simp only
        rw [hmatch]
      · refine ⟨{ a with regex := some regex }, ?_⟩
        have hcomp : execute_regex_compile C a st =
            some ({ a with regex := some regex }, st, some regex) := by
          simp [execute_regex_compile, hc, hpat, hnew, herr]
        have hmatch : execute_regex_match C text { a with regex := some regex } regex st =
            some st := by
          simp [execute_regex_match, hm]
        rw [hcomp]
        simp only
        rw [hmatch]
    · exact ⟨a, execute_switch_other C text a st ht0 ht1⟩

theorem execute_loop_no_match {R M E : Type} (C : Collaborators R M E) (text : CStr)
    (l : List (XfceAppfinderAction R)) (st : ExecuteLocals E)
    (hres : st.result = XFCE_APPFINDER_ACTIONS_NOTHING_FOUND) (herr : st.err = GErrorPtr.null)
    (h : ∀ a ∈ l, prefix_misses text a ∧ regex_misses C text a) :
    ∃ l1, execute_loop C text l st = some (l1, st) := by
  induction l with
  | nil => exact ⟨[], rfl⟩
  | cons a l ih =>
    have ha := h a (List.mem_cons_self _ _)
    obtain ⟨a1, hs⟩ := execute_switch_miss C text a st herr ha.1 ha.2
    obtain ⟨l1, hl⟩ := ih (fun x hx => h x (List.mem_cons_of_mem _ hx))
    refine ⟨a1 :: l1, ?_⟩
    rw [execute_loop_cons C text a a1 l st st hres hs, hl]
    rfl

/-- When every Prefix rule misses the text and every Regex rule has an
expression (cached or compilable) that does not match it, `execute` returns
`NOTHING_FOUND`, spawns nothing, logs nothing and leaves `*error` unset. -/
theorem execute_no_match {R M E : Type} (C : Collaborators R M E) (text : CStr)
    (actions : List (XfceAppfinderAction R))
    (h : ∀ a ∈ actions, prefix_misses text a ∧ regex_misses C text a) :
    ∃ li, xfce_appfinder_actions_execute C actions text =
      some { actions := li, result := XFCE_APPFINDER_ACTIONS_NOTHING_FOUND, error := none,
             spawned := [], messages := [] } := by
  obtain ⟨l1, hl⟩ := execute_loop_no_match C text actions (execute_entry E) rfl rfl h
  exact ⟨l1, by rw [execute_of_loop C text _ _ _ hl]; rfl⟩

/-- The instance of C6: on the default rule set and the text `nomatch-xyz`,
with an engine whose URL expression compiles and does not match the text,
`execute` returns `NOTHING_FOUND` without spawning and without an error. -/
theorem execute_default_no_match {R M E : Type} (C : Collaborators R M E) (regex : R)
    (h1 : C.g_regex_new (cstr "^(file|http|https):\\/\\/(.*)$") = Except.ok regex)
    (h2 : C.g_regex_match regex (cstr "nomatch-xyz") = none) :
    ∃ li, xfce_appfinder_actions_execute C (default_rule_set R) (cstr "nomatch-xyz") =
      some { actions := li, result := XFCE_APPFINDER_ACTIONS_NOTHING_FOUND, error := none,
             spawned := [], messages := [] } := by
  apply execute_no_match
  intro a ha
  rw [default_rule_set_eq] at ha
  simp only [List.mem_cons, List.mem_singleton, List.not_mem_nil, or_false] at ha
  have hne : (0 : Int) ≠ 1 := by decide
  rcases ha with rfl | rfl | rfl | rfl
  · exact ⟨fun _ => ⟨cstr "#", rfl, by decide⟩, fun h => absurd h hne⟩
  · exact ⟨fun _ => ⟨cstr "!w", rfl, by decide⟩, fun h => absurd h hne⟩
  · exact ⟨fun _ => ⟨cstr "!", rfl, by decide⟩, fun h => absurd h hne⟩
  · exact ⟨fun h => absurd h.symm hne, fun _ => ⟨regex, Or.inr ⟨rfl, _, rfl, h1⟩, h2⟩⟩

theorem execute_default_no_match_witness :
    ∃ li, xfce_appfinder_actions_execute ref_collaborators (default_rule_set CStr)
        (cstr "nomatch-xyz") =
      some { actions := li, result := XFCE_APPFINDER_ACTIONS_NOTHING_FOUND, error := none,
             spawned := [], messages := [] } :=
  execute_default_no_match ref_collaborators (cstr "^(file|http|https):\\/\\/(.*)$") rfl
    (by decide)

/-! ## The command expander against its reference definition -/

theorem g_strchug_eq_dropWhile (s : CStr) : g_strchug s = s.dropWhile g_ascii_isspace := by
  induction s with
  | nil => rfl
  | cons c s ih =>
    simp only [g_strchug, List.dropWhile_cons]
    cases h : g_ascii_isspace c with
    | true => simpa using ih
    | false => simp

theorem expand_switch_eq_emit (pattern text : CStr) (d : Nat) :
    expand_switch text pattern.length d =
      Token.emit pattern text
        (if d = 115 then Token.remainder else if d = 83 then Token.whole
          else if d = 37 then Token.percent else Token.dropped) := by
  unfold expand_switch
  by_cases h1 : d = 115
  · simp [h1, Token.emit, g_strchug_eq_dropWhile]
  · by_cases h2 : d = 83
    · simp [h2, Token.emit]
    · by_cases h3 : d = 37
      · simp [h3, Token.emit]
      · simp [h1, h2, h3, Token.emit]

theorem tokenize_percent (d : Nat) (rest : CStr) :
    tokenize (37 :: d :: rest) =
      (if d = 115 then Token.remainder else if d = 83 then Token.whole
        else if d = 37 then Token.percent else Token.dropped) :: tokenize rest := by
  simp only [tokenize, ne_eq, not_true_eq_false, if_false]
  by_cases h1 : d = 115
  · simp [h1]
  · by_cases h2 : d = 83
    · simp [h2]
    · by_cases h3 : d = 37
      · simp [h3]
      · simp [h1, h2, h3]

theorem expand_command_loop_eq_reference (pattern text : CStr) (n : Nat) :
    ∀ command : CStr, command.length ≤ n →
      expand_command_loop text pattern.length command =
        expand_command_reference pattern command text := by
  induction n with
  | zero =>
    intro command h
    have : command = [] := List.length_eq_zero.mp (Nat.le_zero.mp h)
    subst this
    rfl
  | succ n ih =>
    intro command h
    match command, h with
    | [], _ => rfl
    | [c], _ => rfl
    | c :: d :: rest, h =>
      simp only [List.length_cons] at h
      by_cases hc : c = 37
      · subst hc
        have hrest := ih rest (by omega)
        simp only [expand_command_loop, if_true, expand_command_reference, tokenize_percent,
          List.map_cons, List.flatten_cons]
        rw [hrest, expand_switch_eq_emit]
        rfl
      · have hrest := ih (d :: rest) (by simp only [List.length_cons]; omega)
        simp only [expand_command_loop, hc, if_false, expand_command_reference, tokenize, ne_eq,
          not_false_eq_true, if_true, List.map_cons, List.flatten_cons, Token.emit]
        rw [hrest]
        rfl

/-- C7: for a rule with pattern and command and a text that starts with the
pattern, `xfce_appfinder_actions_expand_command` returns the reference
expansion: one pass from left to right in which every character other than `%`
is copied, `%s` becomes the text without its first `length pattern` bytes and
without leading ASCII white space, `%S` the text, `%%` one `%`, `%` before any
other character nothing, and a final `%` is copied; what is substituted is
appended to the output and never scanned. -/
theorem expand_command_refines_reference {R : Type} (a : XfceAppfinderAction R)
    (pattern command text : CStr) (hp : a.pattern = some pattern)
    (hc : a.command = some command) (_hpre : g_str_has_prefix text pattern = true) :
    xfce_appfinder_actions_expand_command a text =
      some (expand_command_reference pattern command text) := by
  rw [expand_command_some a text pattern command hp hc,
    expand_command_loop_eq_reference pattern text command.length command (Nat.le_refl _)]

/-- C7 at a concrete input: the rule `!w` of the default table and the text
`!w foo`. -/
theorem expand_command_refines_reference_witness :
    g_str_has_prefix (cstr "!w foo") (cstr "!w") = true ∧
    xfce_appfinder_actions_expand_command
        ({ type := 0, unique_id := 3, pattern := some (cstr "!w"),
           command := some (cstr "exo-open --launch WebBrowser http://en.wikipedia.org/wiki/%s"),
           regex := none } : XfceAppfinderAction CStr) (cstr "!w foo") =
      some (expand_command_reference (cstr "!w")
        (cstr "exo-open --launch WebBrowser http://en.wikipedia.org/wiki/%s") (cstr "!w foo")) :=
  ⟨by decide,
    expand_command_refines_reference _ (cstr "!w")
      (cstr "exo-open --launch WebBrowser http://en.wikipedia.org/wiki/%s") (cstr "!w foo")
      rfl rfl (by decide)⟩

/-! ## Spawning the command of a Prefix rule -/

/-- Under the ordering invariant the first rule that matches as a Prefix rule
is preceded by no Regex rule and only by Prefix rules that carry a pattern and
miss the text. -/
theorem first_prefix_match_of_invariant {R : Type} (text : CStr)
    (actions : List (XfceAppfinderAction R)) (hinv : ordering_invariant actions)
    (hex : ∃ a ∈ actions, prefix_matches text a) :
    ∃ pre a post, actions = pre ++ a :: post ∧ prefix_matches text a ∧
      ∀ b ∈ pre, b.type ≠ XFCE_APPFINDER_ACTION_TYPE_REGEX ∧ prefix_misses text b := by
  induction actions with
  | nil =>
    obtain ⟨a, ha, _⟩ := hex
    exact absurd ha (List.not_mem_nil _)
  | cons x xs ih =>
    have hx := List.pairwise_cons.mp hinv
    by_cases hm : prefix_matches text x
    · exact ⟨[], x, xs, rfl, hm, fun b hb => absurd hb (List.not_mem_nil _)⟩
    · have hex' : ∃ a ∈ xs, prefix_matches text a := by
        obtain ⟨a, ha, ham⟩ := hex
        rcases List.mem_cons.mp ha with rfl | ha
        · exact absurd ham hm
        · exact ⟨a, ha, ham⟩
      obtain ⟨pre, a, post, heq, ham, hpre⟩ := ih hx.2 hex'
      have ha : a ∈ xs := by rw [heq]; simp
      have hxa := hx.1 a ha
      refine ⟨x :: pre, a, post, by rw [heq]; rfl, ham, ?_⟩
      intro b hb
      rcases List.mem_cons.mp hb with rfl | hb
      · refine ⟨fun h1 => hxa.1 ⟨h1, ham.1⟩, ?_⟩
        intro h0
        obtain ⟨ta, p, hp, mp⟩ := ham
        have hcmp := hxa.2 (h0.trans ta.symm)
        rw [hp] at hcmp
        cases hq : b.pattern with
        | none => rw [hq] at hcmp; simp [g_strcmp0] at hcmp
        | some q =>
          refine ⟨q, rfl, ?_⟩
          cases hbq : g_str_has_prefix text q with
          | false => rfl
          | true => exact absurd ⟨h0, q, hq, hbq⟩ hm
      · exact hpre b hb

/-- Where the dispatcher does spawn the command of a Prefix rule: when the
first rule that matches the text as a Prefix rule has a command and is preceded
by no Regex rule (only by Prefix rules that miss the text, or rules of no known
kind; the ordering invariant gives this, `first_prefix_match_of_invariant`),
`execute` hands exactly one command line to the spawner, the variable expansion
of that rule's expanded command; it returns `SUCCEED` without error when the
spawner succeeds, and `ERROR` with exactly the spawner's error when the spawner
fails. -/
theorem execute_prefix_spawn {R M E : Type} (C : Collaborators R M E) (text : CStr)
    (pre post : List (XfceAppfinderAction R)) (a : XfceAppfinderAction R) (command : CStr)
    (hpre : ∀ b ∈ pre, b.type ≠ XFCE_APPFINDER_ACTION_TYPE_REGEX ∧ prefix_misses text b)
    (ha : prefix_matches text a) (hc : a.command = some command) :
    ∃ cmd o, xfce_appfinder_actions_expand_command a text = some cmd ∧
      xfce_appfinder_actions_execute C (pre ++ a :: post) text = some o ∧
      o.spawned = [C.xfce_expand_variables cmd] ∧
      (∀ u, C.xfce_spawn_command_line_on_screen (C.xfce_expand_variables cmd) = Except.ok u →
        o.result = XFCE_APPFINDER_ACTIONS_SUCCEED ∧ o.error = none) ∧
      (∀ e, C.xfce_spawn_command_line_on_screen (C.xfce_expand_variables cmd) = Except.error e →
        o.result = XFCE_APPFINDER_ACTIONS_ERROR ∧ o.error = some e) := by
  obtain ⟨_, p, hp, _⟩ := id ha
  have hcmd := expand_command_some a text p command hp hc
  have hloop := execute_loop_first_prefix_match C text pre post a (execute_entry E) rfl hpre ha
  rw [hcmd] at hloop
  have hs := execute_spawn_succeed C (pre ++ a :: post)
    { execute_entry E with
      cmd := some (expand_command_loop text p.length command),
      result := XFCE_APPFINDER_ACTIONS_SUCCEED }
    (expand_command_loop text p.length command) rfl rfl rfl
  exact ⟨_, _, hcmd, execute_of_loop C text _ _ _ hloop, hs.1, hs.2.2.2.1, hs.2.2.2.2⟩

/-- The spawn of a Prefix rule at a concrete input: the default rule set and
`!w foo`. -/
theorem execute_prefix_spawn_witness :
    ∃ cmd o,
      xfce_appfinder_actions_expand_command
        ({ type := 0, unique_id := 3, pattern := some (cstr "!w"),
           command := some (cstr "exo-open --launch WebBrowser http://en.wikipedia.org/wiki/%s"),
           regex := none } : XfceAppfinderAction CStr) (cstr "!w foo") = some cmd ∧
      xfce_appfinder_actions_execute ref_collaborators
        ([{ type := 0, unique_id := 4, pattern := some (cstr "#"),
            command := some (cstr "exo-open --launch TerminalEmulator man %s"),
            regex := none }] ++
          { type := 0, unique_id := 3, pattern := some (cstr "!w"),
            command := some (cstr "exo-open --launch WebBrowser http://en.wikipedia.org/wiki/%s"),
            regex := none } ::
          [{ type := 0, unique_id := 2, pattern := some (cstr "!"),
             command := some (cstr "exo-open --launch TerminalEmulator %s"), regex := none },
           { type := 1, unique_id := 1, pattern := some (cstr "^(file|http|https):\\/\\/(.*)$"),
             command := some (cstr "exo-open \\0"), regex := none }])
        (cstr "!w foo") = some o ∧
      o.spawned = [ref_collaborators.xfce_expand_variables cmd] ∧
      (∀ u, ref_collaborators.xfce_spawn_command_line_on_screen
          (ref_collaborators.xfce_expand_variables cmd) = Except.ok u →
        o.result = XFCE_APPFINDER_ACTIONS_SUCCEED ∧ o.error = none) ∧
      (∀ e, ref_collaborators.xfce_spawn_command_line_on_screen
          (ref_collaborators.xfce_expand_variables cmd) = Except.error e →
        o.result = XFCE_APPFINDER_ACTIONS_ERROR ∧ o.error = some e) :=
  execute_prefix_spawn ref_collaborators (cstr "!w foo")
    [{ type := 0, unique_id := 4, pattern := some (cstr "#"),
       command := some (cstr "exo-open --launch TerminalEmulator man %s"), regex := none }]
    [{ type := 0, unique_id := 2, pattern := some (cstr "!"),
       command := some (cstr "exo-open --launch TerminalEmulator %s"), regex := none },
     { type := 1, unique_id := 1, pattern := some (cstr "^(file|http|https):\\/\\/(.*)$"),
       command := some (cstr "exo-open \\0"), regex := none }]
    { type := 0, unique_id := 3, pattern := some (cstr "!w"),
      command := some (cstr "exo-open --launch WebBrowser http://en.wikipedia.org/wiki/%s"),
      regex := none }
    (cstr "exo-open --launch WebBrowser http://en.wikipedia.org/wiki/%s")
    (by
      intro b hb
      rw [List.mem_singleton] at hb
      subst hb
      exact ⟨by decide, fun _ => ⟨cstr "#", rfl, by decide⟩⟩)
    ⟨rfl, cstr "!w", rfl, by decide⟩ rfl

/-- C8, evaluation at the failing input: in the default rule set the channel
reports for rule 4 the pattern `!`, the command `\` (a lone backslash) and the
type Regex; the handler stores them in place, so the Regex rule 4 stands before
the Prefix rules.  On the text `!ls` the expansion of rule 4 fails and sets the
caller's error, then the Prefix rule `!` matches and sets `SUCCEED`; the test
`*error == NULL` skips the spawn: nothing is handed to the spawner although a
Prefix rule matched, and `execute` returns `SUCCEED` with the error set. -/
theorem execute_prefix_spawn_suppressed :
    (changes_run
        [(cstr "/actions/action-4/pattern", XfconfValue.string (cstr "!")),
         (cstr "/actions/action-4/command", XfconfValue.string (cstr "\\")),
         (cstr "/actions/action-4/type", XfconfValue.int 1)]
        (xfce_appfinder_actions_init CStr xfconf_channel_empty)).actions =
      [ { type := 1, unique_id := 4, pattern := some (cstr "!"),
          command := some (cstr "\\"), regex := none },
        { type := 0, unique_id := 3, pattern := some (cstr "!w"),
          command := some (cstr "exo-open --launch WebBrowser http://en.wikipedia.org/wiki/%s"),
          regex := none },
        { type := 0, unique_id := 2, pattern := some (cstr "!"),
          command := some (cstr "exo-open --launch TerminalEmulator %s"), regex := none },
        { type := 1, unique_id := 1, pattern := some (cstr "^(file|http|https):\\/\\/(.*)$"),
          command := some (cstr "exo-open \\0"), regex := none } ] ∧
    prefix_matches (cstr "!ls")
      ({ type := 0, unique_id := 2, pattern := some (cstr "!"),
         command := some (cstr "exo-open --launch TerminalEmulator %s"), regex := none } :
        XfceAppfinderAction CStr) ∧
    (xfce_appfinder_actions_execute ref_collaborators
        (changes_run
          [(cstr "/actions/action-4/pattern", XfconfValue.string (cstr "!")),
           (cstr "/actions/action-4/command", XfconfValue.string (cstr "\\")),
           (cstr "/actions/action-4/type", XfconfValue.int 1)]
          (xfce_appfinder_actions_init CStr xfconf_channel_empty)).actions
        (cstr "!ls")).map (fun o => (o.result, o.error, o.spawned)) =
      some (XFCE_APPFINDER_ACTIONS_SUCCEED, some (cstr "stray final \\"), []) :=
  ⟨by decide, ⟨rfl, cstr "!", rfl, by decide⟩, by decide⟩

/-! ## Malformed persisted entries -/

theorem valid_type_range (n : Int) :
    ¬ (n < XFCE_APPFINDER_ACTION_TYPE_PREFIX ∨ n > XFCE_APPFINDER_ACTION_TYPE_REGEX) ↔
      (n = XFCE_APPFINDER_ACTION_TYPE_PREFIX ∨ n = XFCE_APPFINDER_ACTION_TYPE_REGEX) := by
  unfold XFCE_APPFINDER_ACTION_TYPE_PREFIX XFCE_APPFINDER_ACTION_TYPE_REGEX
  omega

theorem xfconf_channel_get_int_valid (channel : XfconfChannel) (property : CStr) (t : Int)
    (ht : t = XFCE_APPFINDER_ACTION_TYPE_PREFIX ∨ t = XFCE_APPFINDER_ACTION_TYPE_REGEX) :
    xfconf_channel_get_int channel property (-1) = t ↔
      channel property = some (XfconfValue.int t) := by
  unfold xfconf_channel_get_int
  unfold XFCE_APPFINDER_ACTION_TYPE_PREFIX XFCE_APPFINDER_ACTION_TYPE_REGEX at ht
  cases h : channel property with
  | none =>
    simp only [false_iff, reduceCtorEq, iff_false]
    omega
  | some v =>
    cases v with
    | int n => simp
    | string s =>
      simp only [Option.some.injEq, reduceCtorEq, iff_false]
      omega
    | array ids =>
      simp only [Option.some.injEq, reduceCtorEq, iff_false]
      omega
    | other =>
      simp only [Option.some.injEq, reduceCtorEq, iff_false]
      omega

theorem xfconf_channel_get_string_some (channel : XfconfChannel) (property s : CStr) :
    xfconf_channel_get_string channel property none = some s ↔
      channel property = some (XfconfValue.string s) := by
  unfold xfconf_channel_get_string
  cases h : channel property with
  | none => simp
  | some v => cases v <;> simp

theorem load_entry_eq_some_iff (R : Type) (channel : XfconfChannel) (unique_id : Int)
    (a : XfceAppfinderAction R) :
    load_entry R channel unique_id = some a ↔
      ∃ t p c, (t = XFCE_APPFINDER_ACTION_TYPE_PREFIX ∨ t = XFCE_APPFINDER_ACTION_TYPE_REGEX) ∧
        channel (action_prop unique_id (cstr "type")) = some (XfconfValue.int t) ∧
        channel (action_prop unique_id (cstr "pattern")) = some (XfconfValue.string p) ∧
        channel (action_prop unique_id (cstr "command")) = some (XfconfValue.string c) ∧
        a = { type := t, unique_id := unique_id, pattern := some p, command := some c,
              regex := none } := by
  unfold load_entry
  simp only
  constructor
  · intro h
    split at h
    · exact absurd h (by simp)
    · rename_i hr
      have hv := (valid_type_range _).mp hr
      split at h
      · rename_i p c hp hc
        injection h with h
        exact ⟨_, p, c, hv, (xfconf_channel_get_int_valid channel _ _ hv).mp rfl,
          (xfconf_channel_get_string_some channel _ p).mp hp,
          (xfconf_channel_get_string_some channel _ c).mp hc, h.symm⟩
      · exact absurd h (by simp)
  · rintro ⟨t, p, c, hv, ht, hp, hc, rfl⟩
    have ht' := (xfconf_channel_get_int_valid channel _ t hv).mpr ht
    have hp' := (xfconf_channel_get_string_some channel _ p).mpr hp
    have hc' := (xfconf_channel_get_string_some channel _ c).mpr hc
    rw [ht', hp', hc', if_neg ((valid_type_range t).mpr hv)]

theorem execute_regex_compile_fields {R M E : Type} (C : Collaborators R M E)
    (a a1 : XfceAppfinderAction R) (st st1 : ExecuteLocals E) (r : Option R)
    (h : execute_regex_compile C a st = some (a1, st1, r)) :
    rule_fields a1 = rule_fields a := by
  unfold execute_regex_compile at h
  cases hr : a.regex with
  | some regex =>
    simp only [hr, Option.some.injEq, Prod.mk.injEq] at h
    rw [← h.1]
  | none =>
    cases he : st.err <;> cases hp : a.pattern <;> simp only [hr, he, hp] at h <;>
      try exact absurd h (by simp)
    rename_i pattern
    cases hx : C.g_regex_new pattern <;>
      simp only [hx, Option.some.injEq, Prod.mk.injEq] at h
    · rw [← h.1]
    · rw [← h.1]
      simp [rule_fields, hp]

/-- The dispatcher changes nothing of a rule but its regex cache. -/
theorem execute_switch_fields {R M E : Type} (C : Collaborators R M E) (text : CStr)
    (a a1 : XfceAppfinderAction R) (st st1 : ExecuteLocals E)
    (h : execute_switch C text a st = some (a1, st1)) :
    rule_fields a1 = rule_fields a := by
  unfold execute_switch at h
  by_cases ht : a.type = XFCE_APPFINDER_ACTION_TYPE_PREFIX
  · rw [if_pos ht] at h
    cases hp : a.pattern with
    | none => simp [hp] at h
    | some p =>
      simp only [hp] at h
      split at h <;> simp only [Option.some.injEq, Prod.mk.injEq] at h <;> rw [← h.1]
  · rw [if_neg ht] at h
    by_cases hr : a.type = XFCE_APPFINDER_ACTION_TYPE_REGEX
    · rw [if_pos hr] at h
      cases hc : execute_regex_compile C a st with
      | none => simp [hc] at h
      | some res =>
        obtain ⟨a2, st2, r⟩ := res
        have h2 := execute_regex_compile_fields C a a2 st st2 r hc
        cases r with
        | none =>
          simp only [hc, Option.some.injEq, Prod.mk.injEq] at h
          rw [← h.1, h2]
        | some regex =>
          simp only [hc] at h
          cases hm : execute_regex_match C text a2 regex st2 with
          | none => simp [hm] at h
          | some st3 =>
            simp only [hm, Option.some.injEq, Prod.mk.injEq] at h
            rw [← h.1, h2]
    · rw [if_neg hr] at h
      simp only [Option.some.injEq, Prod.mk.injEq] at h
      rw [← h.1]

theorem execute_loop_fields {R M E : Type} (C : Collaborators R M E) (text : CStr)
    (l l1 : List (XfceAppfinderAction R)) (st st1 : ExecuteLocals E)
    (h : execute_loop C text l st = some (l1, st1)) :
    l1.map rule_fields = l.map rule_fields := by
  induction l generalizing l1 st st1 with
  | nil =>
    simp only [execute_loop, Option.some.injEq, Prod.mk.injEq] at h
    rw [← h.1]
  | cons a l ih =>
    unfold execute_loop at h
    by_cases hr : st.result = XFCE_APPFINDER_ACTIONS_NOTHING_FOUND
    · rw [if_pos hr] at h
      cases hs : execute_switch C text a st with
      | none => simp [hs] at h
      | some res =>
        obtain ⟨a2, st2⟩ := res
        simp only [hs] at h
        cases hl : execute_loop C text l st2 with
        | none => simp [hl] at h
        | some res2 =>
          obtain ⟨l2, st3⟩ := res2
          simp only [hl, Option.some.injEq, Prod.mk.injEq] at h
          rw [← h.1, List.map_cons, List.map_cons, ih l2 st2 st3 hl,
            execute_switch_fields C text a a2 st st2 hs]
    · rw [if_neg hr] at h
      simp only [Option.some.injEq, Prod.mk.injEq] at h
      rw [← h.1]

theorem execute_spawn_actions {R M E : Type} (C : Collaborators R M E)
    (li : List (XfceAppfinderAction R)) (st : ExecuteLocals E) :
    (execute_spawn C li st).actions = li := by
  unfold execute_spawn
  split
  · dsimp only
    split <;> rfl
  · rfl

/-- The rules `execute` ranges over and returns are those of the list it is
given, up to their regex caches. -/
theorem execute_fields {R M E : Type} (C : Collaborators R M E) (text : CStr)
    (actions : List (XfceAppfinderAction R)) (o : ExecuteOutcome R E)
    (h : xfce_appfinder_actions_execute C actions text = some o) :
    o.actions.map rule_fields = actions.map rule_fields := by
  unfold xfce_appfinder_actions_execute at h
  cases hl : execute_loop C text actions (execute_entry E) with
  | none => simp [hl] at h
  | some res =>
    obtain ⟨li, st⟩ := res
    simp only [hl, Option.some.injEq] at h
    have hli := execute_loop_fields C text actions li (execute_entry E) st hl
    subst h
    rw [execute_spawn_actions C li st, hli]

theorem mem_init_actions_iff (R : Type) (channel : XfconfChannel) (array : List Int)
    (harr : channel (cstr "/actions") = some (XfconfValue.array array))
    (a : XfceAppfinderAction R) :
    a ∈ (xfce_appfinder_actions_init R channel).actions ↔
      ∃ unique_id ∈ array, load_entry R channel unique_id = some a := by
  unfold xfce_appfinder_actions_init
  rw [load_actions_eq, mem_g_slist_sort]
  unfold loaded_unsorted xfconf_channel_has_property xfconf_channel_get_arrayv
  rw [harr]
  simp only [Option.isSome_some, if_true, List.mem_reverse, List.mem_filterMap]

theorem load_entry_unique_id (R : Type) (channel : XfconfChannel) (unique_id : Int)
    (a : XfceAppfinderAction R) (h : load_entry R channel unique_id = some a) :
    a.unique_id = unique_id := by
  obtain ⟨t, p, c, _, _, _, _, rfl⟩ := (load_entry_eq_some_iff R channel unique_id a).mp h
  rfl

theorem load_entry_readable (R : Type) (channel : XfconfChannel) (unique_id : Int)
    (a : XfceAppfinderAction R) (h : load_entry R channel unique_id = some a) :
    entry_readable channel unique_id := by
  obtain ⟨t, p, c, hv, ht, hp, hc, rfl⟩ := (load_entry_eq_some_iff R channel unique_id a).mp h
  refine ⟨?_, ⟨p, hp⟩, ⟨c, hc⟩⟩
  rcases hv with rfl | rfl
  · exact Or.inl ht
  · exact Or.inr ht

/-- What `load` keeps of a listed id, in terms of the property names it builds:
let the channel list `unique_id` in the array `/actions`.  If the entry is not
readable (under the names of `action_prop` the type is missing, is no integer
or is neither enumerator, or the pattern or the command is missing or holds no
string), then no rule with that id is in the rule list that `load` produces,
and so none is among the rules any `execute` run ranges over.  If the entry is
readable, a rule with that id and the stored type, pattern and command is in
the list, whatever the other entries are. -/
theorem load_drops_unreadable_entries (R M E : Type) (channel : XfconfChannel)
    (array : List Int) (unique_id : Int)
    (harr : channel (cstr "/actions") = some (XfconfValue.array array))
    (hid : unique_id ∈ array) :
    (¬ entry_readable channel unique_id →
      (∀ a ∈ (xfce_appfinder_actions_init R channel).actions, a.unique_id ≠ unique_id) ∧
      ∀ (C : Collaborators R M E) (text : CStr) (o : ExecuteOutcome R E),
        xfce_appfinder_actions_execute C (xfce_appfinder_actions_init R channel).actions text =
          some o →
        ∀ a ∈ o.actions, a.unique_id ≠ unique_id) ∧
    (entry_readable channel unique_id →
      ∃ a ∈ (xfce_appfinder_actions_init R channel).actions,
        a.unique_id = unique_id ∧
        channel (action_prop unique_id (cstr "type")) = some (XfconfValue.int a.type) ∧
        (∃ p, a.pattern = some p ∧
          channel (action_prop unique_id (cstr "pattern")) = some (XfconfValue.string p)) ∧
        (∃ c, a.command = some c ∧
          channel (action_prop unique_id (cstr "command")) = some (XfconfValue.string c))) ∧
    ((channel (action_prop unique_id (cstr "type")) = none ∨
        channel (action_prop unique_id (cstr "pattern")) = none ∨
        channel (action_prop unique_id (cstr "command")) = none ∨
        (∃ n, channel (action_prop unique_id (cstr "type")) = some (XfconfValue.int n) ∧
          n ≠ XFCE_APPFINDER_ACTION_TYPE_PREFIX ∧ n ≠ XFCE_APPFINDER_ACTION_TYPE_REGEX)) →
      ¬ entry_readable channel unique_id) := by
  have hdrop : ¬ entry_readable channel unique_id →
      ∀ a ∈ (xfce_appfinder_actions_init R channel).actions, a.unique_id ≠ unique_id := by
    intro hbad a ha he
    obtain ⟨i, _, hl⟩ := (mem_init_actions_iff R channel array harr a).mp ha
    have hi := load_entry_unique_id R channel i a hl
    rw [he] at hi
    subst hi
    exact hbad (load_entry_readable R channel _ a hl)
  refine ⟨fun hbad => ⟨hdrop hbad, ?_⟩, ?_, ?_⟩
  · intro C text o ho a ha he
    have hf := execute_fields C text _ o ho
    have hmem : rule_fields a ∈ o.actions.map rule_fields := List.mem_map_of_mem _ ha
    rw [hf, List.mem_map] at hmem
    obtain ⟨b, hb, hbf⟩ := hmem
    have hbid : b.unique_id = a.unique_id := congrArg Prod.fst hbf
    exact hdrop hbad b hb (hbid.trans he)
  · rintro ⟨ht, ⟨p, hp⟩, ⟨c, hc⟩⟩
    rcases ht with ht | ht
    · exact ⟨_, (mem_init_actions_iff R channel array harr _).mpr
        ⟨unique_id, hid, (load_entry_eq_some_iff R channel unique_id _).mpr
          ⟨_, p, c, Or.inl rfl, ht, hp, hc, rfl⟩⟩, rfl, ht, ⟨p, rfl, hp⟩, ⟨c, rfl, hc⟩⟩
    · exact ⟨_, (mem_init_actions_iff R channel array harr _).mpr
        ⟨unique_id, hid, (load_entry_eq_some_iff R channel unique_id _).mpr
          ⟨_, p, c, Or.inr rfl, ht, hp, hc, rfl⟩⟩, rfl, ht, ⟨p, rfl, hp⟩, ⟨c, rfl, hc⟩⟩
  · rintro h ⟨ht, ⟨p, hp⟩, ⟨c, hc⟩⟩
    rcases h with h | h | h | ⟨n, hn, h0, h1⟩
    · rw [h] at ht
      simp at ht
    · rw [h] at hp
      simp at hp
    · rw [h] at hc
      simp at hc
    · rw [hn] at ht
      simp only [Option.some.injEq, XfconfValue.int.injEq] at ht
      rcases ht with ht | ht
      · exact h0 ht
      · exact h1 ht

/-! ## Property names -/

/-- For an id printed with at most seven characters the buffer `prop[32]` holds
the whole property name, for each of the three fields. -/
theorem action_prop_full (unique_id : Int) (field : CStr) (hid : (format_d unique_id).length ≤ 7)
    (hf : field.length ≤ 7) :
    action_prop unique_id field =
      cstr "/actions/action-" ++ format_d unique_id ++ cstr "/" ++ field := by
  unfold action_prop
  apply List.take_of_length_le
  have h1 : (cstr "/actions/action-").length = 16 := by decide
  have h2 : (cstr "/").length = 1 := by decide
  simp only [List.length_append, h1, h2]
  omega

/-- For a longer id the name is cut: the pattern of id 10000000 is read from a
property whose name ends in `patter`. -/
theorem action_prop_truncated :
    action_prop 10000000 (cstr "pattern") = cstr "/actions/action-10000000/patter" := by
  decide

/-- For an id printed with at most seven characters the names `load` looks up
are the sub-key names of the specification. -/
theorem action_prop_eq_spec_sub_key (unique_id : Int)
    (hid : (format_d unique_id).length ≤ 7) :
    action_prop unique_id (cstr "type") = spec_sub_key unique_id (cstr "type") ∧
    action_prop unique_id (cstr "pattern") = spec_sub_key unique_id (cstr "pattern") ∧
    action_prop unique_id (cstr "command") = spec_sub_key unique_id (cstr "command") :=
  ⟨action_prop_full unique_id _ hid (by decide), action_prop_full unique_id _ hid (by decide),
    action_prop_full unique_id _ hid (by decide)⟩

theorem entry_well_formed_iff_readable (channel : XfconfChannel) (unique_id : Int)
    (hid : (format_d unique_id).length ≤ 7) :
    entry_well_formed channel unique_id ↔ entry_readable channel unique_id := by
  obtain ⟨e1, e2, e3⟩ := action_prop_eq_spec_sub_key unique_id hid
  unfold entry_well_formed entry_readable
  rw [e1, e2, e3]

/-! ## Malformed persisted entries and the sub-keys of the specification -/

/-- The statement of C9 for the ids whose property names fit the buffer: let
the channel list `unique_id`, printed with at most seven characters, in the
array `/actions`.  If the persisted entry of that id is not well formed (its
type sub-key is missing, is no integer or is neither enumerator; its pattern
or its command sub-key is missing or holds no string), then no rule with that
id is in the rule list that `load` produces, and so none is among the rules any
`execute` run ranges over.  If the entry is well formed, a rule with that id
and the persisted type, pattern and command is in the list, whatever the other
entries are. -/
theorem load_drops_malformed_entries (R M E : Type) (channel : XfconfChannel)
    (array : List Int) (unique_id : Int)
    (harr : channel (cstr "/actions") = some (XfconfValue.array array))
    (hid : unique_id ∈ array) (hlen : (format_d unique_id).length ≤ 7) :
    (¬ entry_well_formed channel unique_id →
      (∀ a ∈ (xfce_appfinder_actions_init R channel).actions, a.unique_id ≠ unique_id) ∧
      ∀ (C : Collaborators R M E) (text : CStr) (o : ExecuteOutcome R E),
        xfce_appfinder_actions_execute C (xfce_appfinder_actions_init R channel).actions text =
          some o →
        ∀ a ∈ o.actions, a.unique_id ≠ unique_id) ∧
    (entry_well_formed channel unique_id →
      ∃ a ∈ (xfce_appfinder_actions_init R channel).actions,
        a.unique_id = unique_id ∧
        channel (spec_sub_key unique_id (cstr "type")) = some (XfconfValue.int a.type) ∧
        (∃ p, a.pattern = some p ∧
          channel (spec_sub_key unique_id (cstr "pattern")) = some (XfconfValue.string p)) ∧
        (∃ c, a.command = some c ∧
          channel (spec_sub_key unique_id (cstr "command")) = some (XfconfValue.string c))) ∧
    ((channel (spec_sub_key unique_id (cstr "type")) = none ∨
        channel (spec_sub_key unique_id (cstr "pattern")) = none ∨
        channel (spec_sub_key unique_id (cstr "command")) = none ∨
        (∃ n, channel (spec_sub_key unique_id (cstr "type")) = some (XfconfValue.int n) ∧
          n ≠ XFCE_APPFINDER_ACTION_TYPE_PREFIX ∧ n ≠ XFCE_APPFINDER_ACTION_TYPE_REGEX)) →
      ¬ entry_well_formed channel unique_id) := by
  obtain ⟨e1, e2, e3⟩ := action_prop_eq_spec_sub_key unique_id hlen
  have h := load_drops_unreadable_entries R M E channel array unique_id harr hid
  rw [← entry_well_formed_iff_readable channel unique_id hlen, e1, e2, e3] at h
  exact h

/-- The statement of C9 at a concrete input with short ids: in `sample_channel`
the listed id 2 has no sub-key and is dropped, the listed id 1 is complete and
loaded. -/
theorem load_drops_malformed_entries_witness :
    sample_channel (cstr "/actions") = some (XfconfValue.array [1, 2]) ∧
    ¬ entry_well_formed sample_channel 2 ∧
    (∀ a ∈ (xfce_appfinder_actions_init CStr sample_channel).actions, a.unique_id ≠ 2) ∧
    entry_well_formed sample_channel 1 ∧
    (∃ a ∈ (xfce_appfinder_actions_init CStr sample_channel).actions, a.unique_id = 1) :=
  have harr : sample_channel (cstr "/actions") = some (XfconfValue.array [1, 2]) := by decide
  have h2 := load_drops_malformed_entries CStr CStr CStr sample_channel [1, 2] 2 harr
    (by decide) (by decide)
  have h1 := load_drops_malformed_entries CStr CStr CStr sample_channel [1, 2] 1 harr
    (by decide) (by decide)
  have bad : ¬ entry_well_formed sample_channel 2 := h2.2.2 (Or.inl (by decide))
  have good : entry_well_formed sample_channel 1 :=
    ⟨Or.inl (by decide), ⟨cstr "!", by decide⟩, ⟨cstr "xterm -e %s", by decide⟩⟩
  ⟨harr, bad, (h2.1 bad).1, good,
    (h1.2.1 good).elim fun a ha => ⟨a, ha.1, ha.2.1⟩⟩

/-- C9, evaluation at the failing input: the channel lists the id 12345678 and
holds, under the three sub-keys of that id, the kind Prefix, the pattern `!`
and the command `xterm -e %s`, so the entry is well formed.  `load` looks the
pattern and the command up under names cut to 31 bytes by `prop[32]`
(`.../patter`, `.../comman`), finds nothing and drops the entry: the loaded
rule list is empty.  The same entry under the id 1234567, whose names fit the
buffer, is loaded. -/
theorem load_drops_long_id_entry :
    one_entry_channel 12345678 (cstr "/actions") = some (XfconfValue.array [12345678]) ∧
    one_entry_channel 12345678 (cstr "/actions/action-12345678/type") =
      some (XfconfValue.int 0) ∧
    one_entry_channel 12345678 (cstr "/actions/action-12345678/pattern") =
      some (XfconfValue.string (cstr "!")) ∧
    one_entry_channel 12345678 (cstr "/actions/action-12345678/command") =
      some (XfconfValue.string (cstr "xterm -e %s")) ∧
    entry_well_formed (one_entry_channel 12345678) 12345678 ∧
    action_prop 12345678 (cstr "pattern") = cstr "/actions/action-12345678/patter" ∧
    action_prop 12345678 (cstr "command") = cstr "/actions/action-12345678/comman" ∧
    (xfce_appfinder_actions_init CStr (one_entry_channel 12345678)).actions = [] ∧
    (xfce_appfinder_actions_init CStr (one_entry_channel 1234567)).actions =
      [{ type := 0, unique_id := 1234567, pattern := some (cstr "!"),
         command := some (cstr "xterm -e %s"), regex := none }] :=
  ⟨by decide, by decide, by decide, by decide,
    ⟨Or.inl (by decide), ⟨cstr "!", by decide⟩, ⟨cstr "xterm -e %s", by decide⟩⟩,
    by decide, by decide, by decide, by decide⟩

/-! ## Empty strings -/

/-- C10 is false as stated: the listed entry of `empty_strings_channel` has the
empty string as pattern and as command, and `load` keeps it. -/
theorem load_keeps_empty_strings :
    empty_strings_channel (cstr "/actions") = some (XfconfValue.array [1]) ∧
    empty_strings_channel (spec_sub_key 1 (cstr "pattern")) = some (XfconfValue.string []) ∧
    empty_strings_channel (spec_sub_key 1 (cstr "command")) = some (XfconfValue.string []) ∧
    (xfce_appfinder_actions_init CStr empty_strings_channel).actions =
      [{ type := 0, unique_id := 1, pattern := some [], command := some [], regex := none }] :=
  ⟨by decide, by decide, by decide, by decide⟩

/-- C10, as amended, for the listed ids printed with at most seven characters
(for which the names `load` looks up are the sub-keys of the specification):
`load` accepts a listed entry only if its pattern and its command are stored as
strings (first statement: every loaded rule carries exactly the strings stored
under its sub-keys), and it does not look at their length (second statement: a
listed entry with a valid type whose pattern and command are any strings, the
empty string included, is loaded). -/
theorem load_accepts_strings (R : Type) (channel : XfconfChannel) (array : List Int)
    (harr : channel (cstr "/actions") = some (XfconfValue.array array)) :
    (∀ a ∈ (xfce_appfinder_actions_init R channel).actions,
      a.unique_id ∈ array ∧
      ((format_d a.unique_id).length ≤ 7 →
        ∃ p c, a.pattern = some p ∧ a.command = some c ∧
          channel (spec_sub_key a.unique_id (cstr "pattern")) = some (XfconfValue.string p) ∧
          channel (spec_sub_key a.unique_id (cstr "command")) =
            some (XfconfValue.string c))) ∧
    (∀ unique_id ∈ array, (format_d unique_id).length ≤ 7 → ∀ (t : Int) (p c : CStr),
      (t = XFCE_APPFINDER_ACTION_TYPE_PREFIX ∨ t = XFCE_APPFINDER_ACTION_TYPE_REGEX) →
      channel (spec_sub_key unique_id (cstr "type")) = some (XfconfValue.int t) →
      channel (spec_sub_key unique_id (cstr "pattern")) = some (XfconfValue.string p) →
      channel (spec_sub_key unique_id (cstr "command")) = some (XfconfValue.string c) →
      ({ type := t, unique_id := unique_id, pattern := some p, command := some c,
         regex := none } : XfceAppfinderAction R) ∈
        (xfce_appfinder_actions_init R channel).actions) := by
  constructor
  · intro a ha
    obtain ⟨i, hi, hl⟩ := (mem_init_actions_iff R channel array harr a).mp ha
    obtain ⟨t, p, c, _, _, hp, hc, rfl⟩ := (load_entry_eq_some_iff R channel i a).mp hl
    refine ⟨hi, fun hlen => ?_⟩
    obtain ⟨_, e2, e3⟩ := action_prop_eq_spec_sub_key i hlen
    rw [e2] at hp
    rw [e3] at hc
    exact ⟨p, c, rfl, rfl, hp, hc⟩
  · intro unique_id hid hlen t p c hv ht hp hc
    obtain ⟨e1, e2, e3⟩ := action_prop_eq_spec_sub_key unique_id hlen
    rw [← e1] at ht
    rw [← e2] at hp
    rw [← e3] at hc
    exact (mem_init_actions_iff R channel array harr _).mpr
      ⟨unique_id, hid, (load_entry_eq_some_iff R channel unique_id _).mpr
        ⟨t, p, c, hv, ht, hp, hc, rfl⟩⟩

/-- C10 as amended, at a concrete input: the entry with empty strings of
`empty_strings_channel` is loaded. -/
theorem load_accepts_strings_witness :
    empty_strings_channel (cstr "/actions") = some (XfconfValue.array [1]) ∧
    (format_d 1).length ≤ 7 ∧
    empty_strings_channel (spec_sub_key 1 (cstr "pattern")) = some (XfconfValue.string []) ∧
    ({ type := 0, unique_id := 1, pattern := some [], command := some [], regex := none } :
        XfceAppfinderAction CStr) ∈
      (xfce_appfinder_actions_init CStr empty_strings_channel).actions :=
  ⟨by decide, by decide, by decide,
    (load_accepts_strings CStr empty_strings_channel [1] (by decide)).2 1 (by decide)
      (by decide) 0 [] [] (Or.inl rfl) (by decide) (by decide) (by decide)⟩

/-! ## Identifiers of the loaded rules -/

theorem map_filterMap_of_key {α β γ : Type} (f : α → Option β) (g : β → γ) (k : α → γ)
    (h : ∀ x b, f x = some b → g b = k x) (l : List α) :
    (l.filterMap f).map g = (l.filter (fun x => (f x).isSome)).map k := by
  induction l with
  | nil => rfl
  | cons x l ih =>
    cases hx : f x with
    | none => simp [List.filterMap_cons, hx, List.filter_cons, ih]
    | some b => simp [List.filterMap_cons, hx, List.filter_cons, ih, h x b hx]

theorem default_actions_ids (R : Type) :
    (default_actions R).map (fun a => a.unique_id) = [4, 3, 2, 1] := by
  rw [default_actions_eq]
  rfl

/-- The ids of the unsorted loaded list: the accepted ids of the array, last
listed first. -/
theorem loaded_unsorted_ids (R : Type) (channel : XfconfChannel) (array : List Int)
    (harr : channel (cstr "/actions") = some (XfconfValue.array array)) :
    (loaded_unsorted R channel).map (fun a => a.unique_id) =
      (array.filter (fun i => (load_entry R channel i).isSome)).reverse := by
  unfold loaded_unsorted xfconf_channel_has_property xfconf_channel_get_arrayv
  rw [harr]
  simp only [Option.isSome_some, if_true, List.map_reverse]
  rw [map_filterMap_of_key (load_entry R channel) (fun a => a.unique_id) id
    (fun x b hb => load_entry_unique_id R channel x b hb)]
  simp

theorem init_actions_perm (R : Type) (channel : XfconfChannel) :
    (xfce_appfinder_actions_init R channel).actions.Perm (loaded_unsorted R channel) := by
  unfold xfce_appfinder_actions_init
  simp only
  rw [load_actions_eq]
  exact g_slist_sort_perm _ _

/-- C11 is false as stated: the id array of `duplicate_id_channel` lists the id
1 twice, and `load` produces two rules with the id 1. -/
theorem load_keeps_duplicate_ids :
    duplicate_id_channel (cstr "/actions") = some (XfconfValue.array [1, 1]) ∧
    (xfce_appfinder_actions_init CStr duplicate_id_channel).actions =
      [{ type := 0, unique_id := 1, pattern := some (cstr "!"),
         command := some (cstr "xterm -e %s"), regex := none },
       { type := 0, unique_id := 1, pattern := some (cstr "!"),
         command := some (cstr "xterm -e %s"), regex := none }] ∧
    ¬ ((xfce_appfinder_actions_init CStr duplicate_id_channel).actions.map
        (fun a => a.unique_id)).Nodup :=
  ⟨by decide, by decide, by decide⟩

/-- C11, as amended: `load` makes one rule for every occurrence of an accepted
id in the array: for every channel with an id array, duplicates included, the
ids of the loaded rules are, up to order, the accepted ids of the array (first
statement), each with the multiplicity it has among them (second statement),
so an accepted id listed twice yields two rules.  Hence, when the id array
lists no identifier more than once, and also when the channel has no array and
the defaults are loaded, no two loaded rules have the same id (third
statement). -/
theorem load_ids_nodup (R : Type) (channel : XfconfChannel) :
    (∀ array, channel (cstr "/actions") = some (XfconfValue.array array) →
      ((xfce_appfinder_actions_init R channel).actions.map (fun a => a.unique_id)).Perm
        (array.filter (fun i => (load_entry R channel i).isSome))) ∧
    (∀ array, channel (cstr "/actions") = some (XfconfValue.array array) →
      ∀ unique_id : Int,
        ((xfce_appfinder_actions_init R channel).actions.map (fun a => a.unique_id)).count
            unique_id =
          (array.filter (fun i => (load_entry R channel i).isSome)).count unique_id) ∧
    ((∀ array, channel (cstr "/actions") = some (XfconfValue.array array) → array.Nodup) →
      ((xfce_appfinder_actions_init R channel).actions.map (fun a => a.unique_id)).Nodup) := by
  have hperm := (init_actions_perm R channel).map (fun a => a.unique_id)
  have hgen : ∀ array, channel (cstr "/actions") = some (XfconfValue.array array) →
      ((xfce_appfinder_actions_init R channel).actions.map (fun a => a.unique_id)).Perm
        (array.filter (fun i => (load_entry R channel i).isSome)) := by
    intro array harr
    refine hperm.trans ?_
    rw [loaded_unsorted_ids R channel array harr]
    exact List.reverse_perm _
  refine ⟨hgen, fun array harr unique_id => (hgen array harr).count_eq unique_id, ?_⟩
  intro hnodup
  rw [hperm.nodup_iff]
  cases hch : channel (cstr "/actions") with
  | none =>
    have : loaded_unsorted R channel = default_actions R := by
      simp [loaded_unsorted, xfconf_channel_has_property, hch]
    rw [this, default_actions_ids]
    decide
  | some v =>
    cases v with
    | array array =>
      rw [loaded_unsorted_ids R channel array hch, List.nodup_reverse]
      exact (hnodup array hch).filter _
    | int n =>
      have : loaded_unsorted R channel = [] := by
        simp [loaded_unsorted, xfconf_channel_has_property, xfconf_channel_get_arrayv, hch]
      rw [this]
      exact List.nodup_nil
    | string s =>
      have : loaded_unsorted R channel = [] := by
        simp [loaded_unsorted, xfconf_channel_has_property, xfconf_channel_get_arrayv, hch]
      rw [this]
      exact List.nodup_nil
    | other =>
      have : loaded_unsorted R channel = [] := by
        simp [loaded_unsorted, xfconf_channel_has_property, xfconf_channel_get_arrayv, hch]
      rw [this]
      exact List.nodup_nil

/-- C11 as amended, at concrete inputs: `sample_channel` lists the ids 1 and 2
once each and no two loaded rules share an id; `duplicate_id_channel` lists the
accepted id 1 twice and the loaded rules carry the id 1 twice. -/
theorem load_ids_nodup_witness :
    ((xfce_appfinder_actions_init CStr sample_channel).actions.map
      (fun a => a.unique_id)).Nodup ∧
    ((xfce_appfinder_actions_init CStr duplicate_id_channel).actions.map
      (fun a => a.unique_id)).count 1 =
      ([1, 1].filter (fun i => (load_entry CStr duplicate_id_channel i).isSome)).count 1 ∧
    ([1, 1].filter (fun i => (load_entry CStr duplicate_id_channel i).isSome)).count 1 = 2 :=
  ⟨(load_ids_nodup CStr sample_channel).2.2 (by
      intro array h
      have h2 : sample_channel (cstr "/actions") = some (XfconfValue.array [1, 2]) := by decide
      rw [h2] at h
      injection h with h
      injection h with h
      subst h
      decide),
    (load_ids_nodup CStr duplicate_id_channel).2.1 [1, 1] (by decide) 1,
    by decide⟩

/-! ## The text of `%d` -/

theorem digitChar_toNat (k : Nat) (hk : k < 10) : (Nat.digitChar k).toNat = 48 + k := by
  interval_cases k <;> rfl

theorem scan_digits_value_append (ds : CStr) (c : Nat) :
    scan_digits_value (ds ++ [c]) = scan_digits_value ds * 10 + (c - 48) := by
  unfold scan_digits_value
  rw [List.foldl_append]
  rfl

/-- The digits that `Nat.toDigitsCore` puts in front of its accumulator: they
are decimal digit characters, there is at least one, and they read back as the
number. -/
theorem toDigitsCore_spec (fuel : Nat) : ∀ (n : Nat) (ds : List Char), n < fuel →
    ∃ D : CStr, (Nat.toDigitsCore 10 fuel n ds).map Char.toNat = D ++ ds.map Char.toNat ∧
      D ≠ [] ∧ (∀ c ∈ D, 48 ≤ c ∧ c ≤ 57) ∧ scan_digits_value D = n := by
  induction fuel with
  | zero => intro n ds h; omega
  | succ fuel ih =>
    intro n ds h
    have hd : (Nat.digitChar (n % 10)).toNat = 48 + n % 10 :=
      digitChar_toNat _ (Nat.mod_lt _ (by decide))
    unfold Nat.toDigitsCore
    by_cases h0 : n / 10 = 0
    · simp only [h0, if_true]
      refine ⟨[48 + n % 10], ?_, by simp, ?_, ?_⟩
      · simp [hd]
      · intro c hc
        simp only [List.mem_singleton] at hc
        omega
      · simp only [scan_digits_value, List.foldl_cons, List.foldl_nil]
        omega
    · simp only [h0, if_false]
      obtain ⟨D, h1, h2, h3, h4⟩ := ih (n / 10) (Nat.digitChar (n % 10) :: ds) (by omega)
      refine ⟨D ++ [48 + n % 10], ?_, by simp, ?_, ?_⟩
      · rw [h1]
        simp [hd]
      · intro c hc
        rcases List.mem_append.mp hc with hc | hc
        · exact h3 c hc
        · simp only [List.mem_singleton] at hc
          omega
      · rw [scan_digits_value_append, h4]
        omega

theorem toDigits_spec (n : Nat) :
    (Nat.toDigits 10 n).map Char.toNat ≠ [] ∧
      (∀ c ∈ (Nat.toDigits 10 n).map Char.toNat, 48 ≤ c ∧ c ≤ 57) ∧
      scan_digits_value ((Nat.toDigits 10 n).map Char.toNat) = n := by
  obtain ⟨D, h1, h2, h3, h4⟩ := toDigitsCore_spec (n + 1) n [] (by omega)
  unfold Nat.toDigits
  simp only [List.map_nil, List.append_nil] at h1
  rw [h1]
  exact ⟨h2, h3, h4⟩

/-- The text of `%d` determines the number. -/
theorem format_d_injective (a b : Int) (h : format_d a = format_d b) : a = b := by
  obtain ⟨ha1, ha2, ha3⟩ := toDigits_spec a.natAbs
  obtain ⟨hb1, hb2, hb3⟩ := toDigits_spec b.natAbs
  unfold format_d at h
  by_cases ha : a < 0 <;> by_cases hb : b < 0
  · rw [if_pos ha, if_pos hb] at h
    have e : a.natAbs = b.natAbs := by
      rw [← ha3, ← hb3, List.tail_eq_of_cons_eq h]
    omega
  · rw [if_pos ha, if_neg hb] at h
    have := hb2 45 (by rw [← h]; simp)
    omega
  · rw [if_neg ha, if_pos hb] at h
    have := ha2 45 (by rw [h]; simp)
    omega
  · rw [if_neg ha, if_neg hb] at h
    have e : a.natAbs = b.natAbs := by
      rw [← ha3, ← hb3, h]
    omega

/-- The text of `%d` holds no slash. -/
theorem format_d_no_slash (a : Int) : 47 ∉ format_d a := by
  obtain ⟨_, ha2, _⟩ := toDigits_spec a.natAbs
  unfold format_d
  intro h
  split at h
  · rcases List.mem_cons.mp h with h | h
    · omega
    · have := ha2 47 h
      omega
  · have := ha2 47 h
    omega

/-- A `gint` prints in at most eleven characters. -/
theorem format_d_length (a : Int) (h1 : -2147483648 ≤ a) (h2 : a ≤ 2147483647) :
    (format_d a).length ≤ 11 := by
  have hl : (Nat.toDigits 10 a.natAbs).length ≤ 10 :=
    Nat.toDigitsCore_length 10 (by decide) _ _ 10 (by omega) (by decide)
  unfold format_d
  split <;> simp <;> omega

/-! ## The parse of a property name -/

theorem scan_literal_append (f s : CStr) : scan_literal f (f ++ s) = some s := by
  induction f with
  | nil => cases s <;> rfl
  | cons c f ih => simp [scan_literal, ih]

theorem takeWhile_dropWhile_append {α : Type} (q : α → Bool) (x : α) (r : List α)
    (hx : q x = false) : ∀ l : List α, (∀ c ∈ l, q c = true) →
    (l ++ x :: r).takeWhile q = l ∧ (l ++ x :: r).dropWhile q = x :: r := by
  intro l
  induction l with
  | nil => intro _; simp [List.takeWhile, List.dropWhile, hx]
  | cons c l ih =>
    intro h
    have hc := h c (List.mem_cons_self _ _)
    obtain ⟨e1, e2⟩ := ih (fun d hd => h d (List.mem_cons_of_mem _ hd))
    simp [List.takeWhile, List.dropWhile, hc, e1, e2]

theorem takeWhile_eq_self {α : Type} (q : α → Bool) : ∀ l : List α, (∀ c ∈ l, q c = true) →
    l.takeWhile q = l := by
  intro l
  induction l with
  | nil => intro _; rfl
  | cons c l ih =>
    intro h
    simp [List.takeWhile, h c (List.mem_cons_self _ _),
      ih (fun d hd => h d (List.mem_cons_of_mem _ hd))]

theorem long_to_gint_strtol_clamp (n : Int) (h1 : -2147483648 ≤ n) (h2 : n ≤ 2147483647) :
    long_to_gint (strtol_clamp n) = n := by
  unfold long_to_gint strtol_clamp
  rw [if_neg (by omega), if_neg (by omega)]
  omega

/-- The conversion `%d` of digits that are followed by a slash. -/
theorem scan_d_digits (D rest : CStr) (hne : D ≠ []) (hd : ∀ c ∈ D, 48 ≤ c ∧ c ≤ 57) :
    scan_d (D ++ 47 :: rest) =
      some (long_to_gint (strtol_clamp (scan_digits_value D : Int)), 47 :: rest) := by
  have hdig : ∀ c ∈ D, isdigit c = true := by
    intro c hc
    have := hd c hc
    simp [isdigit]
    omega
  obtain ⟨e1, e2⟩ := takeWhile_dropWhile_append isdigit 47 rest (by decide) D hdig
  cases D with
  | nil => exact absurd rfl hne
  | cons d D =>
    have hd0 := hd d (List.mem_cons_self _ _)
    have hsp : isspace d = false := by
      simp [isspace]
      omega
    have h45 : d ≠ 45 := by omega
    have h43 : d ≠ 43 := by omega
    unfold scan_d
    simp only [List.cons_append] at e1 e2 ⊢
    simp only [List.dropWhile_cons, hsp, Bool.false_eq_true, if_false, List.head?_cons,
      Option.some.injEq, h45, h43, or_self, e1, e2]
    simp

/-- The conversion `%d` of a minus sign and digits that are followed by a
slash. -/
theorem scan_d_minus_digits (D rest : CStr) (hne : D ≠ []) (hd : ∀ c ∈ D, 48 ≤ c ∧ c ≤ 57) :
    scan_d (45 :: D ++ 47 :: rest) =
      some (long_to_gint (strtol_clamp (- (scan_digits_value D : Int))), 47 :: rest) := by
  have hdig : ∀ c ∈ D, isdigit c = true := by
    intro c hc
    have := hd c hc
    simp [isdigit]
    omega
  obtain ⟨e1, e2⟩ := takeWhile_dropWhile_append isdigit 47 rest (by decide) D hdig
  have hsp : isspace 45 = false := by decide
  unfold scan_d
  simp only [List.cons_append, List.dropWhile_cons, hsp, Bool.false_eq_true, if_false,
    List.head?_cons, List.tail_cons, true_or, if_true, e1, e2, hne]

/-- The conversion `%30s` of a field name without white space. -/
theorem scan_s_field (field : CStr) (hne : field ≠ []) (hlen : field.length ≤ 30)
    (hsp : ∀ c ∈ field, isspace c = false) : scan_s 30 field = some field := by
  cases field with
  | nil => exact absurd rfl hne
  | cons c f =>
    have hc := hsp c (List.mem_cons_self _ _)
    have htw : (c :: f).takeWhile (fun c => !isspace c) = c :: f :=
      takeWhile_eq_self _ _ (fun d hd => by simp [hsp d hd])
    unfold scan_s
    simp only [List.dropWhile_cons, hc]
    simp only [Bool.false_eq_true, if_false, htw, List.take_of_length_le hlen]
    simp

/-- The handler parses the property name that the specification writes for an
id in the range of `gint` and a field name: it gets that id and that field. -/
theorem sscanf_action_spec_sub_key (unique_id : Int) (field : CStr)
    (h1 : -2147483648 ≤ unique_id) (h2 : unique_id ≤ 2147483647)
    (hne : field ≠ []) (hlen : field.length ≤ 30) (hsp : ∀ c ∈ field, isspace c = false) :
    sscanf_action (spec_sub_key unique_id field) = some (unique_id, field) := by
  obtain ⟨d1, d2, d3⟩ := toDigits_spec unique_id.natAbs
  have hs : cstr "/" = [47] := by decide
  have hd : scan_d (format_d unique_id ++ 47 :: field) = some (unique_id, 47 :: field) := by
    unfold format_d
    by_cases hneg : unique_id < 0
    · rw [if_pos hneg, scan_d_minus_digits _ field d1 d2, d3,
        long_to_gint_strtol_clamp _ (by omega) (by omega)]
      congr 2
      omega
    · rw [if_neg hneg, scan_d_digits _ field d1 d2, d3,
        long_to_gint_strtol_clamp _ (by omega) (by omega)]
      congr 2
      omega
  have hl : scan_literal [47] (47 :: field) = some field := by
    simp [scan_literal]
  unfold sscanf_action spec_sub_key
  rw [hs, List.append_assoc, List.append_assoc, scan_literal_append]
  simp only [List.singleton_append, hd, hl, scan_s_field field hne hlen hsp]

/-- A number outside the range of `int` in the property name: `sscanf` stores
the low 32 bits, so the name with the number 4294967298 addresses the rule with
the id 2 (here: its command is replaced), and the names with -5 and with a
number beyond the range of `long` parse to the ids -5 and -1. -/
theorem sscanf_action_out_of_range :
    sscanf_action (cstr "/actions/action-4294967298/command") = some (2, cstr "command") ∧
    sscanf_action (cstr "/actions/action--5/type") = some (-5, cstr "type") ∧
    sscanf_action (cstr "/actions/action-99999999999999999999/type") = some (-1, cstr "type") ∧
    (xfce_appfinder_actions_changed (some (cstr "/actions/action-4294967298/command"))
        (XfconfValue.string (cstr "xterm"))
        (xfce_appfinder_actions_init CStr xfconf_channel_empty)).actions.map rule_fields =
      [(4, 0, some (cstr "#"), some (cstr "exo-open --launch TerminalEmulator man %s")),
       (3, 0, some (cstr "!w"),
         some (cstr "exo-open --launch WebBrowser http://en.wikipedia.org/wiki/%s")),
       (2, 0, some (cstr "!"), some (cstr "xterm")),
       (1, 1, some (cstr "^(file|http|https):\\/\\/(.*)$"), some (cstr "exo-open \\0"))] :=
  ⟨by decide, by decide, by decide, by decide⟩

/-! ## The frame of the change handler -/

theorem changed_action_unique_id {R : Type} (field : CStr) (value : XfconfValue)
    (a : XfceAppfinderAction R) : (changed_action field value a).unique_id = a.unique_id := by
  unfold changed_action
  split
  · rfl
  · split
    · rfl
    · split <;> rfl

/-- What the update does to the rule that was found: a type update sets the
type, a pattern update sets the pattern and clears the regex cache, a command
update sets the command, anything else changes nothing. -/
theorem changed_action_cases {R : Type} (field : CStr) (value : XfconfValue)
    (a : XfceAppfinderAction R) :
    (∃ n, field = cstr "type" ∧ value = XfconfValue.int n ∧
        changed_action field value a = { a with type := n }) ∨
    (∃ s, field = cstr "pattern" ∧ value = XfconfValue.string s ∧
        changed_action field value a = { a with pattern := some s, regex := none }) ∨
    (∃ s, field = cstr "command" ∧ value = XfconfValue.string s ∧
        changed_action field value a = { a with command := some s }) ∨
    (changed_action field value a = a ∧
      ¬ (field = cstr "type" ∧ G_VALUE_HOLDS_INT value = true) ∧
      ¬ (field = cstr "pattern" ∧ G_VALUE_HOLDS_STRING value = true) ∧
      ¬ (field = cstr "command" ∧ G_VALUE_HOLDS_STRING value = true)) := by
  unfold changed_action
  by_cases h1 : field = cstr "type" ∧ G_VALUE_HOLDS_INT value = true
  · rw [if_pos h1]
    cases value with
    | int n => exact Or.inl ⟨n, h1.1, rfl, rfl⟩
    | string s => simp [G_VALUE_HOLDS_INT] at h1
    | array ids => simp [G_VALUE_HOLDS_INT] at h1
    | other => simp [G_VALUE_HOLDS_INT] at h1
  · rw [if_neg h1]
    by_cases h2 : field = cstr "pattern" ∧ G_VALUE_HOLDS_STRING value = true
    · rw [if_pos h2]
      cases value with
      | string s => exact Or.inr (Or.inl ⟨s, h2.1, rfl, rfl⟩)
      | int n => simp [G_VALUE_HOLDS_STRING] at h2
      | array ids => simp [G_VALUE_HOLDS_STRING] at h2
      | other => simp [G_VALUE_HOLDS_STRING] at h2
    · rw [if_neg h2]
      by_cases h3 : field = cstr "command" ∧ G_VALUE_HOLDS_STRING value = true
      · rw [if_pos h3]
        cases value with
        | string s => exact Or.inr (Or.inr (Or.inl ⟨s, h3.1, rfl, rfl⟩))
        | int n => simp [G_VALUE_HOLDS_STRING] at h3
        | array ids => simp [G_VALUE_HOLDS_STRING] at h3
        | other => simp [G_VALUE_HOLDS_STRING] at h3
      · rw [if_neg h3]
        exact Or.inr (Or.inr (Or.inr ⟨rfl, h1, h2, h3⟩))

theorem changed_loop_ids {R : Type} (unique_id : Int) (field : CStr) (value : XfconfValue)
    (l : List (XfceAppfinderAction R)) :
    (changed_loop unique_id field value l).map (fun a => a.unique_id) =
      l.map (fun a => a.unique_id) := by
  induction l with
  | nil => rfl
  | cons a l ih =>
    unfold changed_loop
    split
    · simp [changed_action_unique_id]
    · simp only [List.map_cons, ih]

theorem changed_loop_absent {R : Type} (unique_id : Int) (field : CStr) (value : XfconfValue)
    (l : List (XfceAppfinderAction R)) (h : ∀ a ∈ l, a.unique_id ≠ unique_id) :
    changed_loop unique_id field value l = l := by
  induction l with
  | nil => rfl
  | cons a l ih =>
    unfold changed_loop
    rw [if_neg (h a (List.mem_cons_self _ _)), ih (fun x hx => h x (List.mem_cons_of_mem _ hx))]

/-- The loop rewrites the first rule with the id and nothing else. -/
theorem changed_loop_split {R : Type} (unique_id : Int) (field : CStr) (value : XfconfValue)
    (l : List (XfceAppfinderAction R)) (h : ∃ a ∈ l, a.unique_id = unique_id) :
    ∃ pre a post, l = pre ++ a :: post ∧ (∀ b ∈ pre, b.unique_id ≠ unique_id) ∧
      a.unique_id = unique_id ∧
      changed_loop unique_id field value l = pre ++ changed_action field value a :: post := by
  induction l with
  | nil =>
    obtain ⟨a, ha, _⟩ := h
    exact absurd ha (List.not_mem_nil _)
  | cons x l ih =>
    by_cases hx : x.unique_id = unique_id
    · refine ⟨[], x, l, rfl, fun b hb => absurd hb (List.not_mem_nil _), hx, ?_⟩
      unfold changed_loop
      rw [if_pos hx]
      rfl
    · have h' : ∃ a ∈ l, a.unique_id = unique_id := by
        obtain ⟨a, ha, hau⟩ := h
        rcases List.mem_cons.mp ha with rfl | ha
        · exact absurd hau hx
        · exact ⟨a, ha, hau⟩
      obtain ⟨pre, a, post, hl, hpre, ha, hc⟩ := ih h'
      refine ⟨x :: pre, a, post, by rw [hl]; rfl, ?_, ha, ?_⟩
      · intro b hb
        rcases List.mem_cons.mp hb with rfl | hb
        · exact hx
        · exact hpre b hb
      · unfold changed_loop
        rw [if_neg hx, hc]
        rfl

theorem changed_loop_noop {R : Type} (unique_id : Int) (field : CStr) (value : XfconfValue)
    (l : List (XfceAppfinderAction R))
    (h : ∀ a : XfceAppfinderAction R, changed_action field value a = a) :
    changed_loop unique_id field value l = l := by
  induction l with
  | nil => rfl
  | cons a l ih =>
    unfold changed_loop
    split
    · rw [h a]
    · rw [ih]

theorem changed_action_noop {R : Type} (field : CStr) (value : XfconfValue)
    (h : (field ≠ cstr "type" ∧ field ≠ cstr "pattern" ∧ field ≠ cstr "command") ∨
      (field = cstr "type" ∧ G_VALUE_HOLDS_INT value = false) ∨
      (field = cstr "pattern" ∧ G_VALUE_HOLDS_STRING value = false) ∨
      (field = cstr "command" ∧ G_VALUE_HOLDS_STRING value = false))
    (a : XfceAppfinderAction R) : changed_action field value a = a := by
  have d1 : cstr "type" ≠ cstr "pattern" := by decide
  have d2 : cstr "type" ≠ cstr "command" := by decide
  have d3 : cstr "pattern" ≠ cstr "command" := by decide
  unfold changed_action
  rcases h with ⟨h1, h2, h3⟩ | ⟨h1, h2⟩ | ⟨h1, h2⟩ | ⟨h1, h2⟩
  · simp [h1, h2, h3]
  · subst h1
    simp [h2, d1, d2]
  · subst h1
    simp [h2, d1.symm, d3]
  · subst h1
    simp [h2, d2.symm, d3.symm]

theorem changed_unparsed {R : Type} (prop_name : CStr) (value : XfconfValue)
    (actions : XfceAppfinderActions R)
    (h : prop_name = cstr "/actions" ∨ sscanf_action prop_name = none) :
    xfce_appfinder_actions_changed (some prop_name) value actions = actions := by
  unfold xfce_appfinder_actions_changed
  simp only
  rcases h with h | h
  · rw [if_pos h]
  · split
    · rfl
    · rw [h]

theorem changed_parsed {R : Type} (prop_name : CStr) (value : XfconfValue)
    (actions : XfceAppfinderActions R) (unique_id : Int) (field : CStr)
    (hp : prop_name ≠ cstr "/actions")
    (h : sscanf_action prop_name = some (unique_id, field)) :
    xfce_appfinder_actions_changed (some prop_name) value actions =
      { actions with actions := changed_loop unique_id field value actions.actions } := by
  unfold xfce_appfinder_actions_changed
  simp only
  rw [if_neg hp, h]

/-- C13 is false as stated for the regex cache: a pattern update of a rule with
a cached expression changes two components of the rule, the pattern named by
the key and the cache, which is cleared. -/
theorem changed_pattern_clears_cache :
    (xfce_appfinder_actions_changed (some (cstr "/actions/action-1/pattern"))
        (XfconfValue.string (cstr "b"))
        ({ channel := xfconf_channel_empty, property_watch_id := 1,
           actions := [{ type := 1, unique_id := 1, pattern := some (cstr "a"),
                         command := some (cstr "true"), regex := some (cstr "a") }] } :
          XfceAppfinderActions CStr)).actions =
      [{ type := 1, unique_id := 1, pattern := some (cstr "b"),
         command := some (cstr "true"), regex := none }] ∧
    (some (cstr "a") : Option CStr) ≠ none := by
  decide

/-- C13, as amended: a change notification leaves the channel handle, the
handler id and the sequence of rule ids (so also the number of rules) as they
are.  The id and the field of a key are what `sscanf` converts from it: for a
key `/actions/action-<id>/<field>` with an id in the range of `gint` that id
and that field (first statement), for a number outside the range of `int` the
low 32 bits that `sscanf` stores.  Either the rule list is unchanged, or the
key parses to `(id, field)` and exactly the first rule with that id is
rewritten: a type update with an integer sets its type, a pattern update with a
string sets its pattern and clears its regex cache, a command update with a
string sets its command, and nothing else of the rule changes.  The list is
unchanged when the key is `/actions`, when `sscanf` does not convert both
items, when the field is none of `type`, `pattern`, `command`, when no rule has
the parsed id, and when the value has the wrong type for the field. -/
theorem changed_frame {R : Type} (prop_name : CStr) (value : XfconfValue)
    (actions : XfceAppfinderActions R) :
    (∀ (unique_id : Int) (field : CStr),
      -2147483648 ≤ unique_id → unique_id ≤ 2147483647 →
      field ≠ [] → field.length ≤ 30 → (∀ c ∈ field, isspace c = false) →
      prop_name = spec_sub_key unique_id field →
      sscanf_action prop_name = some (unique_id, field)) ∧
    (xfce_appfinder_actions_changed (some prop_name) value actions).channel = actions.channel ∧
    (xfce_appfinder_actions_changed (some prop_name) value actions).property_watch_id =
      actions.property_watch_id ∧
    (xfce_appfinder_actions_changed (some prop_name) value actions).actions.map
        (fun a => a.unique_id) = actions.actions.map (fun a => a.unique_id) ∧
    ((xfce_appfinder_actions_changed (some prop_name) value actions).actions = actions.actions ∨
      ∃ unique_id field pre a post,
        sscanf_action prop_name = some (unique_id, field) ∧
        actions.actions = pre ++ a :: post ∧
        (∀ b ∈ pre, b.unique_id ≠ unique_id) ∧ a.unique_id = unique_id ∧
        ((∃ n, field = cstr "type" ∧ value = XfconfValue.int n ∧
            (xfce_appfinder_actions_changed (some prop_name) value actions).actions =
              pre ++ { a with type := n } :: post) ∨
          (∃ s, field = cstr "pattern" ∧ value = XfconfValue.string s ∧
            (xfce_appfinder_actions_changed (some prop_name) value actions).actions =
              pre ++ { a with pattern := some s, regex := none } :: post) ∨
          (∃ s, field = cstr "command" ∧ value = XfconfValue.string s ∧
            (xfce_appfinder_actions_changed (some prop_name) value actions).actions =
              pre ++ { a with command := some s } :: post))) ∧
    (prop_name = cstr "/actions" →
      (xfce_appfinder_actions_changed (some prop_name) value actions).actions =
        actions.actions) ∧
    (sscanf_action prop_name = none →
      (xfce_appfinder_actions_changed (some prop_name) value actions).actions =
        actions.actions) ∧
    (∀ unique_id field, sscanf_action prop_name = some (unique_id, field) →
      ((field ≠ cstr "type" ∧ field ≠ cstr "pattern" ∧ field ≠ cstr "command") ∨
        (∀ a ∈ actions.actions, a.unique_id ≠ unique_id) ∨
        (field = cstr "type" ∧ G_VALUE_HOLDS_INT value = false) ∨
        (field = cstr "pattern" ∧ G_VALUE_HOLDS_STRING value = false) ∨
        (field = cstr "command" ∧ G_VALUE_HOLDS_STRING value = false)) →
      (xfce_appfinder_actions_changed (some prop_name) value actions).actions =
        actions.actions) := by
  refine ⟨fun unique_id field h1 h2 hne hlen hsp hk => by
    rw [hk]
    exact sscanf_action_spec_sub_key unique_id field h1 h2 hne hlen hsp, ?_⟩
  by_cases hp : prop_name = cstr "/actions"
  · rw [changed_unparsed prop_name value actions (Or.inl hp)]
    exact ⟨rfl, rfl, rfl, Or.inl rfl, fun _ => rfl, fun _ => rfl, fun _ _ _ _ => rfl⟩
  · cases hs : sscanf_action prop_name with
    | none =>
      rw [changed_unparsed prop_name value actions (Or.inr hs)]
      exact ⟨rfl, rfl, rfl, Or.inl rfl, fun _ => rfl, fun _ => rfl, fun _ _ _ _ => rfl⟩
    | some res =>
      obtain ⟨unique_id, field⟩ := res
      rw [changed_parsed prop_name value actions unique_id field hp hs]
      refine ⟨rfl, rfl, changed_loop_ids unique_id field value _, ?_,
        fun h => absurd h hp, fun h => absurd h (by simp), ?_⟩
      · by_cases hex : ∃ a ∈ actions.actions, a.unique_id = unique_id
        · obtain ⟨pre, a, post, hl, hpre, ha, hc⟩ :=
            changed_loop_split unique_id field value actions.actions hex
          simp only
          rcases changed_action_cases field value a with
            ⟨n, hf, hv, hca⟩ | ⟨s, hf, hv, hca⟩ | ⟨s, hf, hv, hca⟩ | ⟨hca, _⟩
          · exact Or.inr ⟨unique_id, field, pre, a, post, rfl, hl, hpre, ha,
              Or.inl ⟨n, hf, hv, by rw [hc, hca]⟩⟩
          · exact Or.inr ⟨unique_id, field, pre, a, post, rfl, hl, hpre, ha,
              Or.inr (Or.inl ⟨s, hf, hv, by rw [hc, hca]⟩)⟩
          · exact Or.inr ⟨unique_id, field, pre, a, post, rfl, hl, hpre, ha,
              Or.inr (Or.inr ⟨s, hf, hv, by rw [hc, hca]⟩)⟩
          · exact Or.inl (by rw [hc, hca, ← hl])
        · refine Or.inl ?_
          exact changed_loop_absent unique_id field value _
            (fun a ha he => hex ⟨a, ha, he⟩)
      · intro i f hif h
        simp only [Option.some.injEq, Prod.mk.injEq] at hif
        obtain ⟨rfl, rfl⟩ := hif
        simp only
        rcases h with h | h | h | h | h
        · exact changed_loop_noop _ _ _ _ (changed_action_noop _ value (Or.inl h))
        · exact changed_loop_absent _ _ _ _ h
        · exact changed_loop_noop _ _ _ _ (changed_action_noop _ value (Or.inr (Or.inl h)))
        · exact changed_loop_noop _ _ _ _
            (changed_action_noop _ value (Or.inr (Or.inr (Or.inl h))))
        · exact changed_loop_noop _ _ _ _
            (changed_action_noop _ value (Or.inr (Or.inr (Or.inr h))))

/-- C13 as amended, at concrete inputs: a command update of the rule `!w` of
the default rule set; a key with an unknown field; a key of the layout of the
specification for the id 9, which no rule has. -/
theorem changed_frame_witness :
    (xfce_appfinder_actions_changed (some (cstr "/actions/action-3/command"))
        (XfconfValue.string (cstr "xterm"))
        (xfce_appfinder_actions_init CStr xfconf_channel_empty)).actions.map
        (fun a => a.unique_id) =
      (xfce_appfinder_actions_init CStr xfconf_channel_empty).actions.map
        (fun a => a.unique_id) ∧
    (sscanf_action (cstr "/actions/action-3/bogus") = some (3, cstr "bogus") ∧
      (xfce_appfinder_actions_changed (some (cstr "/actions/action-3/bogus"))
        (XfconfValue.string (cstr "xterm"))
        (xfce_appfinder_actions_init CStr xfconf_channel_empty)).actions =
      (xfce_appfinder_actions_init CStr xfconf_channel_empty).actions) ∧
    (sscanf_action (spec_sub_key 9 (cstr "command")) = some (9, cstr "command") ∧
      (xfce_appfinder_actions_changed (some (spec_sub_key 9 (cstr "command")))
        (XfconfValue.string (cstr "xterm"))
        (xfce_appfinder_actions_init CStr xfconf_channel_empty)).actions =
      (xfce_appfinder_actions_init CStr xfconf_channel_empty).actions) :=
  ⟨(changed_frame (cstr "/actions/action-3/command") (XfconfValue.string (cstr "xterm"))
      (xfce_appfinder_actions_init CStr xfconf_channel_empty)).2.2.2.1,
    ⟨by decide,
      (changed_frame (cstr "/actions/action-3/bogus") (XfconfValue.string (cstr "xterm"))
        (xfce_appfinder_actions_init CStr xfconf_channel_empty)).2.2.2.2.2.2.2 3 (cstr "bogus")
        (by decide) (Or.inl (by decide))⟩,
    ⟨(changed_frame (spec_sub_key 9 (cstr "command")) (XfconfValue.string (cstr "xterm"))
        (xfce_appfinder_actions_init CStr xfconf_channel_empty)).1 9 (cstr "command")
        (by decide) (by decide) (by decide) (by decide) (by decide) rfl,
      (changed_frame (spec_sub_key 9 (cstr "command")) (XfconfValue.string (cstr "xterm"))
        (xfce_appfinder_actions_init CStr xfconf_channel_empty)).2.2.2.2.2.2.2 9 (cstr "command")
        (by decide) (Or.inr (Or.inl (by decide)))⟩⟩

/-! ## Coherence of the regex cache -/

/-- A call on the single rule whose pattern does not compile: one message, the
rule unchanged, nothing found. -/
theorem execute_single_compile_failure {R M E : Type} (C : Collaborators R M E) (text : CStr)
    (a : XfceAppfinderAction R) (p : CStr) (e : E)
    (ht : a.type = XFCE_APPFINDER_ACTION_TYPE_REGEX) (hc : a.regex = none)
    (hp : a.pattern = some p) (h1 : C.g_regex_new p = Except.error e) :
    xfce_appfinder_actions_execute C [a] text =
      some { actions := [a], result := XFCE_APPFINDER_ACTIONS_NOTHING_FOUND, error := none,
             spawned := [], messages := [(p, e)] } := by
  have hsa := execute_switch_compile_failure C text a (execute_entry E) p e ht hc hp rfl h1
  have hl : execute_loop C text [a] (execute_entry E) =
      some ([a], { execute_entry E with
        err := GErrorPtr.freed, messages := (execute_entry E).messages ++ [(p, e)] }) := by
    rw [execute_loop_cons C text a a [] (execute_entry E) _ rfl hsa]
    rfl
  rw [execute_of_loop C text _ _ _ hl]
  rfl

theorem execute_loop_append {R M E : Type} (C : Collaborators R M E) (text : CStr)
    (pre : List (XfceAppfinderAction R)) :
    ∀ (l pre1 : List (XfceAppfinderAction R)) (st st1 : ExecuteLocals E),
      execute_loop C text pre st = some (pre1, st1) →
      execute_loop C text (pre ++ l) st =
        (execute_loop C text l st1).map (fun r => (pre1 ++ r.1, r.2)) := by
  induction pre with
  | nil =>
    intro l pre1 st st1 h
    simp only [execute_loop, Option.some.injEq, Prod.mk.injEq] at h
    obtain ⟨rfl, rfl⟩ := h
    show execute_loop C text l st = _
    cases execute_loop C text l st with
    | none => rfl
    | some r => rfl
  | cons x pre ih =>
    intro l pre1 st st1 h
    by_cases hr : st.result = XFCE_APPFINDER_ACTIONS_NOTHING_FOUND
    · cases hs : execute_switch C text x st with
      | none => simp [execute_loop, hr, hs] at h
      | some res =>
        obtain ⟨x1, st2⟩ := res
        rw [execute_loop_cons C text x x1 pre st st2 hr hs] at h
        cases hl : execute_loop C text pre st2 with
        | none => simp [hl] at h
        | some res2 =>
          obtain ⟨pre2, st3⟩ := res2
          simp only [hl, Option.map_some', Option.some.injEq, Prod.mk.injEq] at h
          obtain ⟨rfl, rfl⟩ := h
          rw [List.cons_append, execute_loop_cons C text x x1 (pre ++ l) st st2 hr hs,
            ih l pre2 st2 st3 hl]
          cases execute_loop C text l st3 <;> rfl
    · rw [execute_loop_done C text _ st hr] at h
      simp only [Option.some.injEq, Prod.mk.injEq] at h
      obtain ⟨rfl, rfl⟩ := h
      rw [execute_loop_done C text _ st hr, execute_loop_done C text l st hr]
      rfl

theorem execute_regex_compile_messages {R M E : Type} (C : Collaborators R M E)
    (a a1 : XfceAppfinderAction R) (st st1 : ExecuteLocals E) (r : Option R)
    (h : execute_regex_compile C a st = some (a1, st1, r)) :
    ∃ m, st1.messages = st.messages ++ m := by
  unfold execute_regex_compile at h
  cases hr : a.regex with
  | some regex =>
    simp only [hr, Option.some.injEq, Prod.mk.injEq] at h
    exact ⟨[], by rw [← h.2.1, List.append_nil]⟩
  | none =>
    cases he : st.err <;> cases hp : a.pattern <;> simp only [hr, he, hp] at h <;>
      try exact absurd h (by simp)
    rename_i pattern
    cases hx : C.g_regex_new pattern <;>
      simp only [hx, Option.some.injEq, Prod.mk.injEq] at h
    · exact ⟨_, by rw [← h.2.1]⟩
    · exact ⟨[], by rw [← h.2.1, List.append_nil]⟩

theorem execute_regex_match_messages {R M E : Type} (C : Collaborators R M E) (text : CStr)
    (a : XfceAppfinderAction R) (regex : R) (st st1 : ExecuteLocals E)
    (h : execute_regex_match C text a regex st = some st1) :
    st1.messages = st.messages := by
  unfold execute_regex_match at h
  cases hm : C.g_regex_match regex text with
  | none =>
    simp only [hm, Option.some.injEq] at h
    rw [← h]
  | some match_info =>
    cases he : st.err <;> cases hc : a.command <;> simp only [hm, he, hc] at h <;>
      try exact absurd h (by simp)
    rename_i command
    cases hx : C.g_match_info_expand_references match_info command <;>
      simp only [hx, Option.some.injEq] at h <;> rw [← h]

/-- One rule of the loop only adds `g_message` lines. -/
theorem execute_switch_messages {R M E : Type} (C : Collaborators R M E) (text : CStr)
    (a a1 : XfceAppfinderAction R) (st st1 : ExecuteLocals E)
    (h : execute_switch C text a st = some (a1, st1)) :
    ∃ m, st1.messages = st.messages ++ m := by
  unfold execute_switch at h
  by_cases ht : a.type = XFCE_APPFINDER_ACTION_TYPE_PREFIX
  · rw [if_pos ht] at h
    cases hp : a.pattern with
    | none => simp [hp] at h
    | some p =>
      simp only [hp] at h
      split at h <;> simp only [Option.some.injEq, Prod.mk.injEq] at h <;>
        exact ⟨[], by rw [← h.2, List.append_nil]⟩
  · rw [if_neg ht] at h
    by_cases hr : a.type = XFCE_APPFINDER_ACTION_TYPE_REGEX
    · rw [if_pos hr] at h
      cases hc : execute_regex_compile C a st with
      | none => simp [hc] at h
      | some res =>
        obtain ⟨a2, st2, r⟩ := res
        obtain ⟨m, hm⟩ := execute_regex_compile_messages C a a2 st st2 r hc
        cases r with
        | none =>
          simp only [hc, Option.some.injEq, Prod.mk.injEq] at h
          exact ⟨m, by rw [← h.2, hm]⟩
        | some regex =>
          simp only [hc] at h
          cases hx : execute_regex_match C text a2 regex st2 with
          | none => simp [hx] at h
          | some st3 =>
            simp only [hx, Option.some.injEq, Prod.mk.injEq] at h
            exact ⟨m, by rw [← h.2, execute_regex_match_messages C text a2 regex st2 st3 hx, hm]⟩
    · rw [if_neg hr] at h
      simp only [Option.some.injEq, Prod.mk.injEq] at h
      exact ⟨[], by rw [← h.2, List.append_nil]⟩

/-- The loop only adds `g_message` lines. -/
theorem execute_loop_messages {R M E : Type} (C : Collaborators R M E) (text : CStr)
    (l : List (XfceAppfinderAction R)) :
    ∀ (l1 : List (XfceAppfinderAction R)) (st st1 : ExecuteLocals E),
      execute_loop C text l st = some (l1, st1) → ∃ m, st1.messages = st.messages ++ m := by
  induction l with
  | nil =>
    intro l1 st st1 h
    simp only [execute_loop, Option.some.injEq, Prod.mk.injEq] at h
    exact ⟨[], by rw [← h.2, List.append_nil]⟩
  | cons a l ih =>
    intro l1 st st1 h
    by_cases hr : st.result = XFCE_APPFINDER_ACTIONS_NOTHING_FOUND
    · cases hs : execute_switch C text a st with
      | none => simp [execute_loop, hr, hs] at h
      | some res =>
        obtain ⟨a2, st2⟩ := res
        rw [execute_loop_cons C text a a2 l st st2 hr hs] at h
        cases hl : execute_loop C text l st2 with
        | none => simp [hl] at h
        | some res2 =>
          obtain ⟨l2, st3⟩ := res2
          simp only [hl, Option.map_some', Option.some.injEq, Prod.mk.injEq] at h
          obtain ⟨m1, hm1⟩ := execute_switch_messages C text a a2 st st2 hs
          obtain ⟨m2, hm2⟩ := ih l2 st2 st3 hl
          exact ⟨m1 ++ m2, by rw [← h.2, hm2, hm1, List.append_assoc]⟩
    · rw [execute_loop_done C text _ st hr] at h
      simp only [Option.some.injEq, Prod.mk.injEq] at h
      exact ⟨[], by rw [← h.2, List.append_nil]⟩

theorem execute_spawn_messages {R M E : Type} (C : Collaborators R M E)
    (li : List (XfceAppfinderAction R)) (st : ExecuteLocals E) :
    (execute_spawn C li st).messages = st.messages := by
  unfold execute_spawn
  split
  · dsimp only
    split <;> rfl
  · rfl

theorem reached_with_null_err_iff {R M E : Type} (C : Collaborators R M E) (text : CStr)
    (pre : List (XfceAppfinderAction R)) :
    reached_with_null_err C text pre = true ↔
      ∃ pre1 st, execute_loop C text pre (execute_entry E) = some (pre1, st) ∧
        st.result = XFCE_APPFINDER_ACTIONS_NOTHING_FOUND ∧ st.err = GErrorPtr.null := by
  unfold reached_with_null_err
  cases hl : execute_loop C text pre (execute_entry E) with
  | none => simp
  | some res =>
    obtain ⟨pre1, st⟩ := res
    cases hr : st.result <;> cases he : st.err <;> simp [hr, he]
    exact ⟨pre1, st, ⟨rfl, rfl⟩, hr, he⟩

theorem split_at_index {α : Type} (l : List α) (k : Nat) (a : α) (h : l[k]? = some a) :
    l = l.take k ++ a :: l.drop (k + 1) ∧ (l.take k).length = k := by
  obtain ⟨hk, ha⟩ := List.getElem?_eq_some.mp h
  refine ⟨?_, by rw [List.length_take]; omega⟩
  rw [← ha, ← List.drop_eq_getElem_cons hk, List.take_append_drop]

theorem getElem?_append_cons_length {α : Type} (pre post : List α) (a : α) (k : Nat)
    (h : pre.length = k) : (pre ++ a :: post)[k]? = some a := by
  subst h
  rw [List.getElem?_append_right (Nat.le_refl _), Nat.sub_self]
  exact List.getElem?_cons_zero

/-- A rule whose pattern does not compile, at position `k` of a rule list: over
consecutive `execute` calls that each reach the rule with `err` still `NULL`,
the rule stays as it is and every call logs the warning. -/
theorem execute_calls_compile_failure {R M E : Type} (C : Collaborators R M E)
    (a : XfceAppfinderAction R) (p : CStr) (e : E)
    (ht : a.type = XFCE_APPFINDER_ACTION_TYPE_REGEX) (hc : a.regex = none)
    (hp : a.pattern = some p) (h1 : C.g_regex_new p = Except.error e) (k : Nat)
    (texts : List CStr) :
    ∀ actions : List (XfceAppfinderAction R), actions[k]? = some a →
      calls_reach C k texts actions = true →
      ∃ l msgs, execute_calls C texts actions = some (l, msgs) ∧ l[k]? = some a ∧
        (List.replicate texts.length (p, e)).Sublist msgs := by
  induction texts with
  | nil =>
    intro actions hk _
    exact ⟨actions, [], rfl, hk, by simp⟩
  | cons text texts ih =>
    intro actions hk hreach
    simp only [calls_reach, Bool.and_eq_true] at hreach
    obtain ⟨hr1, hr2⟩ := hreach
    obtain ⟨pre1, st, hpre, hres, herr⟩ :=
      (reached_with_null_err_iff C text (actions.take k)).mp hr1
    obtain ⟨hsplit, hlen⟩ := split_at_index actions k a hk
    have hloop := execute_loop_append C text (actions.take k) (a :: actions.drop (k + 1))
      pre1 (execute_entry E) st hpre
    rw [← hsplit, execute_loop_cons C text a a _ st _ hres
      (execute_switch_compile_failure C text a st p e ht hc hp herr h1)] at hloop
    cases ho : xfce_appfinder_actions_execute C actions text with
    | none => simp [ho] at hr2
    | some o =>
      simp only [ho] at hr2
      cases hpost : execute_loop C text (actions.drop (k + 1))
          { st with err := GErrorPtr.freed, messages := st.messages ++ [(p, e)] } with
      | none =>
        rw [hpost] at hloop
        simp only [Option.map_none'] at hloop
        simp [xfce_appfinder_actions_execute, hloop] at ho
      | some res =>
        obtain ⟨post1, st3⟩ := res
        rw [hpost] at hloop
        simp only [Option.map_some'] at hloop
        have ho2 := execute_of_loop C text actions _ _ hloop
        rw [ho] at ho2
        injection ho2 with ho2
        have hlen1 : pre1.length = k := by
          have := congrArg List.length
            (execute_loop_fields C text (actions.take k) pre1 (execute_entry E) st hpre)
          rw [List.length_map, List.length_map] at this
          omega
        have hoa : o.actions[k]? = some a := by
          rw [ho2, execute_spawn_actions]
          exact getElem?_append_cons_length pre1 post1 a k hlen1
        obtain ⟨l, msgs, hcalls, hl, hsub⟩ := ih o.actions hoa hr2
        obtain ⟨m, hm⟩ := execute_loop_messages C text (actions.drop (k + 1)) post1 _ st3 hpost
        refine ⟨l, o.messages ++ msgs, ?_, hl, ?_⟩
        · simp only [execute_calls, ho, hcalls]
        · have hom : o.messages = st.messages ++ [(p, e)] ++ m := by
            rw [ho2, execute_spawn_messages, hm]
          rw [hom, List.length_cons, List.replicate_succ]
          have h1s : [(p, e)].Sublist (st.messages ++ [(p, e)] ++ m) :=
            (List.sublist_append_right _ _).trans (List.sublist_append_left _ _)
          exact List.Sublist.append h1s hsub

/-- C15 is false as stated: two calls of `execute` reach the rule with the
pattern `(`, which does not compile and does not change; the compilation is
attempted and the warning logged in both calls, twice in total. -/
theorem compile_warning_logged_twice :
    execute_calls ref_collaborators [cstr "x", cstr "y"]
        [{ type := 1, unique_id := 1, pattern := some (cstr "("),
           command := some (cstr "true"), regex := none }] =
      some ([{ type := 1, unique_id := 1, pattern := some (cstr "("),
               command := some (cstr "true"), regex := none }],
        [(cstr "(", cstr "missing )"), (cstr "(", cstr "missing )")]) := by
  decide

/-- C15, as amended: a Regex rule whose pattern does not compile keeps no trace
of the failure (its cache stays empty and the rule is unchanged), so every
`execute` call that reaches it with `err` still `NULL` (no compilation and no
expansion failed earlier in the same call) attempts the compilation again and
logs the warning once more.  First statement: the step of the loop at the
rule.  Second statement: in any rule list, a call whose loop reaches the rule
that way logs the warning, leaves the rule as it is and goes on with the later
rules.  Third statement: over any sequence of calls on any rule list that each
reach the rule at position `k` that way, the rule still stands unchanged at
position `k` after the last call, and the log holds the warning once for every
call.  Fourth statement: when the rule is the only rule, the log of any `n`
calls consists of exactly `n` warnings. -/
theorem compile_retried_every_call {R M E : Type} (C : Collaborators R M E)
    (a : XfceAppfinderAction R) (p : CStr) (e : E)
    (ht : a.type = XFCE_APPFINDER_ACTION_TYPE_REGEX) (hc : a.regex = none)
    (hp : a.pattern = some p) (h1 : C.g_regex_new p = Except.error e) :
    (∀ (text : CStr) (st : ExecuteLocals E), st.err = GErrorPtr.null →
      execute_switch C text a st =
        some (a, { st with err := GErrorPtr.freed, messages := st.messages ++ [(p, e)] })) ∧
    (∀ (text : CStr) (pre post : List (XfceAppfinderAction R)),
      reached_with_null_err C text pre = true →
      ∃ pre1 st, execute_loop C text pre (execute_entry E) = some (pre1, st) ∧
        execute_loop C text (pre ++ a :: post) (execute_entry E) =
          (execute_loop C text post
            { st with err := GErrorPtr.freed, messages := st.messages ++ [(p, e)] }).map
            (fun r => (pre1 ++ a :: r.1, r.2))) ∧
    (∀ (k : Nat) (texts : List CStr) (actions : List (XfceAppfinderAction R)),
      actions[k]? = some a → calls_reach C k texts actions = true →
      ∃ l msgs, execute_calls C texts actions = some (l, msgs) ∧ l[k]? = some a ∧
        (List.replicate texts.length (p, e)).Sublist msgs) ∧
    (∀ texts : List CStr,
      execute_calls C texts [a] = some ([a], List.replicate texts.length (p, e))) := by
  refine ⟨?_, ?_, ?_, ?_⟩
  · intro text st herr
    exact execute_switch_compile_failure C text a st p e ht hc hp herr h1
  · intro text pre post hreach
    obtain ⟨pre1, st, hpre, hres, herr⟩ := (reached_with_null_err_iff C text pre).mp hreach
    refine ⟨pre1, st, hpre, ?_⟩
    rw [execute_loop_append C text pre (a :: post) pre1 (execute_entry E) st hpre,
      execute_loop_cons C text a a post st _ hres
        (execute_switch_compile_failure C text a st p e ht hc hp herr h1)]
    cases execute_loop C text post
        { st with err := GErrorPtr.freed, messages := st.messages ++ [(p, e)] } with
    | none => rfl
    | some r => rfl
  · intro k texts actions hk hreach
    exact execute_calls_compile_failure C a p e ht hc hp h1 k texts actions hk hreach
  · intro texts
    induction texts with
    | nil => rfl
    | cons text texts ih =>
      simp only [execute_calls, execute_single_compile_failure C text a p e ht hc hp h1, ih,
        List.length_cons, List.replicate_succ]
      rfl

/-- C15 as amended, with the reference collaborators: the rule with the pattern
`(` stands behind the Prefix rule `!`; the two calls on `x` and `y` both reach
it, and both log the warning. -/
theorem compile_retried_every_call_witness :
    calls_reach ref_collaborators 1 [cstr "x", cstr "y"]
        [{ type := 0, unique_id := 2, pattern := some (cstr "!"),
           command := some (cstr "xterm -e %s"), regex := none },
         { type := 1, unique_id := 1, pattern := some (cstr "("),
           command := some (cstr "true"), regex := none }] = true ∧
    (∃ l msgs,
      execute_calls ref_collaborators [cstr "x", cstr "y"]
          [{ type := 0, unique_id := 2, pattern := some (cstr "!"),
             command := some (cstr "xterm -e %s"), regex := none },
           { type := 1, unique_id := 1, pattern := some (cstr "("),
             command := some (cstr "true"), regex := none }] = some (l, msgs) ∧
        l[1]? = some { type := 1, unique_id := 1, pattern := some (cstr "("),
                       command := some (cstr "true"), regex := none } ∧
        (List.replicate [cstr "x", cstr "y"].length
          (cstr "(", cstr "missing )")).Sublist msgs) ∧
    (∀ texts : List CStr,
      execute_calls ref_collaborators texts
          [{ type := 1, unique_id := 1, pattern := some (cstr "("),
             command := some (cstr "true"), regex := none }] =
        some ([{ type := 1, unique_id := 1, pattern := some (cstr "("),
                 command := some (cstr "true"), regex := none }],
          List.replicate texts.length (cstr "(", cstr "missing )"))) :=
  ⟨by decide,
    (compile_retried_every_call ref_collaborators
      { type := 1, unique_id := 1, pattern := some (cstr "("), command := some (cstr "true"),
        regex := none }
      (cstr "(") (cstr "missing )") rfl rfl rfl rfl).2.2.1 1 [cstr "x", cstr "y"]
      [{ type := 0, unique_id := 2, pattern := some (cstr "!"),
         command := some (cstr "xterm -e %s"), regex := none },
       { type := 1, unique_id := 1, pattern := some (cstr "("),
         command := some (cstr "true"), regex := none }] (by decide) (by decide),
    (compile_retried_every_call ref_collaborators
      { type := 1, unique_id := 1, pattern := some (cstr "("), command := some (cstr "true"),
        regex := none }
      (cstr "(") (cstr "missing )") rfl rfl rfl rfl).2.2.2⟩

/-! ## The change handler and the invariants of the rule list -/

/-- C17, evaluation at the failing input: the default rule set satisfies the
ordering invariant; when the channel reports the new pattern `!` for rule 4
(the rule `#`), the handler stores the pattern in place and does not sort, so
the list `!`, `!w`, `!`, URL no longer satisfies the invariant, and `!w foo` is
dispatched to the rule listed first, not to the most specific rule `!w`.  A
type update breaks the invariant as well: rule 4 turned into a Regex rule
stands before the Prefix rules. -/
theorem changed_breaks_ordering :
    ordering_invariant (xfce_appfinder_actions_init CStr xfconf_channel_empty).actions ∧
    (xfce_appfinder_actions_changed (some (cstr "/actions/action-4/pattern"))
        (XfconfValue.string (cstr "!"))
        (xfce_appfinder_actions_init CStr xfconf_channel_empty)).actions =
      [ { type := 0, unique_id := 4, pattern := some (cstr "!"),
          command := some (cstr "exo-open --launch TerminalEmulator man %s"), regex := none },
        { type := 0, unique_id := 3, pattern := some (cstr "!w"),
          command := some (cstr "exo-open --launch WebBrowser http://en.wikipedia.org/wiki/%s"),
          regex := none },
        { type := 0, unique_id := 2, pattern := some (cstr "!"),
          command := some (cstr "exo-open --launch TerminalEmulator %s"), regex := none },
        { type := 1, unique_id := 1, pattern := some (cstr "^(file|http|https):\\/\\/(.*)$"),
          command := some (cstr "exo-open \\0"), regex := none } ] ∧
    ¬ ordering_invariant
      (xfce_appfinder_actions_changed (some (cstr "/actions/action-4/pattern"))
        (XfconfValue.string (cstr "!"))
        (xfce_appfinder_actions_init CStr xfconf_channel_empty)).actions ∧
    (xfce_appfinder_actions_execute ref_collaborators
        (xfce_appfinder_actions_changed (some (cstr "/actions/action-4/pattern"))
          (XfconfValue.string (cstr "!"))
          (xfce_appfinder_actions_init CStr xfconf_channel_empty)).actions
        (cstr "!w foo")).map (fun o => (o.result, o.spawned)) =
      some (XFCE_APPFINDER_ACTIONS_SUCCEED,
        [cstr "exo-open --launch TerminalEmulator man w foo"]) ∧
    ¬ ordering_invariant
      (xfce_appfinder_actions_changed (some (cstr "/actions/action-4/type"))
        (XfconfValue.int 1)
        (xfce_appfinder_actions_init CStr xfconf_channel_empty)).actions := by
  refine ⟨load_actions_invariant CStr xfconf_channel_empty 0, by decide, ?_, by decide, ?_⟩
  · unfold ordering_invariant
    decide
  · unfold ordering_invariant
    decide

/-- C19, evaluation at the failing input: the channel reports the integer 7
(and then -1) for the type of rule 2 of the default rule set; the handler
stores it without the range test that `load` applies, so the kind of the rule
is neither enumerator, and `execute` no longer has a case for the rule: `!ls`
finds nothing. -/
theorem changed_stores_any_type :
    (xfce_appfinder_actions_changed (some (cstr "/actions/action-2/type")) (XfconfValue.int 7)
        (xfce_appfinder_actions_init CStr xfconf_channel_empty)).actions =
      [ { type := 0, unique_id := 4, pattern := some (cstr "#"),
          command := some (cstr "exo-open --launch TerminalEmulator man %s"), regex := none },
        { type := 0, unique_id := 3, pattern := some (cstr "!w"),
          command := some (cstr "exo-open --launch WebBrowser http://en.wikipedia.org/wiki/%s"),
          regex := none },
        { type := 7, unique_id := 2, pattern := some (cstr "!"),
          command := some (cstr "exo-open --launch TerminalEmulator %s"), regex := none },
        { type := 1, unique_id := 1, pattern := some (cstr "^(file|http|https):\\/\\/(.*)$"),
          command := some (cstr "exo-open \\0"), regex := none } ] ∧
    (∃ a ∈ (xfce_appfinder_actions_changed (some (cstr "/actions/action-2/type"))
        (XfconfValue.int 7) (xfce_appfinder_actions_init CStr xfconf_channel_empty)).actions,
      ¬ valid_type a) ∧
    (∃ a ∈ (xfce_appfinder_actions_changed (some (cstr "/actions/action-2/type"))
        (XfconfValue.int (-1)) (xfce_appfinder_actions_init CStr xfconf_channel_empty)).actions,
      a.type = -1 ∧ ¬ valid_type a) ∧
    (xfce_appfinder_actions_execute ref_collaborators
        (xfce_appfinder_actions_changed (some (cstr "/actions/action-2/type"))
          (XfconfValue.int 7)
          (xfce_appfinder_actions_init CStr xfconf_channel_empty)).actions
        (cstr "!ls")).map (fun o => (o.result, o.spawned)) =
      some (XFCE_APPFINDER_ACTIONS_NOTHING_FOUND, []) := by
  refine ⟨by decide, ?_, ?_, by decide⟩
  · refine ⟨{ type := 7, unique_id := 2, pattern := some (cstr "!"),
                command := some (cstr "exo-open --launch TerminalEmulator %s"),
                regex := none },
      by decide, ?_⟩
    unfold valid_type
    decide
  · refine ⟨{ type := -1, unique_id := 2, pattern := some (cstr "!"),
                command := some (cstr "exo-open --launch TerminalEmulator %s"),
                regex := none },
      by decide, rfl, ?_⟩
    unfold valid_type
    decide


/-! ## Property names are distinct -/

theorem append_cons_cancel {α : Type} (x : α) : ∀ (A B s t : List α), x ∉ A → x ∉ B →
    A ++ x :: s = B ++ x :: t → A = B ∧ s = t := by
  intro A
  induction A with
  | nil =>
    intro B s t _ hB h
    cases B with
    | nil => exact ⟨rfl, by simpa using h⟩
    | cons b B =>
      simp only [List.nil_append, List.cons_append, List.cons.injEq] at h
      exact absurd (h.1 ▸ List.mem_cons_self _ _) hB
  | cons a A ih =>
    intro B s t hA hB h
    cases B with
    | nil =>
      simp only [List.nil_append, List.cons_append, List.cons.injEq] at h
      exact absurd (h.1 ▸ List.mem_cons_self _ _) hA
    | cons b B =>
      simp only [List.cons_append, List.cons.injEq] at h
      obtain ⟨e1, e2⟩ := ih B s t (fun m => hA (List.mem_cons_of_mem _ m))
        (fun m => hB (List.mem_cons_of_mem _ m)) h.2
      exact ⟨by rw [h.1, e1], e2⟩

/-- Within the range of `gint` the buffer `prop[32]` holds the prefix, the id,
the slash and the first `14 - length of the id` characters of the field. -/
theorem action_prop_split (unique_id : Int) (field : CStr)
    (h1 : -2147483648 ≤ unique_id) (h2 : unique_id ≤ 2147483647) :
    action_prop unique_id field =
      cstr "/actions/action-" ++ (format_d unique_id ++
        47 :: field.take (14 - (format_d unique_id).length)) := by
  have hl := format_d_length unique_id h1 h2
  have h16 : (cstr "/actions/action-").length = 16 := by decide
  have hs : cstr "/" = [47] := by decide
  unfold action_prop
  rw [hs, List.append_assoc, List.append_assoc, List.take_append_eq_append_take,
    List.take_of_length_le (by omega), h16, List.take_append_eq_append_take,
    List.take_of_length_le (by omega)]
  have e : 31 - 16 - (format_d unique_id).length = (14 - (format_d unique_id).length) + 1 := by
    omega
  rw [e]
  rfl

/-- Within the range of `gint`, the property names of the three fields of two
rules coincide only for the same id and the same field: the buffer `prop[32]`
keeps at least three characters of the field name. -/
theorem action_prop_injective (a b : Int) (f g : CStr)
    (ha1 : -2147483648 ≤ a) (ha2 : a ≤ 2147483647)
    (hb1 : -2147483648 ≤ b) (hb2 : b ≤ 2147483647)
    (hf : f = cstr "type" ∨ f = cstr "pattern" ∨ f = cstr "command")
    (hg : g = cstr "type" ∨ g = cstr "pattern" ∨ g = cstr "command")
    (h : action_prop a f = action_prop b g) : a = b ∧ f = g := by
  rw [action_prop_split a f ha1 ha2, action_prop_split b g hb1 hb2] at h
  have h' := List.append_cancel_left h
  obtain ⟨e1, e2⟩ := append_cons_cancel 47 _ _ _ _ (format_d_no_slash a) (format_d_no_slash b) h'
  have hab := format_d_injective a b e1
  refine ⟨hab, ?_⟩
  have hl := format_d_length a ha1 ha2
  rw [← e1] at e2
  have e3 : f.take 3 = g.take 3 := by
    have := congrArg (List.take 3) e2
    rw [List.take_take, List.take_take, Nat.min_eq_left (by omega)] at this
    exact this
  rcases hf with rfl | rfl | rfl <;> rcases hg with rfl | rfl | rfl <;>
    first
    | rfl
    | exact absurd e3 (by decide)

/-- No property name of a rule is the name `/actions` of the id array. -/
theorem action_prop_ne_actions (unique_id : Int) (field : CStr) :
    action_prop unique_id field ≠ cstr "/actions" := by
  intro h
  have hl := congrArg List.length h
  have h16 : (cstr "/actions/action-").length = 16 := by decide
  have h8 : (cstr "/actions").length = 8 := by decide
  unfold action_prop at hl
  rw [List.length_take, List.length_append, List.length_append, List.length_append, h16, h8] at hl
  omega

/-! ## What `save` leaves in the channel -/

theorem xfconf_channel_set_same (channel : XfconfChannel) (k : CStr) (v : XfconfValue) :
    xfconf_channel_set channel k v k = some v := by
  simp [xfconf_channel_set]

theorem xfconf_channel_set_other (channel : XfconfChannel) (k k' : CStr) (v : XfconfValue)
    (h : k' ≠ k) : xfconf_channel_set channel k v k' = channel k' := by
  simp [xfconf_channel_set, h]

theorem xfconf_channel_set_string_other (channel : XfconfChannel) (k k' : CStr)
    (s : Option CStr) (h : k' ≠ k) : xfconf_channel_set_string channel k s k' = channel k' := by
  cases s with
  | none => rfl
  | some v => exact xfconf_channel_set_other channel k k' _ h

/-- The loop of `save` changes only the properties it names. -/
theorem save_loop_other {R : Type} (l : List (XfceAppfinderAction R)) :
    ∀ (channel : XfconfChannel) (k : CStr),
      (∀ b ∈ l, k ≠ action_prop b.unique_id (cstr "type") ∧
        k ≠ action_prop b.unique_id (cstr "pattern") ∧
        k ≠ action_prop b.unique_id (cstr "command")) →
      save_loop true l channel k = channel k := by
  induction l with
  | nil => intro channel k _; rfl
  | cons x l ih =>
    intro channel k h
    obtain ⟨h1, h2, h3⟩ := h x (List.mem_cons_self _ _)
    simp only [save_loop, if_true]
    rw [ih _ k (fun b hb => h b (List.mem_cons_of_mem _ hb)),
      xfconf_channel_set_string_other _ _ _ _ h3, xfconf_channel_set_string_other _ _ _ _ h2]
    exact xfconf_channel_set_other _ _ _ _ h1

/-- After the loop of `save` over rules with distinct ids in the range of
`gint`, the three properties of every rule hold its kind, its pattern and its
command. -/
theorem save_loop_read {R : Type} (l : List (XfceAppfinderAction R)) :
    ∀ (channel : XfconfChannel),
      (l.map (fun a => a.unique_id)).Nodup →
      (∀ a ∈ l, -2147483648 ≤ a.unique_id ∧ a.unique_id ≤ 2147483647) →
      ∀ a ∈ l,
        save_loop true l channel (action_prop a.unique_id (cstr "type")) =
          some (XfconfValue.int a.type) ∧
        (∀ p, a.pattern = some p →
          save_loop true l channel (action_prop a.unique_id (cstr "pattern")) =
            some (XfconfValue.string p)) ∧
        (∀ c, a.command = some c →
          save_loop true l channel (action_prop a.unique_id (cstr "command")) =
            some (XfconfValue.string c)) := by
  induction l with
  | nil => intro channel _ _ a ha; exact absurd ha (List.not_mem_nil a)
  | cons x l ih =>
    intro channel hnd hr a ha
    simp only [List.map_cons, List.nodup_cons] at hnd
    have hrl : ∀ a ∈ l, -2147483648 ≤ a.unique_id ∧ a.unique_id ≤ 2147483647 :=
      fun a ha => hr a (List.mem_cons_of_mem _ ha)
    have hrx := hr x (List.mem_cons_self _ _)
    by_cases hal : a ∈ l
    · simp only [save_loop, if_true]
      exact ih _ hnd.2 hrl a hal
    · have hax : a = x := by
        rcases List.mem_cons.mp ha with h | h
        · exact h
        · exact absurd h hal
      subst hax
      have hne : ∀ f g, (f = cstr "type" ∨ f = cstr "pattern" ∨ f = cstr "command") →
          (g = cstr "type" ∨ g = cstr "pattern" ∨ g = cstr "command") →
          ∀ b ∈ l, action_prop a.unique_id f ≠ action_prop b.unique_id g := by
        intro f g hf hg b hb e
        have hrb := hrl b hb
        have := (action_prop_injective _ _ f g hrx.1 hrx.2 hrb.1 hrb.2 hf hg e).1
        exact hnd.1 (List.mem_map.mpr ⟨b, hb, this.symm⟩)
      have hff : ∀ f g, (f = cstr "type" ∨ f = cstr "pattern" ∨ f = cstr "command") →
          (g = cstr "type" ∨ g = cstr "pattern" ∨ g = cstr "command") → f ≠ g →
          action_prop a.unique_id f ≠ action_prop a.unique_id g := by
        intro f g hf hg hfg e
        exact hfg (action_prop_injective _ _ f g hrx.1 hrx.2 hrx.1 hrx.2 hf hg e).2
      have ht : cstr "type" = cstr "type" ∨ cstr "type" = cstr "pattern" ∨
          cstr "type" = cstr "command" := Or.inl rfl
      have hp : cstr "pattern" = cstr "type" ∨ cstr "pattern" = cstr "pattern" ∨
          cstr "pattern" = cstr "command" := Or.inr (Or.inl rfl)
      have hc : cstr "command" = cstr "type" ∨ cstr "command" = cstr "pattern" ∨
          cstr "command" = cstr "command" := Or.inr (Or.inr rfl)
      have other : ∀ f, (f = cstr "type" ∨ f = cstr "pattern" ∨ f = cstr "command") →
          ∀ ch : XfconfChannel, save_loop true l ch (action_prop a.unique_id f) =
            ch (action_prop a.unique_id f) := by
        intro f hf ch
        exact save_loop_other l ch _
          (fun b hb => ⟨hne f _ hf ht b hb, hne f _ hf hp b hb, hne f _ hf hc b hb⟩)
      simp only [save_loop, if_true]
      refine ⟨?_, ?_, ?_⟩
      · rw [other _ ht, xfconf_channel_set_string_other _ _ _ _ (hff _ _ ht hc (by decide)),
          xfconf_channel_set_string_other _ _ _ _ (hff _ _ ht hp (by decide))]
        exact xfconf_channel_set_same _ _ _
      · intro p hpat
        rw [other _ hp, xfconf_channel_set_string_other _ _ _ _ (hff _ _ hp hc (by decide)), hpat]
        exact xfconf_channel_set_same _ _ _
      · intro c hcom
        rw [other _ hc, hcom]
        exact xfconf_channel_set_same _ _ _


/-! ## Round trip through the channel -/

theorem filterMap_eq_map_of_mem {α β : Type} (f : α → Option β) (g : α → β) (l : List α)
    (h : ∀ a ∈ l, f a = some (g a)) : l.filterMap f = l.map g := by
  induction l with
  | nil => rfl
  | cons x l ih =>
    rw [List.filterMap_cons, h x (List.mem_cons_self _ _), List.map_cons,
      ih (fun a ha => h a (List.mem_cons_of_mem _ ha))]

/-- Reading back one rule that `save` wrote with its contents: `load` rebuilds
the rule, with an empty cache. -/
theorem load_entry_after_save {R : Type} (channel : XfconfChannel) (w : Nat)
    (l : List (XfceAppfinderAction R))
    (hid : (l.map (fun a => a.unique_id)).Nodup)
    (hrange : ∀ a ∈ l, -2147483648 ≤ a.unique_id ∧ a.unique_id ≤ 2147483647)
    (hkind : ∀ a ∈ l, valid_type a)
    (hstr : ∀ a ∈ l, a.pattern ≠ none ∧ a.command ≠ none) (a : XfceAppfinderAction R)
    (ha : a ∈ l) :
    load_entry R
      (xfce_appfinder_actions_save
        { channel := channel, property_watch_id := w, actions := l } true).channel
      a.unique_id = some { a with regex := none } := by
  obtain ⟨h1, h2, h3⟩ := save_loop_read l channel hid hrange a ha
  obtain ⟨hp, hc⟩ := hstr a ha
  obtain ⟨p, hp⟩ := Option.ne_none_iff_exists'.mp hp
  obtain ⟨c, hc⟩ := Option.ne_none_iff_exists'.mp hc
  rw [load_entry_eq_some_iff]
  refine ⟨a.type, p, c, hkind a ha, ?_, ?_, ?_, ?_⟩
  · unfold xfce_appfinder_actions_save xfconf_channel_set_arrayv
    simp only
    rw [xfconf_channel_set_other _ _ _ _ (action_prop_ne_actions _ _)]
    exact h1
  · unfold xfce_appfinder_actions_save xfconf_channel_set_arrayv
    simp only
    rw [xfconf_channel_set_other _ _ _ _ (action_prop_ne_actions _ _)]
    exact h2 p hp
  · unfold xfce_appfinder_actions_save xfconf_channel_set_arrayv
    simp only
    rw [xfconf_channel_set_other _ _ _ _ (action_prop_ne_actions _ _)]
    exact h3 c hc
  · rw [← hp, ← hc]

/-- The list that `load` sorts after `save` wrote the rules with their
contents: the saved rules in reverse order, with empty caches. -/
theorem loaded_unsorted_after_save {R : Type} (channel : XfconfChannel) (w : Nat)
    (l : List (XfceAppfinderAction R))
    (hid : (l.map (fun a => a.unique_id)).Nodup)
    (hrange : ∀ a ∈ l, -2147483648 ≤ a.unique_id ∧ a.unique_id ≤ 2147483647)
    (hkind : ∀ a ∈ l, valid_type a)
    (hstr : ∀ a ∈ l, a.pattern ≠ none ∧ a.command ≠ none) :
    loaded_unsorted R
      (xfce_appfinder_actions_save
        { channel := channel, property_watch_id := w, actions := l } true).channel =
      (l.map (fun a => { a with regex := none })).reverse := by
  have harr : (xfce_appfinder_actions_save
      { channel := channel, property_watch_id := w, actions := l } true).channel
      (cstr "/actions") = some (XfconfValue.array (l.map (fun a => a.unique_id))) := by
    simp only [xfce_appfinder_actions_save, xfconf_channel_set_arrayv, xfconf_channel_set_same]
  unfold loaded_unsorted xfconf_channel_has_property xfconf_channel_get_arrayv
  rw [harr]
  simp only [Option.isSome_some, if_true]
  rw [List.filterMap_map]
  exact congrArg List.reverse (filterMap_eq_map_of_mem _ _ l
    (fun a ha => load_entry_after_save channel w l hid hrange hkind hstr a ha))

/-- C12: for every rule list `l` with pairwise distinct ids (in the range of
`gint`), kinds Prefix or Regex and non-null patterns and commands, and for
every order `l2` in which the rules stand when they are saved, `save` with
`save_actions = TRUE` into any channel followed by `load` into a store with an
empty list yields rules with exactly the (id, kind, pattern, command) tuples
of `l`, as a multiset. -/
theorem save_load_round_trip (R : Type) (channel : XfconfChannel) (w w2 : Nat)
    (l l2 : List (XfceAppfinderAction R)) (hperm : l2.Perm l)
    (hid : (l.map (fun a => a.unique_id)).Nodup)
    (hrange : ∀ a ∈ l, -2147483648 ≤ a.unique_id ∧ a.unique_id ≤ 2147483647)
    (hkind : ∀ a ∈ l, valid_type a)
    (hstr : ∀ a ∈ l, a.pattern ≠ none ∧ a.command ≠ none) :
    ((xfce_appfinder_actions_load
        ({ channel := (xfce_appfinder_actions_save
              { channel := channel, property_watch_id := w, actions := l2 } true).channel,
           property_watch_id := w2, actions := [] } :
          XfceAppfinderActions R)).actions.map rule_fields).Perm
      (l.map rule_fields) := by
  have hid2 : (l2.map (fun a => a.unique_id)).Nodup :=
    ((hperm.map _).nodup_iff).mpr hid
  rw [load_actions_eq, loaded_unsorted_after_save channel w l2 hid2
    (fun a ha => hrange a (hperm.mem_iff.mp ha)) (fun a ha => hkind a (hperm.mem_iff.mp ha))
    (fun a ha => hstr a (hperm.mem_iff.mp ha))]
  refine ((g_slist_sort_perm _ _).map rule_fields).trans ?_
  rw [List.map_reverse, List.map_map]
  refine (List.reverse_perm _).trans ?_
  have e : (rule_fields ∘ fun a : XfceAppfinderAction R =>
      ({ a with regex := none } : XfceAppfinderAction R)) =
      rule_fields := by
    funext a
    rfl
  rw [e]
  exact hperm.map rule_fields

theorem save_load_round_trip_witness :
    (default_actions CStr).reverse.Perm (default_actions CStr) ∧
    ((default_actions CStr).map (fun a => a.unique_id)).Nodup ∧
    ((xfce_appfinder_actions_load
        ({ channel := (xfce_appfinder_actions_save
              { channel := xfconf_channel_empty, property_watch_id := 0,
                actions := (default_actions CStr).reverse } true).channel,
           property_watch_id := 0, actions := [] } :
          XfceAppfinderActions CStr)).actions.map rule_fields).Perm
      ((default_actions CStr).map rule_fields) :=
  ⟨List.reverse_perm _, by decide,
    save_load_round_trip CStr xfconf_channel_empty 0 0 (default_actions CStr)
      (default_actions CStr).reverse (List.reverse_perm _) (by decide)
      (by decide) (by unfold valid_type; decide) (by decide)⟩


/-! ## The defaults written at the first start -/

/-- On a channel without the property `/actions`, `load` leaves the channel
that `save` produced from the default rules, written with their contents. -/
theorem load_channel_without_actions (R : Type) (channel : XfconfChannel) (w : Nat)
    (h : xfconf_channel_has_property channel (cstr "/actions") = false) :
    (xfce_appfinder_actions_load
      ({ channel := channel, property_watch_id := w, actions := [] } :
        XfceAppfinderActions R)).channel =
      xfconf_channel_set_arrayv (save_loop true (default_actions R) channel) (cstr "/actions")
        [4, 3, 2, 1] := by
  unfold xfce_appfinder_actions_load
  simp only [h]
  rw [← default_actions_ids R]
  rfl

/-- C16: on a channel without the property `/actions`, `load` on an empty
list produces exactly the four built-in rules, with the ids 1 (URL
expression), 2 (`!`), 3 (`!w`) and 4 (`#`) of the table order, standing in the
order `#`, `!w`, `!`, URL expression; afterwards the channel holds the id
array `[4, 3, 2, 1]` under `/actions` and, for each of the four rules, its
kind, pattern and command under the three properties of its id. -/
theorem load_defaults_bootstrap (R : Type) (channel : XfconfChannel) (w : Nat)
    (h : xfconf_channel_has_property channel (cstr "/actions") = false) :
    (xfce_appfinder_actions_load
      ({ channel := channel, property_watch_id := w, actions := [] } :
        XfceAppfinderActions R)).actions =
      [ { type := XFCE_APPFINDER_ACTION_TYPE_PREFIX, unique_id := 4, pattern := some (cstr "#"),
          command := some (cstr "exo-open --launch TerminalEmulator man %s"), regex := none },
        { type := XFCE_APPFINDER_ACTION_TYPE_PREFIX, unique_id := 3, pattern := some (cstr "!w"),
          command := some (cstr "exo-open --launch WebBrowser http://en.wikipedia.org/wiki/%s"),
          regex := none },
        { type := XFCE_APPFINDER_ACTION_TYPE_PREFIX, unique_id := 2, pattern := some (cstr "!"),
          command := some (cstr "exo-open --launch TerminalEmulator %s"), regex := none },
        { type := XFCE_APPFINDER_ACTION_TYPE_REGEX, unique_id := 1,
          pattern := some (cstr "^(file|http|https):\\/\\/(.*)$"),
          command := some (cstr "exo-open \\0"), regex := none } ] ∧
    (xfce_appfinder_actions_load
      ({ channel := channel, property_watch_id := w, actions := [] } :
        XfceAppfinderActions R)).channel (cstr "/actions") =
      some (XfconfValue.array [4, 3, 2, 1]) ∧
    ∀ a ∈ (xfce_appfinder_actions_load
        ({ channel := channel, property_watch_id := w, actions := [] } :
          XfceAppfinderActions R)).actions,
      (xfce_appfinder_actions_load
        ({ channel := channel, property_watch_id := w, actions := [] } :
          XfceAppfinderActions R)).channel (action_prop a.unique_id (cstr "type")) =
        some (XfconfValue.int a.type) ∧
      (xfce_appfinder_actions_load
        ({ channel := channel, property_watch_id := w, actions := [] } :
          XfceAppfinderActions R)).channel (action_prop a.unique_id (cstr "pattern")) =
        a.pattern.map XfconfValue.string ∧
      (xfce_appfinder_actions_load
        ({ channel := channel, property_watch_id := w, actions := [] } :
          XfceAppfinderActions R)).channel (action_prop a.unique_id (cstr "command")) =
        a.command.map XfconfValue.string := by
  refine ⟨load_without_actions R channel w h, ?_, ?_⟩
  · rw [load_channel_without_actions R channel w h]
    exact xfconf_channel_set_same _ _ _
  · intro a ha
    rw [load_actions_eq] at ha
    have hmem : a ∈ default_actions R := by
      have := (mem_g_slist_sort _ _ _).mp ha
      unfold loaded_unsorted at this
      rw [h] at this
      exact this
    have hid : ((default_actions R).map (fun a => a.unique_id)).Nodup := by
      rw [default_actions_ids]
      decide
    have hrange : ∀ a ∈ default_actions R,
        -2147483648 ≤ a.unique_id ∧ a.unique_id ≤ 2147483647 := by
      intro b hb
      have : b.unique_id ∈ (default_actions R).map (fun a => a.unique_id) :=
        List.mem_map.mpr ⟨b, hb, rfl⟩
      rw [default_actions_ids] at this
      simp only [List.mem_cons, List.mem_singleton, List.not_mem_nil, or_false] at this
      omega
    obtain ⟨h1, h2, h3⟩ := save_loop_read (default_actions R) channel hid hrange a hmem
    have hstr : ∃ p c, a.pattern = some p ∧ a.command = some c := by
      rw [default_actions_eq] at hmem
      simp only [List.mem_cons, List.mem_singleton, List.not_mem_nil, or_false] at hmem
      rcases hmem with rfl | rfl | rfl | rfl <;> exact ⟨_, _, rfl, rfl⟩
    obtain ⟨p, c, hp, hc⟩ := hstr
    rw [load_channel_without_actions R channel w h]
    unfold xfconf_channel_set_arrayv
    rw [xfconf_channel_set_other _ _ _ _ (action_prop_ne_actions _ _),
      xfconf_channel_set_other _ _ _ _ (action_prop_ne_actions _ _),
      xfconf_channel_set_other _ _ _ _ (action_prop_ne_actions _ _)]
    exact ⟨h1, by rw [hp]; exact h2 p hp, by rw [hc]; exact h3 c hc⟩

theorem load_defaults_bootstrap_witness :
    xfconf_channel_has_property xfconf_channel_empty (cstr "/actions") = false ∧
    (xfce_appfinder_actions_load
      ({ channel := xfconf_channel_empty, property_watch_id := 0, actions := [] } :
        XfceAppfinderActions CStr)).channel (cstr "/actions") =
      some (XfconfValue.array [4, 3, 2, 1]) ∧
    (xfce_appfinder_actions_load
      ({ channel := xfconf_channel_empty, property_watch_id := 0, actions := [] } :
        XfceAppfinderActions CStr)).channel (cstr "/actions/action-3/pattern") =
      some (XfconfValue.string (cstr "!w")) :=
  ⟨by decide,
    (load_defaults_bootstrap CStr xfconf_channel_empty 0 (by decide)).2.1,
    by decide⟩


/-! ## The order of the persisted id array -/

theorem strcmp_eq_zero (a b : CStr) (h : strcmp a b = 0) : a = b := by
  induction a generalizing b with
  | nil =>
    cases b with
    | nil => rfl
    | cons y ys => simp [strcmp] at h
  | cons x xs ih =>
    cases b with
    | nil => simp [strcmp] at h
    | cons y ys =>
      simp only [strcmp] at h
      split at h
      · omega
      · split at h
        · omega
        · have hxy : x = y := by omega
          rw [hxy, ih ys h]

theorem g_strcmp0_eq_zero (a b : Option CStr) (h : g_strcmp0 a b = 0) : a = b := by
  cases a <;> cases b <;> simp [g_strcmp0] at h
  · rfl
  · rw [strcmp_eq_zero _ _ h]

/-- Two rules that the comparison of `load` puts in either order have the same
kind and the same pattern. -/
theorem xfce_appfinder_actions_sort_tie {R : Type} (a b : XfceAppfinderAction R)
    (h1 : xfce_appfinder_actions_sort a b ≤ 0) (h2 : xfce_appfinder_actions_sort b a ≤ 0) :
    a.type = b.type ∧ a.pattern = b.pattern := by
  unfold xfce_appfinder_actions_sort XFCE_APPFINDER_ACTION_TYPE_PREFIX at h1 h2
  by_cases hab : a.type = b.type
  · rw [if_neg (not_not.mpr hab)] at h1
    rw [if_neg (not_not.mpr hab.symm), g_strcmp0_swap a.pattern b.pattern] at h2
    exact ⟨hab, g_strcmp0_eq_zero _ _ (by omega)⟩
  · have hba : b.type ≠ a.type := fun e => hab e.symm
    rw [if_pos hab] at h1
    rw [if_pos hba] at h2
    split at h1
    · split at h2
      · omega
      · omega
    · omega

/-- The entry read for an id depends only on the three properties of the id. -/
theorem load_entry_congr (R : Type) (channel1 channel2 : XfconfChannel) (unique_id : Int)
    (ht : channel1 (action_prop unique_id (cstr "type")) =
      channel2 (action_prop unique_id (cstr "type")))
    (hp : channel1 (action_prop unique_id (cstr "pattern")) =
      channel2 (action_prop unique_id (cstr "pattern")))
    (hc : channel1 (action_prop unique_id (cstr "command")) =
      channel2 (action_prop unique_id (cstr "command"))) :
    load_entry R channel1 unique_id = load_entry R channel2 unique_id := by
  unfold load_entry xfconf_channel_get_int xfconf_channel_get_string
  rw [ht, hp, hc]

/-- C18 is false as stated: the two id arrays `[1, 2]` and `[2, 1]` over the
same two Prefix rules with pattern `a` make `load` produce the rules in
different orders, and `execute` on the text `ab` spawns `gedit` for the first
array and `xterm` for the second. -/
theorem load_depends_on_array_order :
    ((xfce_appfinder_actions_init CStr (channel_of_entries tied_entries [1, 2])).actions.map
      rule_fields = [(2, 0, some (cstr "a"), some (cstr "gedit")),
        (1, 0, some (cstr "a"), some (cstr "xterm"))]) ∧
    ((xfce_appfinder_actions_init CStr (channel_of_entries tied_entries [2, 1])).actions.map
      rule_fields = [(1, 0, some (cstr "a"), some (cstr "xterm")),
        (2, 0, some (cstr "a"), some (cstr "gedit"))]) ∧
    (xfce_appfinder_actions_execute ref_collaborators
      (xfce_appfinder_actions_init CStr (channel_of_entries tied_entries [1, 2])).actions
      (cstr "ab")).map (fun o => (o.result, o.spawned)) =
      some (XfceAppfinderActionsResult.XFCE_APPFINDER_ACTIONS_SUCCEED, [cstr "gedit"]) ∧
    (xfce_appfinder_actions_execute ref_collaborators
      (xfce_appfinder_actions_init CStr (channel_of_entries tied_entries [2, 1])).actions
      (cstr "ab")).map (fun o => (o.result, o.spawned)) =
      some (XfceAppfinderActionsResult.XFCE_APPFINDER_ACTIONS_SUCCEED, [cstr "xterm"]) :=
  ⟨by decide, by decide, by decide, by decide⟩

/-- C18, amended: for two channels whose id arrays are permutations of each
other and which agree on the type, pattern and command properties of every
listed id, the rule lists produced by `load` are permutations of each other;
when no two different loaded rules have the same kind and the same pattern,
the two rule lists are the same sequence and `execute` gives the same result
on both for every text. -/
theorem load_order_independence (R M E : Type) (C : Collaborators R M E)
    (channel1 channel2 : XfconfChannel) (array1 array2 : List Int)
    (h1 : channel1 (cstr "/actions") = some (XfconfValue.array array1))
    (h2 : channel2 (cstr "/actions") = some (XfconfValue.array array2))
    (hperm : array1.Perm array2)
    (hsame : ∀ unique_id ∈ array1,
      channel1 (action_prop unique_id (cstr "type")) =
        channel2 (action_prop unique_id (cstr "type")) ∧
      channel1 (action_prop unique_id (cstr "pattern")) =
        channel2 (action_prop unique_id (cstr "pattern")) ∧
      channel1 (action_prop unique_id (cstr "command")) =
        channel2 (action_prop unique_id (cstr "command"))) :
    (xfce_appfinder_actions_init R channel1).actions.Perm
      (xfce_appfinder_actions_init R channel2).actions ∧
    ((∀ a ∈ (xfce_appfinder_actions_init R channel1).actions,
        ∀ b ∈ (xfce_appfinder_actions_init R channel1).actions,
        a.type = b.type → a.pattern = b.pattern → a = b) →
      (xfce_appfinder_actions_init R channel1).actions =
        (xfce_appfinder_actions_init R channel2).actions ∧
      ∀ text, xfce_appfinder_actions_execute C
          (xfce_appfinder_actions_init R channel1).actions text =
        xfce_appfinder_actions_execute C
          (xfce_appfinder_actions_init R channel2).actions text) := by
  have hu : (loaded_unsorted R channel1).Perm (loaded_unsorted R channel2) := by
    unfold loaded_unsorted xfconf_channel_has_property xfconf_channel_get_arrayv
    rw [h1, h2]
    simp only [Option.isSome_some, if_true]
    refine (List.reverse_perm _).trans (List.Perm.trans ?_ (List.reverse_perm _).symm)
    rw [List.filterMap_congr (fun x hx => load_entry_congr R channel1 channel2 x
      (hsame x hx).1 (hsame x hx).2.1 (hsame x hx).2.2)]
    exact hperm.filterMap _
  have hp : (xfce_appfinder_actions_init R channel1).actions.Perm
      (xfce_appfinder_actions_init R channel2).actions :=
    (init_actions_perm R channel1).trans (hu.trans (init_actions_perm R channel2).symm)
  refine ⟨hp, ?_⟩
  intro htie
  have heq : (xfce_appfinder_actions_init R channel1).actions =
      (xfce_appfinder_actions_init R channel2).actions := by
    have hs1 : (xfce_appfinder_actions_init R channel1).actions.Pairwise
        (fun a b => xfce_appfinder_actions_sort a b ≤ 0) := load_actions_sorted R channel1 0
    have hs2 : (xfce_appfinder_actions_init R channel2).actions.Pairwise
        (fun a b => xfce_appfinder_actions_sort a b ≤ 0) := load_actions_sorted R channel2 0
    have anti : IsAntisymm (XfceAppfinderAction R) (fun a b =>
        xfce_appfinder_actions_sort a b ≤ 0 ∧
          a ∈ (xfce_appfinder_actions_init R channel1).actions ∧
          b ∈ (xfce_appfinder_actions_init R channel1).actions) :=
      ⟨fun a b hab hba => by
        obtain ⟨e1, e2⟩ := xfce_appfinder_actions_sort_tie a b hab.1 hba.1
        exact htie a hab.2.1 b hab.2.2 e1 e2⟩
    refine @List.eq_of_perm_of_sorted _ _ anti _ _ hp ?_ ?_
    · exact List.Pairwise.imp_of_mem (fun ha hb h => ⟨h, ha, hb⟩) hs1
    · exact List.Pairwise.imp_of_mem
        (fun ha hb h => ⟨h, hp.mem_iff.mpr ha, hp.mem_iff.mpr hb⟩) hs2
  refine ⟨heq, ?_⟩
  intro text
  rw [heq]

theorem load_order_independence_witness :
    [2, (1 : Int)].Perm [1, 2] ∧
    (xfce_appfinder_actions_init CStr (channel_of_entries untied_entries [2, 1])).actions =
      (xfce_appfinder_actions_init CStr (channel_of_entries untied_entries [1, 2])).actions :=
  ⟨by decide,
    ((load_order_independence CStr CStr CStr ref_collaborators
      (channel_of_entries untied_entries [2, 1]) (channel_of_entries untied_entries [1, 2])
      [2, 1] [1, 2] (by decide) (by decide) (by decide) (by decide)).2 (by decide)).1⟩


/-! ## Result and error of the dispatcher -/

/-- C20, evaluation at two failing inputs.  First, right after `load` of one
Regex rule with pattern `a` and a command whose expansion fails: `execute` on
`abc` returns `NOTHING_FOUND` with the caller's error set.  Second, after
`load` of two Prefix rules with pattern `a` and one change of the type of rule
2 to Regex, the list is rule 2 (Regex) before rule 1 (Prefix): the expansion
of rule 2 fails and sets the error, rule 1 matches and sets `SUCCEED`, the
spawn is skipped because the error is set, and `execute` returns `SUCCEED`
with the error set and nothing spawned. -/
theorem execute_outcome_with_error :
    (xfce_appfinder_actions_execute ref_collaborators
        (changes_run []
          (xfce_appfinder_actions_init CStr (channel_of_entries bad_expansion_entries [1]))).actions
        (cstr "abc")).map (fun o => (o.result, o.error, o.spawned)) =
      some (XFCE_APPFINDER_ACTIONS_NOTHING_FOUND, some (cstr "stray final \\"), []) ∧
    (changes_run [(cstr "/actions/action-2/type", XfconfValue.int 1)]
        (xfce_appfinder_actions_init CStr
          (channel_of_entries two_prefix_entries [1, 2]))).actions.map rule_fields =
      [(2, 1, some (cstr "a"), some (cstr "\\")),
        (1, 0, some (cstr "a"), some (cstr "echo %s"))] ∧
    (xfce_appfinder_actions_execute ref_collaborators
        (changes_run [(cstr "/actions/action-2/type", XfconfValue.int 1)]
          (xfce_appfinder_actions_init CStr
            (channel_of_entries two_prefix_entries [1, 2]))).actions
        (cstr "abc")).map (fun o => (o.result, o.error, o.spawned)) =
      some (XFCE_APPFINDER_ACTIONS_SUCCEED, some (cstr "stray final \\"), []) :=
  ⟨by decide, by decide, by decide⟩

end Appfinder
